import Mathlib

/-! Eventra: invoice totals, dashboard aggregation and list handling.

A shallow embedding of the computed parts of the Eventra front end:

* `src/src/components/invoices/InvoiceForm.js`: `calculateItemAmount`, `calculateTotals`,
  `handleSubmit`, `validationSchema`, `handleClientChange`, `generateInvoiceNumber`;
* `src/src/components/events/EventForm.js`: `formattedEndTime` in `fetchData`;
* `src/src/pages/clients/ClientDetail.js`: `calculateTotalRevenue`;
* `src/src/pages/clients/Clients.js`: `filteredClients`;
* `src/src/pages/invoices/Invoices.js`: `filteredInvoices`, `handleDeleteConfirm`;
* `src/src/pages/dashboard/Dashboard.js`: the body of `fetchDashboardData` (upcoming events,
  statistics, event types, monthly revenue and client-growth series).

JavaScript numbers come in two forms. In the first sections they are idealised: a finite
number is an exact rational, `NaN` is kept as a separate value, and the infinities (overflow)
are left out. The section on double-precision numbers gives the binary64 arithmetic with its
rounding and its overflow, and writes the invoice totals and the revenue sums of the dashboard
over it; the properties that depend on rounding or on overflow are stated there.
-/

namespace Eventra

/-! ## JavaScript values -/

/-- A JavaScript number: a finite value (idealised as an exact rational) or `NaN`. -/
inductive Num where
  | val (q : ℚ)
  | nan
  deriving DecidableEq

namespace Num

/-- The JavaScript `a + b` on numbers. -/
def add : Num → Num → Num
  | val a, val b => val (a + b)
  | _, _ => nan

/-- The JavaScript `a - b` on numbers. -/
def sub : Num → Num → Num
  | val a, val b => val (a - b)
  | _, _ => nan

/-- The JavaScript `a * b` on numbers. -/
def mul : Num → Num → Num
  | val a, val b => val (a * b)
  | _, _ => nan

/-- The JavaScript `a / b` on numbers. A zero divisor gives an infinity or `NaN` in JavaScript;
the infinities are outside this model, and the program only ever divides by the literal `100`. -/
def div : Num → Num → Num
  | val a, val b => if b = 0 then nan else val (a / b)
  | _, _ => nan

/-- The rational behind a number, `0` for `NaN`. -/
def toRat : Num → ℚ
  | val q => q
  | nan => 0

end Num

/-- The values a numeric form field or a stored numeric document field can hold: a number, the
empty string (what the form library stores for a cleared number input) or `undefined` (a field
that is missing from the document). -/
inductive JSVal where
  | number (n : Num)
  | emptyStr
  | undefined
  deriving DecidableEq

namespace JSVal

/-- The JavaScript `parseFloat(v)`: a number is returned as it is, the empty string and
`undefined` give `NaN`. -/
def parseFloat : JSVal → Num
  | number n => n
  | emptyStr => Num.nan
  | undefined => Num.nan

/-- The numeric coercion that JavaScript applies to an operand of `*` (ToNumber): the empty string
becomes `0`, `undefined` becomes `NaN`. -/
def toNumber : JSVal → Num
  | number n => n
  | emptyStr => Num.val 0
  | undefined => Num.nan

/-- The JavaScript truthiness: only a non-zero finite number is truthy among these values
(`0`, `NaN`, `''` and `undefined` are falsy). -/
def truthy : JSVal → Bool
  | number (Num.val q) => decide (q ≠ 0)
  | _ => false

/-- The JavaScript `v || 0`, as a number. -/
def orZero (v : JSVal) : Num :=
  match v with
  | number n => if truthy (number n) then n else Num.val 0
  | _ => Num.val 0

/-- The rational behind a field value, `0` when it is not a finite number. -/
def toRat : JSVal → ℚ
  | number n => n.toRat
  | _ => 0

/-- A finite number as a field value. -/
def ofRat (q : ℚ) : JSVal := number (Num.val q)

end JSVal

/-! ## Invoice form (`InvoiceForm.js`) -/

/-- A line item of the invoice form: `{ description, quantity, unitPrice, amount }`. -/
structure Item where
  description : String
  quantity : JSVal
  unitPrice : JSVal
  amount : JSVal
  deriving DecidableEq

/-- The form values (`initialValues` in `InvoiceForm.js`). The two date fields hold the text of
the date inputs. -/
structure Values where
  invoiceNumber : String
  clientId : String
  eventId : String
  issueDate : String
  dueDate : String
  status : String
  items : List Item
  subtotal : JSVal
  taxRate : JSVal
  taxAmount : JSVal
  discountType : String
  discountValue : JSVal
  discountAmount : JSVal
  amount : JSVal
  notes : String
  deriving DecidableEq

/-- The record returned by `calculateTotals`. -/
structure Totals where
  subtotal : Num
  taxAmount : Num
  discountAmount : Num
  amount : Num
  deriving DecidableEq

/-- `calculateItemAmount(quantity, unitPrice)`:
`parseFloat(quantity) * parseFloat(unitPrice)`. -/
def calculateItemAmount (quantity unitPrice : JSVal) : Num :=
  Num.mul quantity.parseFloat unitPrice.parseFloat

/-- The `reduce` of `calculateTotals` that builds the subtotal. -/
def subtotalOf (items : List Item) : Num :=
  items.foldl (fun total item => Num.add total (calculateItemAmount item.quantity item.unitPrice))
    (Num.val 0)

/-- `calculateTotals(values)`. -/
def calculateTotals (values : Values) : Totals :=
  let subtotal := subtotalOf values.items
  let taxAmount := Num.div (Num.mul subtotal values.taxRate.toNumber) (Num.val 100)
  let discountAmount :=
    if values.discountType = "percentage" then
      Num.div (Num.mul subtotal values.discountValue.toNumber) (Num.val 100)
    else
      (JSVal.number values.discountValue.parseFloat).orZero
  let amount := Num.sub (Num.add subtotal taxAmount) discountAmount
  { subtotal := subtotal, taxAmount := taxAmount, discountAmount := discountAmount,
    amount := amount }

/-- A line item as written by `handleSubmit`: `{ ...item, amount: calculateItemAmount(...) }`,
the fields of the form item with `amount` replaced by a freshly computed number. -/
structure WrittenItem where
  description : String
  quantity : JSVal
  unitPrice : JSVal
  amount : Num
  deriving DecidableEq

/-- The record that `handleSubmit` writes (`invoiceData`), without the server timestamps. The
dates are kept as the text they are built from. -/
structure InvoiceData where
  invoiceNumber : String
  clientId : String
  eventId : String
  issueDate : String
  dueDate : String
  status : String
  items : List WrittenItem
  subtotal : Num
  taxRate : JSVal
  taxAmount : Num
  discountType : String
  discountValue : JSVal
  discountAmount : Num
  amount : Num
  notes : String

/-- The `invoiceData` built by `handleSubmit(values)`: the form values with the four totals
overwritten by `calculateTotals(values)` and every item's `amount` overwritten by
`calculateItemAmount(item.quantity, item.unitPrice)`. -/
def handleSubmit (values : Values) : InvoiceData :=
  let totals := calculateTotals values
  { invoiceNumber := values.invoiceNumber
    clientId := values.clientId
    eventId := values.eventId
    issueDate := values.issueDate
    dueDate := values.dueDate
    status := values.status
    items := values.items.map
      (fun item =>
        { description := item.description, quantity := item.quantity,
          unitPrice := item.unitPrice,
          amount := calculateItemAmount item.quantity item.unitPrice })
    subtotal := totals.subtotal
    taxRate := values.taxRate
    taxAmount := totals.taxAmount
    discountType := values.discountType
    discountValue := values.discountValue
    discountAmount := totals.discountAmount
    amount := totals.amount
    notes := values.notes }

/-- An item has a finite numeric quantity and unit price. -/
def Item.Numeric (item : Item) : Prop :=
  ∃ q p : ℚ, item.quantity = JSVal.ofRat q ∧ item.unitPrice = JSVal.ofRat p

/-- The exact sum of `quantity × unitPrice` over the items. -/
def exactSubtotal (items : List Item) : ℚ :=
  (items.map (fun item => item.quantity.toRat * item.unitPrice.toRat)).sum

/-- Form values around a list of items, a tax rate and a discount, everything else blank. -/
def mkValues (items : List Item) (taxRate : JSVal) (discountType : String)
    (discountValue : JSVal) : Values :=
  { invoiceNumber := "", clientId := "", eventId := "", issueDate := "", dueDate := "",
    status := "Draft", items := items, subtotal := JSVal.ofRat 0, taxRate := taxRate,
    taxAmount := JSVal.ofRat 0, discountType := discountType, discountValue := discountValue,
    discountAmount := JSVal.ofRat 0, amount := JSVal.ofRat 0, notes := "" }

/-- A line item with a numeric quantity and unit price and a blank description. -/
def mkItem (q p : ℚ) : Item :=
  { description := "", quantity := JSVal.ofRat q, unitPrice := JSVal.ofRat p,
    amount := JSVal.ofRat 0 }

/-- The form values with other stored totals: the four total fields replaced by `s`, `t`, `x`,
`a` and the stored `amount` of every item replaced by `f item`. -/
def Values.withStored (values : Values) (s t x a : JSVal) (f : Item → JSVal) : Values :=
  { values with
    subtotal := s, taxAmount := t, discountAmount := x, amount := a,
    items := values.items.map (fun item => { item with amount := f item }) }

/-- The sum, in JavaScript arithmetic, of the `amount` fields of the written items. -/
def writtenItemSum (data : InvoiceData) : Num :=
  (data.items.map WrittenItem.amount).foldl Num.add (Num.val 0)

/-! ## Client page (`ClientDetail.js`) -/

/-- An event as read by `calculateTotalRevenue`: its `status` (absent when the document has
none) and its `budget`. -/
structure ClientEvent where
  status : Option String
  budget : JSVal
  deriving DecidableEq

/-- The JavaScript `s.toLowerCase()`, on the ASCII letters. The only strings whose JavaScript
lower-casing is `confirmed` or `completed` are the ASCII spellings of these words, so the test in
`calculateTotalRevenue` is not affected by the letters outside ASCII. -/
def toLowerCase (s : String) : String :=
  String.mk (s.data.map Char.toLower)

/-- The test `['confirmed', 'completed'].includes(event.status?.toLowerCase())`. -/
def isRevenueStatus (event : ClientEvent) : Bool :=
  match event.status with
  | some s => ["confirmed", "completed"].contains (toLowerCase s)
  | none => false

/-- `calculateTotalRevenue(events)`. -/
def calculateTotalRevenue (events : List ClientEvent) : Num :=
  events.foldl
    (fun total event =>
      if isRevenueStatus event then Num.add total event.budget.orZero else total)
    (Num.val 0)

/-- The budget an event brings in: its budget when it is a finite number, `0` otherwise. -/
def budgetValue (event : ClientEvent) : ℚ := event.budget.toRat

/-- The status is exactly `confirmed` or `completed`. -/
def isConfirmedOrCompleted (event : ClientEvent) : Bool :=
  decide (event.status = some "confirmed") || decide (event.status = some "completed")

/-- The status is one of the four statuses of the data model, or missing. -/
def ClientEvent.KnownStatus (event : ClientEvent) : Prop :=
  event.status = none ∨ event.status = some "tentative" ∨ event.status = some "confirmed" ∨
    event.status = some "cancelled" ∨ event.status = some "completed"

/-- The budget is a finite number or missing. -/
def ClientEvent.BudgetOk (event : ClientEvent) : Prop :=
  event.budget = JSVal.undefined ∨ ∃ q : ℚ, event.budget = JSVal.ofRat q

/-! ## Dashboard (`Dashboard.js`) -/

/-- An event as read by the dashboard. `date` is the time value (milliseconds) of the `Date`
the code converts `event.date` to, `none` for an invalid date. -/
structure DashEvent where
  id : String
  type : Option String
  date : Option Int
  deriving DecidableEq

/-- The filter `eventDate >= now` (false for an invalid date). -/
def isUpcoming (now : Int) (event : DashEvent) : Bool :=
  match event.date with
  | some t => decide (now ≤ t)
  | none => false

/-- The comparator `dateA - dateB` as the order the sort sees: `a` may stay before `b` unless the
difference is positive (a `NaN` difference counts as `0`). -/
def dateLe (a b : DashEvent) : Bool :=
  match a.date, b.date with
  | some x, some y => decide (x - y ≤ 0)
  | _, _ => true

/-- The `upcoming` list: `allEvents.filter(...).sort(...).slice(0, 5)`. `Array.prototype.sort`
is a stable sort. -/
def upcoming (allEvents : List DashEvent) (now : Int) : List DashEvent :=
  ((allEvents.filter (isUpcoming now)).mergeSort dateLe).take 5

/-- The time value of the event's date, `0` for an invalid date. -/
def DashEvent.time (event : DashEvent) : Int := event.date.getD 0

/-- A valid `Date` seen through its local calendar fields: `getFullYear()`, `getMonth()` and the
milliseconds elapsed since the start of that month. Dates are ordered by these fields (the local
time zone is taken to have a fixed offset). -/
structure LocalDate where
  year : Int
  month : Fin 12
  sinceMonthStart : Nat
  deriving DecidableEq

/-- The number of the calendar month of a date, counted from January of year 0. -/
def LocalDate.monthIndex (d : LocalDate) : Int := d.year * 12 + (d.month.val : Int)

/-- The comparison `a >= b` of two valid dates. -/
def LocalDate.ge (a b : LocalDate) : Bool :=
  decide (b.monthIndex < a.monthIndex) ||
    (decide (a.monthIndex = b.monthIndex) && decide (b.sinceMonthStart ≤ a.sinceMonthStart))

/-- The year the `Date` constructor takes for a year argument: 1900 is added to 0..99. -/
def constructorYear (year : Int) : Int :=
  if 0 ≤ year ∧ year ≤ 99 then 1900 + year else year

/-- `new Date(year, month, 1)`: a year from 0 to 99 stands for 1900 + year, and a month outside
0..11 carries into the year. -/
def firstOfMonth (year month : Int) : LocalDate :=
  { year := constructorYear year + month / 12, month := Fin.ofNat (month % 12).toNat,
    sinceMonthStart := 0 }

/-- `toLocaleString('default', { month: 'short' })` in an English locale. -/
def monthShort (m : Fin 12) : String :=
  match m.val with
  | 0 => "Jan" | 1 => "Feb" | 2 => "Mar" | 3 => "Apr" | 4 => "May" | 5 => "Jun"
  | 6 => "Jul" | 7 => "Aug" | 8 => "Sep" | 9 => "Oct" | 10 => "Nov" | _ => "Dec"

/-- The bucket key of a date: the short month name, a space, and `getFullYear()`. -/
def monthKey (d : LocalDate) : String :=
  monthShort d.month ++ " " ++ toString d.year

/-- A JavaScript object with string keys and number values, as its list of properties in
insertion order. -/
abbrev JSObject := List (String × Num)

/-- The property read `obj[key]`, `none` for `undefined`. -/
def JSObject.get (obj : JSObject) (key : String) : Option Num :=
  obj.lookup key

/-- The property write `obj[key] = v`: an existing property keeps its place, a new one goes to
the end. -/
def JSObject.set (obj : JSObject) (key : String) (v : Num) : JSObject :=
  if obj.any (fun p => p.1 == key) then
    obj.map (fun p => if p.1 == key then (key, v) else p)
  else
    obj ++ [(key, v)]

/-- `Object.keys(obj)`. -/
def JSObject.keys (obj : JSObject) : List String := obj.map Prod.fst

/-- The loop "Initialize all months with 0": for `i` from 0 to 5 the key of
`new Date(today.getFullYear(), today.getMonth() - i, 1)` is set to 0. -/
def initMonths (today : LocalDate) : JSObject :=
  (List.range 6).foldl
    (fun obj i =>
      obj.set (monthKey (firstOfMonth today.year ((today.month.val : Int) - (i : Int))))
        (Num.val 0))
    []

/-- `sixMonthsAgo`: `new Date(today.getFullYear(), today.getMonth() - 5, 1)`. -/
def sixMonthsAgo (today : LocalDate) : LocalDate :=
  firstOfMonth today.year ((today.month.val : Int) - 5)

/-- The inner step of both charts: with `monthKey` the key of `d`,
`if (obj[monthKey] !== undefined) obj[monthKey] += v`. -/
def addToMonth (obj : JSObject) (d : LocalDate) (v : Num) : JSObject :=
  match obj.get (monthKey d) with
  | some cur => obj.set (monthKey d) (Num.add cur v)
  | none => obj

/-- An invoice as read by the dashboard: `amount`, and `issueDate` after its conversion to a
`Date` (`none` for an invalid date). -/
structure Invoice where
  amount : JSVal
  issueDate : Option LocalDate
  deriving DecidableEq

/-- A client as read by the dashboard: `createdAt` after its conversion to a `Date`. -/
structure Client where
  createdAt : Option LocalDate
  deriving DecidableEq

/-- The body of `invoices.forEach` in the revenue chart. The amount is added only when it is
truthy, and a truthy amount is a number. -/
def addInvoice (start : LocalDate) (obj : JSObject) (invoice : Invoice) : JSObject :=
  match invoice.issueDate with
  | some d =>
    if d.ge start && invoice.amount.truthy then addToMonth obj d invoice.amount.toNumber
    else obj
  | none => obj

/-- The body of `allClients.forEach` in the client-growth chart. -/
def addClient (start : LocalDate) (obj : JSObject) (client : Client) : JSObject :=
  match client.createdAt with
  | some d => if d.ge start then addToMonth obj d (Num.val 1) else obj
  | none => obj

/-- The object `revenueByMonth` after both loops. -/
def revenueByMonth (today : LocalDate) (invoices : List Invoice) : JSObject :=
  invoices.foldl (addInvoice (sixMonthsAgo today)) (initMonths today)

/-- The object `clientsByMonth` after both loops. -/
def clientsByMonth (today : LocalDate) (allClients : List Client) : JSObject :=
  allClients.foldl (addClient (sixMonthsAgo today)) (initMonths today)

/-- `monthLabels`: `Object.keys(revenueByMonth).reverse()`. -/
def monthLabels (today : LocalDate) (invoices : List Invoice) : List String :=
  (revenueByMonth today invoices).keys.reverse

/-- `monthData`: `monthLabels.map(month => revenueByMonth[month])`. -/
def monthData (today : LocalDate) (invoices : List Invoice) : List (Option Num) :=
  (monthLabels today invoices).map (fun month => (revenueByMonth today invoices).get month)

/-- `clientMonthLabels`: `Object.keys(clientsByMonth).reverse()`. -/
def clientMonthLabels (today : LocalDate) (allClients : List Client) : List String :=
  (clientsByMonth today allClients).keys.reverse

/-- `clientMonthData`: `clientMonthLabels.map(month => clientsByMonth[month])`. -/
def clientMonthData (today : LocalDate) (allClients : List Client) : List (Option Num) :=
  (clientMonthLabels today allClients).map
    (fun month => (clientsByMonth today allClients).get month)

/-- The month initialised in round `i` of the loop: the date
`new Date(today.getFullYear(), today.getMonth() - i, 1)`. -/
def windowMonth (today : LocalDate) (i : Nat) : LocalDate :=
  firstOfMonth today.year ((today.month.val : Int) - (i : Int))

/-- What an invoice adds to the bucket `key`: its amount when it is dated on or after `start`
in the month of that key, `0` otherwise. -/
def invoiceShare (start : LocalDate) (key : String) (invoice : Invoice) : ℚ :=
  match invoice.issueDate with
  | some d => if d.ge start && decide (monthKey d = key) then invoice.amount.toRat else 0
  | none => 0

/-- What a client adds to the bucket `key`: `1` when created on or after `start` in the month
of that key, `0` otherwise. -/
def clientShare (start : LocalDate) (key : String) (client : Client) : ℚ :=
  match client.createdAt with
  | some d => if d.ge start && decide (monthKey d = key) then 1 else 0
  | none => 0

/-- The calendar month with a given month number, as the date of its first instant. -/
def monthOfIndex (idx : Int) : LocalDate :=
  { year := idx / 12, month := Fin.ofNat (idx % 12).toNat, sinceMonthStart := 0 }

/-- The amount an invoice adds to its month: its amount when it is a finite number, `0` when
the amount is missing. -/
def Invoice.value (invoice : Invoice) : ℚ := invoice.amount.toRat

/-- The invoice is dated in the calendar month number `idx`. -/
def Invoice.inMonth (idx : Int) (invoice : Invoice) : Bool :=
  match invoice.issueDate with
  | some d => decide (d.monthIndex = idx)
  | none => false

/-- The client was created in the calendar month number `idx`. -/
def Client.inMonth (idx : Int) (client : Client) : Bool :=
  match client.createdAt with
  | some d => decide (d.monthIndex = idx)
  | none => false

/-- The invoice is dated in one of the six calendar months that end with the month of `today`. -/
def Invoice.inWindow (today : LocalDate) (invoice : Invoice) : Bool :=
  match invoice.issueDate with
  | some d =>
    decide (today.monthIndex - 5 ≤ d.monthIndex) && decide (d.monthIndex ≤ today.monthIndex)
  | none => false

/-- The client was created in one of the six calendar months that end with the month of
`today`. -/
def Client.inWindow (today : LocalDate) (client : Client) : Bool :=
  match client.createdAt with
  | some d =>
    decide (today.monthIndex - 5 ≤ d.monthIndex) && decide (d.monthIndex ≤ today.monthIndex)
  | none => false

/-- The sum of the amounts of the invoices dated in the calendar month number `idx`. -/
def monthRevenue (invoices : List Invoice) (idx : Int) : ℚ :=
  ((invoices.filter (Invoice.inMonth idx)).map Invoice.value).sum

/-- The number of clients created in the calendar month number `idx`. -/
def monthClients (allClients : List Client) (idx : Int) : ℚ :=
  ((allClients.filter (Client.inMonth idx)).length : ℚ)

/-- A current date in January 2024, where the six-month window starts in August 2023. -/
def januaryToday : LocalDate := { year := 2024, month := 0, sinceMonthStart := 1000 }

/-- Invoices around the window of `januaryToday`: one in July 2023 (too early), one in
February 2024 (too late), three in the window, one without amount and one without a valid
date. -/
def januaryInvoices : List Invoice :=
  [{ amount := JSVal.ofRat 50, issueDate := some ⟨2023, 6, 99999⟩ },
   { amount := JSVal.ofRat 100, issueDate := some ⟨2023, 7, 0⟩ },
   { amount := JSVal.ofRat 7, issueDate := some ⟨2024, 0, 5⟩ },
   { amount := JSVal.ofRat 9, issueDate := some ⟨2024, 1, 5⟩ },
   { amount := JSVal.undefined, issueDate := some ⟨2024, 0, 5⟩ },
   { amount := JSVal.ofRat 3, issueDate := none },
   { amount := JSVal.ofRat 13, issueDate := some ⟨2024, 0, 50⟩ }]

/-! ## Decimal numerals (for the year in a bucket key) -/

/-- The number a list of decimal digit characters stands for. -/
def decodeDigits (cs : List Char) : Nat :=
  cs.foldl (fun acc c => acc * 10 + (c.toNat - 48)) 0

/-- The integer a decimal numeral with an optional leading minus sign stands for. -/
def decodeInt (cs : List Char) : Int :=
  match cs with
  | '-' :: rest => -(decodeDigits rest : Int)
  | _ => (decodeDigits cs : Int)

/-! ## Event types (`Dashboard.js`) -/

/-- A value stored under a key of `eventTypes`: a number, or a string (what `+ 1` makes of a
value that is not a number; its text is not modelled). -/
inductive Cell where
  | number (n : Num)
  | text
  deriving DecidableEq

/-- The names of the properties that an object created by `{}` inherits from
`Object.prototype`. -/
def objectPrototypeNames : List String :=
  ["constructor", "__defineGetter__", "__defineSetter__", "hasOwnProperty",
   "__lookupGetter__", "__lookupSetter__", "isPrototypeOf", "propertyIsEnumerable",
   "toString", "valueOf", "__proto__", "toLocaleString"]

/-- What the read `eventTypes[key]` finds: nothing (`undefined`), an own property, or a
property inherited from `Object.prototype` (a function, or the prototype object itself for
`__proto__`). -/
inductive Lookup where
  | undefined
  | own (c : Cell)
  | inherited
  deriving DecidableEq

/-- The object `eventTypes`, as its list of own properties in insertion order. -/
abbrev TypeCounts := List (String × Cell)

/-- The read `eventTypes[key]`: an own property first, then the prototype. -/
def TypeCounts.read (obj : TypeCounts) (key : String) : Lookup :=
  match obj.lookup key with
  | some c => Lookup.own c
  | none => if key ∈ objectPrototypeNames then Lookup.inherited else Lookup.undefined

/-- The expression `(x || 0) + 1` for what the read found: a truthy number is incremented, a
falsy value gives `0 + 1`, and a string, function or object is truthy and `+ 1` appends to its
text. -/
def Lookup.plusOne : Lookup → Cell
  | Lookup.undefined => Cell.number (Num.val 1)
  | Lookup.own (Cell.number n) =>
    if (JSVal.number n).truthy then Cell.number (Num.add n (Num.val 1))
    else Cell.number (Num.val 1)
  | Lookup.own Cell.text => Cell.text
  | Lookup.inherited => Cell.text

/-- The write `eventTypes[key] = c` of a number or string: the key `__proto__` reaches the
setter of `Object.prototype`, which ignores a value that is not an object; an existing own
property keeps its place and a new one goes to the end. -/
def TypeCounts.write (obj : TypeCounts) (key : String) (c : Cell) : TypeCounts :=
  if key = "__proto__" then obj
  else if obj.any (fun p => p.1 == key) then
    obj.map (fun p => if p.1 == key then (key, c) else p)
  else
    obj ++ [(key, c)]

/-- The body of `allEvents.forEach` for the event-type chart:
`if (event.type) eventTypes[event.type] = (eventTypes[event.type] || 0) + 1`. A missing type
and the empty string are falsy. -/
def countEvent (obj : TypeCounts) (event : DashEvent) : TypeCounts :=
  match event.type with
  | some t => if t ≠ "" then obj.write t (obj.read t).plusOne else obj
  | none => obj

/-- The object `eventTypes` after the loop. -/
def eventTypes (allEvents : List DashEvent) : TypeCounts :=
  allEvents.foldl countEvent []

/-- The event has the type `t`. -/
def DashEvent.hasType (t : String) (event : DashEvent) : Bool :=
  decide (event.type = some t)

/-- The event has a type that is not the empty string. -/
def DashEvent.typed (event : DashEvent) : Bool :=
  match event.type with
  | some t => decide (t ≠ "")
  | none => false

/-- The number of events of type `t`. -/
def typeCount (allEvents : List DashEvent) (t : String) : Nat :=
  (allEvents.filter (DashEvent.hasType t)).length

/-- The number behind a cell, `0` for a string. -/
def Cell.toRat : Cell → ℚ
  | Cell.number n => n.toRat
  | Cell.text => 0

/-! ## Validation of the invoice form (`InvoiceForm.js`) -/

/-- The schema `Yup.string().required()`: the string must not be empty. -/
def requiredString (s : String) : Bool := decide (s ≠ "")

/-- The schema `Yup.number().required().min(m)`: the value must be a number, not `NaN`, and at
least `m`; the empty string is cast to `NaN` and a missing value is not allowed. -/
def requiredNumberMin (m : ℚ) : JSVal → Bool
  | JSVal.number (Num.val q) => decide (m ≤ q)
  | _ => false

/-- The schema of one line item (the `Yup.object().shape` inside `items`). -/
def itemSchema (item : Item) : Bool :=
  requiredString item.description && requiredNumberMin 1 item.quantity &&
    requiredNumberMin 0 item.unitPrice

/-- The schema of `items`: `Yup.array().of(...).min(1)`. -/
def itemsSchema (items : List Item) : Bool :=
  items.all itemSchema && decide (1 ≤ items.length)

/-- `validationSchema`. The two `Yup.date().required()` rules accept the texts that the library
reads as a date, given by `isDate`. The schema has no rule for the tax rate or the discount. -/
def validationSchema (isDate : String → Bool) (values : Values) : Bool :=
  requiredString values.invoiceNumber && requiredString values.clientId &&
    isDate values.issueDate && isDate values.dueDate && requiredString values.status &&
    itemsSchema values.items

/-- The constraint validation that the browser applies to an `<input type="number">` with the
attributes `min`, `max` and `step` before a form is submitted: a number must lie in the range
and be `min` plus a whole multiple of `step`; an input without a number is empty, which is
allowed as none of the inputs is `required`. -/
def numberInputValid (min : ℚ) (max : Option ℚ) (step : ℚ) : JSVal → Bool
  | JSVal.number (Num.val q) =>
    decide (min ≤ q) &&
      (match max with
        | some m => decide (q ≤ m)
        | none => true) &&
      decide (((q - min) / step).den = 1)
  | _ => true

/-- The constraints of the number inputs of the form: quantity (`min="1"`), unit price
(`min="0" step="0.01"`), tax rate (`min="0" max="100" step="0.01"`) and discount value
(`min="0"`, with `step="0.01" max="100"` for a percentage and `step="1"` and no maximum
otherwise). The amount input is disabled and takes no part. -/
def inputsValid (values : Values) : Bool :=
  values.items.all (fun item =>
      numberInputValid 1 none 1 item.quantity &&
        numberInputValid 0 none (1 / 100) item.unitPrice) &&
    numberInputValid 0 (some 100) (1 / 100) values.taxRate &&
    (if values.discountType = "percentage" then
      numberInputValid 0 (some 100) (1 / 100) values.discountValue
    else numberInputValid 0 none 1 values.discountValue)

/-- The form lets a submission through when the inputs satisfy their constraints (otherwise
the browser fires no submit event) and the values pass `validationSchema` (otherwise the form
library does not call `onSubmit`). -/
def formAccepts (isDate : String → Bool) (values : Values) : Bool :=
  inputsValid values && validationSchema isDate values

/-- A submission of the form: `handleSubmit` runs, computes the totals and builds the record
to write, only for accepted values. -/
def submitForm (isDate : String → Bool) (values : Values) : Option InvoiceData :=
  if formAccepts isDate values then some (handleSubmit values) else none

/-! ## Order of the upcoming events -/

/-- The upcoming events after `filter` and `sort`, before `slice(0, 5)`. -/
def sortedUpcoming (allEvents : List DashEvent) (now : Int) : List DashEvent :=
  (allEvents.filter (isUpcoming now)).mergeSort dateLe

/-- The order of the time values of two events. -/
def timeLe (a b : DashEvent) : Bool := decide (a.time ≤ b.time)

/-- The event is dated at the time `t`. -/
def DashEvent.datedAt (t : Int) (event : DashEvent) : Bool := decide (event.date = some t)

/-! ## Example form values -/

/-- Form values with one item of quantity 1 and unit price 100, a tax rate of 10 and a fixed
discount of 200, more than the subtotal and the tax together. -/
def overDiscounted : Values :=
  { invoiceNumber := "INV-2401-0001", clientId := "client-1", eventId := "",
    issueDate := "2024-01-15", dueDate := "2024-02-15", status := "Draft",
    items := [{ description := "Venue", quantity := JSVal.ofRat 1,
                unitPrice := JSVal.ofRat 100, amount := JSVal.ofRat 100 }],
    subtotal := JSVal.ofRat 100, taxRate := JSVal.ofRat 10, taxAmount := JSVal.ofRat 10,
    discountType := "fixed", discountValue := JSVal.ofRat 200,
    discountAmount := JSVal.ofRat 200, amount := JSVal.ofRat (-90), notes := "" }

/-- A line item whose quantity input has been cleared, with unit price 10. -/
def clearedItem : Item :=
  { description := "Flowers", quantity := JSVal.emptyStr, unitPrice := JSVal.ofRat 10,
    amount := JSVal.ofRat 0 }

/-- The quantity and unit price of an item, the two fields that `calculateTotals` reads. -/
def Item.inputs (item : Item) : JSVal × JSVal := (item.quantity, item.unitPrice)

/-- The values of `overDiscounted` with the quantity of the item set to 0. -/
def zeroQuantity : Values :=
  { overDiscounted with items := [mkItem 0 100] }

/-- The values of `overDiscounted` with a percentage discount of 150. -/
def percentOver : Values :=
  { overDiscounted with discountType := "percentage", discountValue := JSVal.ofRat 150 }

/-- The values of `overDiscounted` with a fixed discount of −5. -/
def negativeDiscount : Values :=
  { overDiscounted with discountValue := JSVal.ofRat (-5) }

/-- A stand-in for the date rule of the schema: every text but the empty one is a date. -/
def nonEmptyDate (s : String) : Bool := decide (s ≠ "")

/-- An event of a given type, without a date. -/
def eventOfType (id t : String) : DashEvent := { id := id, type := some t, date := none }

/-- Three events for the stability of the sort: two dated at time 10 around one dated at
time 5. -/
def tiedEvents : List DashEvent :=
  [⟨"first", none, some 10⟩, ⟨"early", none, some 5⟩, ⟨"second", none, some 10⟩]

/-- The non-empty type strings of the events, one entry per event. -/
def nonEmptyTypes (allEvents : List DashEvent) : List String :=
  allEvents.filterMap (fun e =>
    match e.type with
    | some t => if t ≠ "" then some t else none
    | none => none)

/-! ## Statistics of the dashboard (`Dashboard.js`) -/

/-- `totalRevenue`: `invoices.map(invoice => invoice.amount || 0).reduce((sum, amount) =>
sum + amount, 0)`. -/
def totalRevenue (invoices : List Invoice) : Num :=
  (invoices.map (fun invoice => invoice.amount.orZero)).foldl Num.add (Num.val 0)

/-- The object passed to `setStats`; `totalClients` is the size of the client snapshot. -/
structure Stats where
  totalEvents : Nat
  upcomingEvents : Nat
  totalClients : Nat
  totalRevenue : Num

/-- The statistics set by `fetchDashboardData`. -/
def dashboardStats (allEvents : List DashEvent) (now : Int) (allClients : List Client)
    (invoices : List Invoice) : Stats :=
  { totalEvents := allEvents.length
    upcomingEvents := (upcoming allEvents now).length
    totalClients := allClients.length
    totalRevenue := totalRevenue invoices }

/-- The number shown by a chart bucket: the value behind the entry, `0` for `undefined`. -/
def bucketValue : Option Num → ℚ
  | some n => n.toRat
  | none => 0

/-- The sum of the bucket values of a series. -/
def bucketSum (data : List (Option Num)) : ℚ := (data.map bucketValue).sum

/-! ## Texts: padding, searching (`String.prototype`) -/

/-- The JavaScript `s.padStart(n, '0')`. -/
def padStart (n : Nat) (s : String) : String :=
  String.mk (List.replicate (n - s.data.length) '0' ++ s.data)

/-- The JavaScript `s.substr(-2)`: the last two characters, or all of a shorter string. -/
def substrLast2 (s : String) : String :=
  String.mk (s.data.drop (s.data.length - 2))

/-- The JavaScript `s.includes(t)`: `t` occurs in `s` as a contiguous piece. -/
def jsIncludes (s t : String) : Bool := decide (t.data <:+: s.data)

/-- The test `x?.toLowerCase().includes(term.toLowerCase())`, falsy when `x` is missing. -/
def optIncludesLower (x : Option String) (term : String) : Bool :=
  match x with
  | some s => jsIncludes (toLowerCase s) (toLowerCase term)
  | none => false

/-- The test `x?.includes(term)`, falsy when `x` is missing. -/
def optIncludes (x : Option String) (term : String) : Bool :=
  match x with
  | some s => jsIncludes s term
  | none => false

/-- The text a template literal prints for a field that may be missing. -/
def templateText : Option String → String
  | some s => s
  | none => "undefined"

/-! ## Event form (`EventForm.js`) -/

/-- `formattedEndTime` in `fetchData`: the hours and minutes of the stored end time when the
event has one (`endTime`, as the hours and minutes of its date), otherwise the start hours
plus 2 and the start minutes, each printed with `padStart(2, '0')`. -/
def formattedEndTime (hours minutes : Nat) (endTime : Option (Nat × Nat)) : String :=
  let endHours :=
    match endTime with
    | some e => e.1
    | none => hours + 2
  let endMinutes :=
    match endTime with
    | some e => e.2
    | none => minutes
  padStart 2 (toString endHours) ++ ":" ++ padStart 2 (toString endMinutes)

/-- The text `HH:MM` of a clock time, two decimal digits each. -/
def clockText (h m : Nat) : String :=
  String.mk [Nat.digitChar (h / 10), Nat.digitChar (h % 10), ':',
    Nat.digitChar (m / 10), Nat.digitChar (m % 10)]

/-- The text is a 24-hour clock time `HH:MM`: two digits from 00 to 23, a colon, two digits
from 00 to 59. -/
def isClockTime (s : String) : Bool :=
  match s.data with
  | [a, b, ':', c, d] =>
    a.isDigit && b.isDigit && c.isDigit && d.isDigit &&
      decide ((a.toNat - 48) * 10 + (b.toNat - 48) ≤ 23) &&
      decide ((c.toNat - 48) * 10 + (d.toNat - 48) ≤ 59)
  | _ => false

/-! ## Invoice number (`InvoiceForm.js`) -/

/-- `generateInvoiceNumber()`, for the current date `date` and the value `random` returned by
`Math.random()`. -/
def generateInvoiceNumber (date : LocalDate) (random : ℚ) : String :=
  let year := substrLast2 (toString date.year)
  let month := padStart 2 (toString (date.month.val + 1))
  let random := padStart 4 (toString (Int.floor (random * 10000)))
  "INV-" ++ year ++ month ++ "-" ++ random

/-- The text `INV-YYMM-RRRR` for the two-digit year `yy`, the month number `mm` and the number
`r`, every digit written out. -/
def invoiceNumberText (yy mm r : Nat) : String :=
  String.mk ['I', 'N', 'V', '-', Nat.digitChar (yy / 10), Nat.digitChar (yy % 10),
    Nat.digitChar (mm / 10), Nat.digitChar (mm % 10), '-',
    Nat.digitChar (r / 1000), Nat.digitChar (r / 100 % 10), Nat.digitChar (r / 10 % 10),
    Nat.digitChar (r % 10)]

/-! ## Invoice list (`Invoices.js`) -/

/-- The client attached to a listed invoice (`invoice.client`), with its `name`. -/
structure InvoiceClient where
  name : Option String
  deriving DecidableEq

/-- The event attached to a listed invoice (`invoice.event`), with its `title`. -/
structure InvoiceEvent where
  title : Option String
  deriving DecidableEq

/-- An invoice of the invoice list. A field that the document lacks is `none`. -/
structure ListedInvoice where
  id : String
  invoiceNumber : Option String
  client : Option InvoiceClient
  event : Option InvoiceEvent
  status : Option String
  deriving DecidableEq

/-- `invoice.client?.name`. -/
def ListedInvoice.clientName (invoice : ListedInvoice) : Option String :=
  invoice.client.bind InvoiceClient.name

/-- `invoice.event?.title`. -/
def ListedInvoice.eventTitle (invoice : ListedInvoice) : Option String :=
  invoice.event.bind InvoiceEvent.title

/-- `filteredInvoices`: the invoices for which `matchesSearch && matchesStatus` is truthy. -/
def filteredInvoices (invoices : List ListedInvoice) (searchTerm filterStatus : String) :
    List ListedInvoice :=
  invoices.filter (fun invoice =>
    let matchesSearch :=
      optIncludesLower invoice.invoiceNumber searchTerm ||
        optIncludesLower invoice.clientName searchTerm ||
        optIncludesLower invoice.eventTitle searchTerm
    let matchesStatus :=
      decide (filterStatus = "all") || decide (invoice.status = some filterStatus)
    matchesSearch && matchesStatus)

/-- The invoice has at least one of `invoiceNumber`, `client.name` and `event.title`. -/
def ListedInvoice.searchable (invoice : ListedInvoice) : Bool :=
  invoice.invoiceNumber.isSome || invoice.clientName.isSome || invoice.eventTitle.isSome

/-- The invoice list after `handleDeleteConfirm`: nothing happens when no invoice is selected
or when `deleteDoc` fails (`deleted = false`); after a successful deletion the list is
`invoices.filter(invoice => invoice.id !== invoiceToDelete.id)`. -/
def handleDeleteConfirm (invoices : List ListedInvoice) (invoiceToDelete : Option ListedInvoice)
    (deleted : Bool) : List ListedInvoice :=
  match invoiceToDelete with
  | none => invoices
  | some target =>
    if deleted then invoices.filter (fun invoice => decide (invoice.id ≠ target.id))
    else invoices

/-! ## Client list (`Clients.js`) -/

/-- A client of the client list. A field that the document lacks is `none`. -/
structure ListedClient where
  id : String
  firstName : Option String
  lastName : Option String
  email : Option String
  company : Option String
  phone : Option String
  type : Option String
  deriving DecidableEq

/-- `filteredClients`: the clients for which `matchesSearch && matchesType` is truthy. -/
def filteredClients (clients : List ListedClient) (searchTerm filterType : String) :
    List ListedClient :=
  clients.filter (fun client =>
    let fullName :=
      toLowerCase (templateText client.firstName ++ " " ++ templateText client.lastName)
    let matchesSearch :=
      jsIncludes fullName (toLowerCase searchTerm) ||
        optIncludesLower client.email searchTerm ||
        optIncludesLower client.company searchTerm ||
        optIncludes client.phone searchTerm
    let matchesType := decide (filterType = "all") || decide (client.type = some filterType)
    matchesSearch && matchesType)

/-! ## Choosing the client of an invoice (`InvoiceForm.js`) -/

/-- A client offered by the invoice form. -/
structure FormClient where
  id : String
  deriving DecidableEq

/-- An event offered by the invoice form, with the client it belongs to. -/
structure FormEvent where
  id : String
  clientId : Option String
  deriving DecidableEq

/-- The part of the form that `handleClientChange` writes: the fields `clientId` and `eventId`
and the component state `selectedClient` and `selectedEvent`. -/
structure Selection where
  clientId : String
  eventId : String
  selectedClient : Option FormClient
  selectedEvent : Option FormEvent
  deriving DecidableEq

/-- `handleClientChange(e, setFieldValue)` for the chosen value `clientId`. When the id is not
empty but no client of the list has it, the event is left as it was. -/
def handleClientChange (clients : List FormClient) (events : List FormEvent)
    (clientId : String) (st : Selection) : Selection :=
  if clientId ≠ "" then
    match clients.find? (fun c => decide (c.id = clientId)) with
    | some client =>
      match events.filter (fun event => decide (event.clientId = some clientId)) with
      | [only] =>
        { clientId := clientId, eventId := only.id, selectedClient := some client,
          selectedEvent := some only }
      | _ =>
        { clientId := clientId, eventId := "", selectedClient := some client,
          selectedEvent := none }
    | none =>
      { clientId := clientId, eventId := st.eventId, selectedClient := none,
        selectedEvent := st.selectedEvent }
  else
    { clientId := clientId, eventId := "", selectedClient := none, selectedEvent := none }

/-- The events of the list that belong to the client `clientId`. -/
def clientEvents (events : List FormEvent) (clientId : String) : List FormEvent :=
  events.filter (fun event => decide (event.clientId = some clientId))

/-! ## Letter case of a status (`ClientDetail.js`) -/

/-- Two statuses are the same word up to the case of their letters. -/
def sameUpToCase (a b : Option String) : Prop :=
  a.map toLowerCase = b.map toLowerCase

/-- Two events have the same budget and the same status up to letter case. -/
def ClientEvent.sameButCase (a b : ClientEvent) : Prop :=
  sameUpToCase a.status b.status ∧ a.budget = b.budget

/-- Two clients of the client list, one of type `VIP` and one without any field. -/
def exampleClients : List ListedClient :=
  [⟨"c1", some "Ann", some "Lee", none, none, none, some "VIP"⟩,
   ⟨"c2", none, none, none, none, none, none⟩]

/-- Two clients of the invoice form. -/
def exampleFormClients : List FormClient := [⟨"c1"⟩, ⟨"c2"⟩]

/-- Three events of the invoice form: one of client `c1` and two of client `c2`. -/
def exampleFormEvents : List FormEvent :=
  [⟨"e1", some "c1"⟩, ⟨"e2", some "c2"⟩, ⟨"e3", some "c2"⟩]

/-! ## Double-precision numbers (IEEE 754 binary64)

JavaScript numbers are binary64 values, and the operators `+`, `-`, `*`, `/` round their exact
result to the nearest binary64 value (ties to the even mantissa), overflow to an infinity and
give `NaN` for an undefined result. The definitions of this section follow that arithmetic, and
the invoice totals and the revenue sums of the dashboard are written once more over it, next to
the idealised versions above. -/

namespace Ieee

/-- A binary64 value: a finite value `m * 2 ^ e` (written with an odd `m`, or as `0 * 2 ^ 0`),
an infinity with its sign, or `NaN`. The two zeros `+0` and `-0` are one value here; the code
of this development never divides by a computed zero nor inspects the sign of a zero. -/
inductive F64 where
  | fin (m : Int) (e : Int)
  | inf (negative : Bool)
  | nan
  deriving DecidableEq

/-- Division of a non-zero mantissa by two as long as it is even, at most `fuel` times, the
exponent growing by one each time. -/
def stripTwos : Nat → Nat → Int → Nat × Int
  | 0, m, e => (m, e)
  | fuel + 1, m, e => if m % 2 = 0 then stripTwos fuel (m / 2) (e + 1) else (m, e)

/-- The integer nearest to `n / d`, the even one of the two when `n / d` lies half-way. -/
def divRoundEven (n d : Nat) : Nat :=
  let q := n / d
  let r := n % d
  if 2 * r < d then q
  else if d < 2 * r then q + 1
  else if q % 2 = 0 then q else q + 1

/-- The number of binary digits of `n`, for `n < 2 ^ fuel`. -/
def bitLength : Nat → Nat → Nat
  | 0, _ => 0
  | fuel + 1, n => if n = 0 then 0 else bitLength fuel (n / 2) + 1

/-- The position of the leading bit of `n`, for `0 < n < 2 ^ 2200` (the operands of binary64
arithmetic stay below this bound). -/
def floorLog2Nat (n : Nat) : Nat :=
  bitLength 2200 n - 1

/-- The integer `p` with `2 ^ p ≤ n / d < 2 ^ (p + 1)`, for positive `n` and `d`. -/
def floorLog2 (n d : Nat) : Int :=
  let a : Int := (floorLog2Nat n : Int) - (floorLog2Nat d : Int)
  if 0 ≤ a then (if d <<< a.toNat ≤ n then a else a - 1)
  else (if d ≤ n <<< (-a).toNat then a else a - 1)

/-- The exponent of the last place of the binary64 value nearest to `(n / d) * 2 ^ e`, for
positive `n` and `d`: with `p` the exponent of the leading bit of the exact value it is
`p - 52` (53 significant bits), but not below `-1074` (the subnormal numbers). -/
def lastPlace (n d : Nat) (e : Int) : Int :=
  max (floorLog2 n d + e - 52) (-1074)

/-- The integer nearest to `(n / d) * 2 ^ s`, ties going to the even one. -/
def scaled (n d : Nat) (s : Int) : Nat :=
  if 0 ≤ s then divRoundEven (n <<< s.toNat) d else divRoundEven n (d <<< (-s).toNat)

/-- The binary64 value `± mant * 2 ^ k` for a rounded mantissa `mant ≤ 2 ^ 53` with the last
place `k`: zero when the mantissa is 0 (underflow), an infinity when the value is `2 ^ 1024` or
more (overflow), and otherwise the finite number, written with an odd mantissa. -/
def pack (negative : Bool) (mant : Nat) (k : Int) : F64 :=
  if mant = 0 then F64.fin 0 0
  else if 971 < k ∨ (k = 971 ∧ 2 ^ 53 ≤ mant) then F64.inf negative
  else
    F64.fin (if negative then -((stripTwos 53 mant k).1 : Int) else ((stripTwos 53 mant k).1 : Int))
      (stripTwos 53 mant k).2

/-- Rounding to binary64: the value nearest to `± (n / d) * 2 ^ e`, for `d > 0`, ties going to
the even mantissa. The mantissa is the integer nearest to the exact value divided by `2 ^ k`,
where `k` is the exponent of the last place. -/
def roundFrac (negative : Bool) (n d : Nat) (e : Int) : F64 :=
  if n = 0 then F64.fin 0 0
  else pack negative (scaled n d (e - lastPlace n d e)) (lastPlace n d e)

namespace F64

/-- The number `0`. -/
def zero : F64 := fin 0 0

/-- The number a decimal literal with the value `n / d` denotes (`d > 0`): the binary64 value
nearest to it. -/
def ofFrac (n : Int) (d : Nat) : F64 := roundFrac (decide (n < 0)) n.natAbs d 0

/-- The number an integer literal denotes. -/
def ofInt (n : Int) : F64 := ofFrac n 1

/-- The JavaScript `a + b` on numbers: the exact sum of two finite numbers, rounded. -/
def add : F64 → F64 → F64
  | fin m1 e1, fin m2 e2 =>
    let e := min e1 e2
    let t := m1 * ((1 <<< (e1 - e).toNat : Nat) : Int) + m2 * ((1 <<< (e2 - e).toNat : Nat) : Int)
    roundFrac (decide (t < 0)) t.natAbs 1 e
  | nan, _ => nan
  | _, nan => nan
  | inf s, inf t => if s = t then inf s else nan
  | inf s, fin _ _ => inf s
  | fin _ _, inf s => inf s

/-- The JavaScript unary `-a`. -/
def neg : F64 → F64
  | fin m e => fin (-m) e
  | inf s => inf (!s)
  | nan => nan

/-- The JavaScript `a - b` on numbers. -/
def sub (a b : F64) : F64 := add a (neg b)

/-- The JavaScript `a * b` on numbers: the exact product of two finite numbers, rounded;
an infinity times zero is `NaN`. -/
def mul : F64 → F64 → F64
  | fin m1 e1, fin m2 e2 => roundFrac (decide (m1 * m2 < 0)) (m1 * m2).natAbs 1 (e1 + e2)
  | nan, _ => nan
  | _, nan => nan
  | inf s, inf t => inf (xor s t)
  | inf s, fin m _ => if m = 0 then nan else inf (xor s (decide (m < 0)))
  | fin m _, inf s => if m = 0 then nan else inf (xor s (decide (m < 0)))

/-- The JavaScript `a / b` on numbers: the exact quotient of two finite numbers, rounded. A
non-zero number divided by zero is an infinity, `0 / 0` and the quotient of two infinities are
`NaN`. -/
def div : F64 → F64 → F64
  | fin m1 e1, fin m2 e2 =>
    if m2 = 0 then (if m1 = 0 then nan else inf (decide (m1 < 0)))
    else roundFrac (xor (decide (m1 < 0)) (decide (m2 < 0))) m1.natAbs m2.natAbs (e1 - e2)
  | nan, _ => nan
  | _, nan => nan
  | inf _, inf _ => nan
  | inf s, fin m _ => inf (xor s (decide (m < 0)))
  | fin _ _, inf _ => fin 0 0

/-- The exact value of a finite number, `none` for the infinities and `NaN`. -/
def toRat : F64 → Option ℚ
  | fin m e => some ((m : ℚ) * (2 : ℚ) ^ e)
  | _ => none

/-- The exact value of a finite number, `0` for the infinities and `NaN`. -/
def value (a : F64) : ℚ := a.toRat.getD 0

/-- The number is finite. -/
def isFinite : F64 → Bool
  | fin _ _ => true
  | _ => false

/-- The number is `+Infinity` or `-Infinity`. -/
def isInf : F64 → Bool
  | inf _ => true
  | _ => false

/-- The number is `>= 0`: a finite number with a mantissa that is not negative, or
`+Infinity`. -/
def nonneg : F64 → Bool
  | fin m _ => decide (0 ≤ m)
  | inf negative => !negative
  | nan => false

/-- The number is a whole number `>= 0`: a finite number `m * 2 ^ e` with `m ≥ 0` and
`e ≥ 0`. Every binary64 value that is a non-negative integer has this form, since its mantissa
is odd or it is 0. -/
def isWhole : F64 → Bool
  | fin m e => decide (0 ≤ m) && decide (0 ≤ e)
  | _ => false

/-- The operation `op` on `a` and `b`, which computes `f` on exact values, is exact: both
operands are finite and the result is the finite number with the exact value of `f`, so that
nothing is rounded off and nothing overflows. -/
def Exact (op : F64 → F64 → F64) (f : ℚ → ℚ → ℚ) (a b : F64) : Prop :=
  ∃ x y : ℚ, a.toRat = some x ∧ b.toRat = some y ∧ (op a b).toRat = some (f x y)

end F64

/-- The values a numeric form field or a stored numeric document field can hold: a number, the
empty string or `undefined`. -/
inductive JSVal where
  | number (x : F64)
  | emptyStr
  | undefined
  deriving DecidableEq

namespace JSVal

/-- The JavaScript `parseFloat(v)`: a number is returned as it is (printing a number and
reading it back gives the same number), the empty string and `undefined` give `NaN`. -/
def parseFloat : JSVal → F64
  | number x => x
  | emptyStr => F64.nan
  | undefined => F64.nan

/-- The numeric coercion that JavaScript applies to an operand of `*` (ToNumber): the empty string
becomes `0`, `undefined` becomes `NaN`. -/
def toNumber : JSVal → F64
  | number x => x
  | emptyStr => F64.zero
  | undefined => F64.nan

/-- The JavaScript truthiness: a number is truthy unless it is `0` or `NaN`; `''` and
`undefined` are falsy. -/
def truthy : JSVal → Bool
  | number (F64.fin m _) => decide (m ≠ 0)
  | number (F64.inf _) => true
  | _ => false

/-- The JavaScript `v || 0`, as a number. -/
def orZero (v : JSVal) : F64 :=
  match v with
  | number x => if truthy (number x) then x else F64.zero
  | _ => F64.zero

/-- The exact value of a field that holds a finite number, `none` otherwise. -/
def toRat : JSVal → Option ℚ
  | number x => x.toRat
  | _ => none

/-- The field holding the number that the decimal literal `n / d` denotes. -/
def ofFrac (n : Int) (d : Nat) : JSVal := number (F64.ofFrac n d)

/-- The field holds a finite number. -/
def isFiniteNumber : JSVal → Bool
  | number x => x.isFinite
  | _ => false

end JSVal

/-- A line item, with the two fields `calculateTotals` reads. -/
structure Item where
  quantity : JSVal
  unitPrice : JSVal
  deriving DecidableEq

/-- The form values, with the fields `calculateTotals` reads. -/
structure Values where
  items : List Item
  taxRate : JSVal
  discountType : String
  discountValue : JSVal
  deriving DecidableEq

/-- The record returned by `calculateTotals`. -/
structure Totals where
  subtotal : F64
  taxAmount : F64
  discountAmount : F64
  amount : F64
  deriving DecidableEq

/-- `calculateItemAmount(quantity, unitPrice)`:
`parseFloat(quantity) * parseFloat(unitPrice)`. -/
def calculateItemAmount (quantity unitPrice : JSVal) : F64 :=
  F64.mul quantity.parseFloat unitPrice.parseFloat

/-- The callback of the `reduce` of `calculateTotals`. -/
def addItem (total : F64) (item : Item) : F64 :=
  F64.add total (calculateItemAmount item.quantity item.unitPrice)

/-- The `reduce` of `calculateTotals` that builds the subtotal. -/
def subtotalOf (items : List Item) : F64 :=
  items.foldl addItem F64.zero

/-- `calculateTotals(values)`. -/
def calculateTotals (values : Values) : Totals :=
  let subtotal := subtotalOf values.items
  let taxAmount := F64.div (F64.mul subtotal values.taxRate.toNumber) (F64.ofInt 100)
  let discountAmount :=
    if values.discountType = "percentage" then
      F64.div (F64.mul subtotal values.discountValue.toNumber) (F64.ofInt 100)
    else
      (JSVal.number values.discountValue.parseFloat).orZero
  let amount := F64.sub (F64.add subtotal taxAmount) discountAmount
  { subtotal := subtotal, taxAmount := taxAmount, discountAmount := discountAmount,
    amount := amount }

/-- The exact sum over the items of quantity × unitPrice, a field that is not a finite number
counting as 0. -/
def exactSubtotal (items : List Item) : ℚ :=
  (items.map (fun it => it.quantity.parseFloat.value * it.unitPrice.parseFloat.value)).sum

/-- Every multiplication and every addition of the `reduce`, started with `total`, is exact. -/
def ExactSubtotal : F64 → List Item → Prop
  | _, [] => True
  | total, item :: rest =>
    F64.Exact F64.mul (fun x y => x * y) item.quantity.parseFloat item.unitPrice.parseFloat ∧
    F64.Exact F64.add (fun x y => x + y) total
      (calculateItemAmount item.quantity item.unitPrice) ∧
    ExactSubtotal (addItem total item) rest

/-- Every operation `calculateTotals` performs on `values` is exact. -/
def ExactTotals (values : Values) : Prop :=
  ExactSubtotal F64.zero values.items ∧
  F64.Exact F64.mul (fun x y => x * y) (subtotalOf values.items) values.taxRate.toNumber ∧
  F64.Exact F64.div (fun x y => x / y)
    (F64.mul (subtotalOf values.items) values.taxRate.toNumber) (F64.ofInt 100) ∧
  (values.discountType = "percentage" →
    F64.Exact F64.mul (fun x y => x * y) (subtotalOf values.items)
      values.discountValue.toNumber ∧
    F64.Exact F64.div (fun x y => x / y)
      (F64.mul (subtotalOf values.items) values.discountValue.toNumber) (F64.ofInt 100)) ∧
  F64.Exact F64.add (fun x y => x + y) (calculateTotals values).subtotal
    (calculateTotals values).taxAmount ∧
  F64.Exact F64.sub (fun x y => x - y)
    (F64.add (calculateTotals values).subtotal (calculateTotals values).taxAmount)
    (calculateTotals values).discountAmount

/-- No multiplication and no addition of the `reduce`, started with `total`, overflows to an
infinity. -/
def subtotalInRange : F64 → List Item → Bool
  | _, [] => true
  | total, item :: rest =>
    !(calculateItemAmount item.quantity item.unitPrice).isInf &&
    !(addItem total item).isInf && subtotalInRange (addItem total item) rest

/-- No operation `calculateTotals` performs on `values` overflows to an infinity. -/
def inRange (values : Values) : Bool :=
  subtotalInRange F64.zero values.items &&
  !(F64.mul (subtotalOf values.items) values.taxRate.toNumber).isInf &&
  !(calculateTotals values).taxAmount.isInf &&
  (values.discountType != "percentage" ||
    !(F64.mul (subtotalOf values.items) values.discountValue.toNumber).isInf) &&
  !(calculateTotals values).discountAmount.isInf &&
  !(F64.add (calculateTotals values).subtotal (calculateTotals values).taxAmount).isInf &&
  !(calculateTotals values).amount.isInf

/-- Form values with the items 2^53 × 1 and 1 × 1, no tax and no discount. -/
def bigSubtotal : Values :=
  ⟨[⟨JSVal.number (F64.fin 1 53), JSVal.ofFrac 1 1⟩, ⟨JSVal.ofFrac 1 1, JSVal.ofFrac 1 1⟩],
    JSVal.ofFrac 0 1, "percentage", JSVal.ofFrac 0 1⟩

/-- Form values with the single item 2^1023 × 2, no tax and no discount. -/
def overflowing : Values :=
  ⟨[⟨JSVal.number (F64.fin 1 1023), JSVal.ofFrac 2 1⟩], JSVal.ofFrac 0 1, "percentage",
    JSVal.ofFrac 0 1⟩

/-- Form values with the single item 3 × 0.07, no tax and a discount of 100 %. -/
def roundedDiscount : Values :=
  ⟨[⟨JSVal.ofFrac 3 1, JSVal.ofFrac 7 100⟩], JSVal.ofFrac 0 1, "percentage",
    JSVal.ofFrac 100 1⟩

/-- Form values with the items 2 × 50 and 4 × 25, a tax of 10 % and a discount of 25 %. -/
def wholeAmounts : Values :=
  ⟨[⟨JSVal.ofFrac 2 1, JSVal.ofFrac 50 1⟩, ⟨JSVal.ofFrac 4 1, JSVal.ofFrac 25 1⟩],
    JSVal.ofFrac 10 1, "percentage", JSVal.ofFrac 25 1⟩

/-- A JavaScript object with string keys and number values, as its list of properties in
insertion order. -/
abbrev JSObject := List (String × F64)

/-- The property read `obj[key]`, `none` for `undefined`. -/
def JSObject.get (obj : JSObject) (key : String) : Option F64 :=
  obj.lookup key

/-- The property write `obj[key] = v`: an existing property keeps its place, a new one goes to
the end. -/
def JSObject.set (obj : JSObject) (key : String) (v : F64) : JSObject :=
  if obj.any (fun p => p.1 == key) then
    obj.map (fun p => if p.1 == key then (key, v) else p)
  else
    obj ++ [(key, v)]

/-- `Object.keys(obj)`. -/
def JSObject.keys (obj : JSObject) : List String := obj.map Prod.fst

/-- The loop "Initialize all months with 0": for `i` from 0 to 5 the key of
`new Date(today.getFullYear(), today.getMonth() - i, 1)` is set to 0. -/
def initMonths (today : LocalDate) : JSObject :=
  (List.range 6).foldl
    (fun obj i =>
      obj.set (monthKey (firstOfMonth today.year ((today.month.val : Int) - (i : Int))))
        F64.zero)
    []

/-- The inner step of the revenue chart: with `monthKey` the key of `d`,
`if (obj[monthKey] !== undefined) obj[monthKey] += v`. -/
def addToMonth (obj : JSObject) (d : LocalDate) (v : F64) : JSObject :=
  match obj.get (monthKey d) with
  | some cur => obj.set (monthKey d) (F64.add cur v)
  | none => obj

/-- An invoice as read by the dashboard: `amount`, and `issueDate` after its conversion to a
`Date` (`none` for an invalid date). -/
structure Invoice where
  amount : JSVal
  issueDate : Option LocalDate
  deriving DecidableEq

/-- The body of `invoices.forEach` in the revenue chart. The amount is added only when it is
truthy, and a truthy amount is a number. -/
def addInvoice (start : LocalDate) (obj : JSObject) (invoice : Invoice) : JSObject :=
  match invoice.issueDate with
  | some d =>
    if d.ge start && invoice.amount.truthy then addToMonth obj d invoice.amount.toNumber
    else obj
  | none => obj

/-- The object `revenueByMonth` after both loops. -/
def revenueByMonth (today : LocalDate) (invoices : List Invoice) : JSObject :=
  invoices.foldl (addInvoice (sixMonthsAgo today)) (initMonths today)

/-- `monthLabels`: `Object.keys(revenueByMonth).reverse()`. -/
def monthLabels (today : LocalDate) (invoices : List Invoice) : List String :=
  (revenueByMonth today invoices).keys.reverse

/-- `monthData`: `monthLabels.map(month => revenueByMonth[month])`. -/
def monthData (today : LocalDate) (invoices : List Invoice) : List (Option F64) :=
  (monthLabels today invoices).map (fun month => (revenueByMonth today invoices).get month)

/-- `totalRevenue`: `invoices.map(invoice => invoice.amount || 0).reduce((sum, amount) =>
sum + amount, 0)`. -/
def totalRevenue (invoices : List Invoice) : F64 :=
  (invoices.map (fun invoice => invoice.amount.orZero)).foldl F64.add F64.zero

/-- The sum of a list of numbers, taken from left to right in double arithmetic from 0. -/
def sumOf (xs : List F64) : F64 := xs.foldl F64.add F64.zero

/-- The invoice is dated in the calendar month number `idx`. -/
def Invoice.inMonth (idx : Int) (invoice : Invoice) : Bool :=
  match invoice.issueDate with
  | some d => decide (d.monthIndex = idx)
  | none => false

/-- The invoice adds its amount to the bucket `key`: it is dated on or after `start` in the
month of that key, with a truthy amount. -/
def Invoice.addsTo (start : LocalDate) (key : String) (invoice : Invoice) : Bool :=
  match invoice.issueDate with
  | some d => (d.ge start && invoice.amount.truthy) && decide (monthKey d = key)
  | none => false

/-- The truthy amounts of the invoices dated in the calendar month number `idx`, in the order
of the list. -/
def monthAmounts (invoices : List Invoice) (idx : Int) : List F64 :=
  (((invoices.filter (Invoice.inMonth idx)).filter (fun invoice => invoice.amount.truthy)).map
    (fun invoice => invoice.amount.toNumber))

/-- Adding the numbers of the list to `acc` one by one, from left to right, is exact at every
step: no addition rounds or overflows. -/
def ExactSum : F64 → List F64 → Prop
  | _, [] => True
  | acc, x :: rest => F64.Exact F64.add (fun a b => a + b) acc x ∧ ExactSum (F64.add acc x) rest

/-- The amount of an invoice as `totalRevenue` counts it: the exact value of `amount || 0`. -/
def Invoice.value (invoice : Invoice) : ℚ := invoice.amount.orZero.value

/-- The number shown by a chart bucket: the exact value of the entry, `0` for `undefined`. -/
def bucketValue : Option F64 → ℚ
  | some x => x.value
  | none => 0

/-- The exact sum of the bucket values of a series. -/
def bucketSum (data : List (Option F64)) : ℚ := (data.map bucketValue).sum

/-- The invoice with the same date in exact arithmetic, its amount being the exact value. -/
def Invoice.exact (invoice : Invoice) : Eventra.Invoice :=
  { amount := Eventra.JSVal.ofRat invoice.value, issueDate := invoice.issueDate }

/-- Three invoices of January 2024 with the amounts 0.1, 0.2 and 0.3. -/
def sameMonthInvoices : List Invoice :=
  [⟨JSVal.ofFrac 1 10, some ⟨2024, 0, 5⟩⟩, ⟨JSVal.ofFrac 2 10, some ⟨2024, 0, 6⟩⟩,
   ⟨JSVal.ofFrac 3 10, some ⟨2024, 0, 7⟩⟩]

/-- A current date in March 2024. -/
def marchToday : LocalDate := { year := 2024, month := 2, sinceMonthStart := 1000 }

/-- Three invoices with the amounts 0.3 (March 2024), 0.2 (February 2024) and 0.1
(January 2024). -/
def threeMonthInvoices : List Invoice :=
  [⟨JSVal.ofFrac 3 10, some ⟨2024, 2, 5⟩⟩, ⟨JSVal.ofFrac 2 10, some ⟨2024, 1, 5⟩⟩,
   ⟨JSVal.ofFrac 1 10, some ⟨2024, 0, 5⟩⟩]

/-- Invoices with whole amounts: 100 and 50 in January 2024, 25 in December 2023, one without
an amount and one too old for the chart. -/
def wholeInvoices : List Invoice :=
  [⟨JSVal.ofFrac 100 1, some ⟨2024, 0, 5⟩⟩, ⟨JSVal.ofFrac 25 1, some ⟨2023, 11, 5⟩⟩,
   ⟨JSVal.ofFrac 50 1, some ⟨2024, 0, 9⟩⟩, ⟨JSVal.undefined, some ⟨2024, 0, 9⟩⟩,
   ⟨JSVal.ofFrac 8 1, some ⟨2023, 2, 9⟩⟩]

/-- The invoices of `wholeInvoices` with the first two, which are of different months,
exchanged: the order within each month is kept. -/
def wholeInvoicesMoved : List Invoice :=
  [⟨JSVal.ofFrac 25 1, some ⟨2023, 11, 5⟩⟩, ⟨JSVal.ofFrac 100 1, some ⟨2024, 0, 5⟩⟩,
   ⟨JSVal.ofFrac 50 1, some ⟨2024, 0, 9⟩⟩, ⟨JSVal.undefined, some ⟨2024, 0, 9⟩⟩,
   ⟨JSVal.ofFrac 8 1, some ⟨2023, 2, 9⟩⟩]

end Ieee

/-! ## Theorems -/

/-! ### Lemmas on the subtotal -/

theorem foldl_subtotal_numeric (items : List Item) (h : ∀ it ∈ items, it.Numeric) (acc : ℚ) :
    items.foldl (fun total item =>
        Num.add total (calculateItemAmount item.quantity item.unitPrice)) (Num.val acc)
      = Num.val (acc + exactSubtotal items) := by
  induction items generalizing acc with
  | nil => simp [exactSubtotal]
  | cons it rest ih =>
    obtain ⟨q, p, hq, hp⟩ := h it (List.mem_cons_self _ _)
    have hrest : ∀ x ∈ rest, x.Numeric := fun x hx => h x (List.mem_cons_of_mem _ hx)
    have hstep : Num.add (Num.val acc) (calculateItemAmount it.quantity it.unitPrice)
        = Num.val (acc + q * p) := by
      simp [calculateItemAmount, hq, hp, JSVal.ofRat, JSVal.parseFloat, Num.mul, Num.add]
    rw [List.foldl_cons, hstep, ih hrest]
    simp [exactSubtotal, hq, hp, JSVal.ofRat, JSVal.toRat, Num.toRat, add_assoc]

theorem subtotalOf_numeric (items : List Item) (h : ∀ it ∈ items, it.Numeric) :
    subtotalOf items = Num.val (exactSubtotal items) := by
  unfold subtotalOf
  rw [foldl_subtotal_numeric items h 0, zero_add]

theorem add_val (a b : ℚ) : Num.add (Num.val a) (Num.val b) = Num.val (a + b) := rfl

theorem calculateItemAmount_numeric (it : Item) (h : it.Numeric) :
    calculateItemAmount it.quantity it.unitPrice
      = Num.val (it.quantity.toRat * it.unitPrice.toRat) := by
  obtain ⟨q, p, hq, hp⟩ := h
  rw [hq, hp]
  rfl

theorem orZero_parseFloat_ofRat (d : ℚ) :
    (JSVal.number (JSVal.ofRat d).parseFloat).orZero = Num.val d := by
  by_cases hd : d = 0
  · simp [JSVal.orZero, JSVal.ofRat, JSVal.parseFloat, JSVal.truthy, hd]
  · simp [JSVal.orZero, JSVal.ofRat, JSVal.parseFloat, JSVal.truthy, hd]

theorem div_mul_hundred (s r : ℚ) :
    Num.div (Num.mul (Num.val s) (Num.val r)) (Num.val 100) = Num.val (s * r / 100) := by
  simp [Num.div, Num.mul]

theorem calculateTotals_percentage (values : Values) (r d : ℚ)
    (h : ∀ it ∈ values.items, it.Numeric)
    (hr : values.taxRate = JSVal.ofRat r) (hd : values.discountValue = JSVal.ofRat d)
    (hp : values.discountType = "percentage") :
    calculateTotals values =
      { subtotal := Num.val (exactSubtotal values.items)
        taxAmount := Num.val (exactSubtotal values.items * r / 100)
        discountAmount := Num.val (exactSubtotal values.items * d / 100)
        amount := Num.val (exactSubtotal values.items + exactSubtotal values.items * r / 100
          - exactSubtotal values.items * d / 100) } := by
  have hs := subtotalOf_numeric values.items h
  simp only [calculateTotals, hs, hr, hd, if_pos hp]
  simp only [JSVal.ofRat, JSVal.toNumber, div_mul_hundred, Num.add, Num.sub]

theorem calculateTotals_fixed (values : Values) (r d : ℚ)
    (h : ∀ it ∈ values.items, it.Numeric)
    (hr : values.taxRate = JSVal.ofRat r) (hd : values.discountValue = JSVal.ofRat d)
    (hp : values.discountType ≠ "percentage") :
    calculateTotals values =
      { subtotal := Num.val (exactSubtotal values.items)
        taxAmount := Num.val (exactSubtotal values.items * r / 100)
        discountAmount := Num.val d
        amount := Num.val (exactSubtotal values.items + exactSubtotal values.items * r / 100
          - d) } := by
  have hs := subtotalOf_numeric values.items h
  simp only [calculateTotals, hs, hr, hd, if_neg hp, orZero_parseFloat_ofRat]
  simp only [JSVal.ofRat, JSVal.toNumber, div_mul_hundred, Num.add, Num.sub]

/-! ### Invoice totals -/

/-- In exact arithmetic: when every line item has a numeric quantity and unit price (whatever
their sign), the subtotal returned by `calculateTotals` is the exact sum over the items of
quantity × unitPrice, each term being what `calculateItemAmount` returns for the item; for the
empty list the subtotal is 0. -/
theorem calculateTotals_subtotal_exact (values : Values)
    (h : ∀ it ∈ values.items, it.Numeric) :
    (calculateTotals values).subtotal = Num.val (exactSubtotal values.items) ∧
    (∀ it ∈ values.items, calculateItemAmount it.quantity it.unitPrice
        = Num.val (it.quantity.toRat * it.unitPrice.toRat)) ∧
    (values.items = [] → (calculateTotals values).subtotal = Num.val 0) := by
  have hsub : (calculateTotals values).subtotal = Num.val (exactSubtotal values.items) :=
    subtotalOf_numeric values.items h
  refine ⟨hsub, fun it hit => calculateItemAmount_numeric it (h it hit), fun hnil => ?_⟩
  rw [hsub, hnil]
  simp [exactSubtotal]

theorem calculateTotals_subtotal_exact_witness :
    (∀ it ∈ (mkValues [mkItem 2 50, mkItem 3 (1999 / 100)] (JSVal.ofRat 0) "percentage"
        (JSVal.ofRat 0)).items, it.Numeric) ∧
    (calculateTotals (mkValues [mkItem 2 50, mkItem 3 (1999 / 100)] (JSVal.ofRat 0)
        "percentage" (JSVal.ofRat 0))).subtotal
      = Num.val (exactSubtotal [mkItem 2 50, mkItem 3 (1999 / 100)]) :=
  have h : ∀ it ∈ (mkValues [mkItem 2 50, mkItem 3 (1999 / 100)] (JSVal.ofRat 0) "percentage"
      (JSVal.ofRat 0)).items, it.Numeric := by
    intro it hit
    simp only [mkValues, List.mem_cons, List.mem_singleton, List.not_mem_nil, or_false] at hit
    rcases hit with rfl | rfl
    · exact ⟨2, 50, rfl, rfl⟩
    · exact ⟨3, 1999 / 100, rfl, rfl⟩
  ⟨h, (calculateTotals_subtotal_exact _ h).1⟩

/-- C2: for numeric items, a numeric tax rate and a numeric discount value, of either discount
type, the four totals are finite numbers and the grand total `amount` equals
subtotal + taxAmount − discountAmount; the same equation between the returned fields holds in
JavaScript arithmetic for every input. -/
theorem calculateTotals_amount_eq (values : Values) (r d : ℚ)
    (h : ∀ it ∈ values.items, it.Numeric)
    (hr : values.taxRate = JSVal.ofRat r) (hd : values.discountValue = JSVal.ofRat d) :
    (∃ s t x a : ℚ,
      (calculateTotals values).subtotal = Num.val s ∧
      (calculateTotals values).taxAmount = Num.val t ∧
      (calculateTotals values).discountAmount = Num.val x ∧
      (calculateTotals values).amount = Num.val a ∧
      a = s + t - x) ∧
    (calculateTotals values).amount
      = Num.sub (Num.add (calculateTotals values).subtotal (calculateTotals values).taxAmount)
          (calculateTotals values).discountAmount := by
  refine ⟨?_, rfl⟩
  by_cases hp : values.discountType = "percentage"
  · rw [calculateTotals_percentage values r d h hr hd hp]
    exact ⟨_, _, _, _, rfl, rfl, rfl, rfl, rfl⟩
  · rw [calculateTotals_fixed values r d h hr hd hp]
    exact ⟨_, _, _, _, rfl, rfl, rfl, rfl, rfl⟩

theorem mkItems_numeric (l : List (ℚ × ℚ)) :
    ∀ it ∈ l.map (fun x => mkItem x.1 x.2), it.Numeric := by
  intro it hit
  obtain ⟨x, _, rfl⟩ := List.mem_map.1 hit
  exact ⟨x.1, x.2, rfl, rfl⟩

theorem calculateTotals_amount_eq_witness :
    (∀ it ∈ (mkValues [mkItem 2 50] (JSVal.ofRat 10) "fixed" (JSVal.ofRat 20)).items,
      it.Numeric) ∧
    ∃ s t x a : ℚ,
      (calculateTotals (mkValues [mkItem 2 50] (JSVal.ofRat 10) "fixed"
        (JSVal.ofRat 20))).subtotal = Num.val s ∧
      (calculateTotals (mkValues [mkItem 2 50] (JSVal.ofRat 10) "fixed"
        (JSVal.ofRat 20))).taxAmount = Num.val t ∧
      (calculateTotals (mkValues [mkItem 2 50] (JSVal.ofRat 10) "fixed"
        (JSVal.ofRat 20))).discountAmount = Num.val x ∧
      (calculateTotals (mkValues [mkItem 2 50] (JSVal.ofRat 10) "fixed"
        (JSVal.ofRat 20))).amount = Num.val a ∧
      a = s + t - x :=
  ⟨mkItems_numeric [(2, 50)],
    (calculateTotals_amount_eq (mkValues [mkItem 2 50] (JSVal.ofRat 10) "fixed" (JSVal.ofRat 20))
      10 20 (mkItems_numeric [(2, 50)]) rfl rfl).1⟩

/-- C3: for numeric items and a numeric tax rate, `taxAmount` is subtotal × taxRate / 100; one
item of quantity 2 and unit price 50 with a 10% tax and a 0% discount gives subtotal 100,
taxAmount 10, discountAmount 0 and grand total 110. -/
theorem calculateTotals_taxAmount :
    (∀ (values : Values) (r : ℚ), (∀ it ∈ values.items, it.Numeric) →
      values.taxRate = JSVal.ofRat r →
      (calculateTotals values).subtotal = Num.val (exactSubtotal values.items) ∧
      (calculateTotals values).taxAmount = Num.val (exactSubtotal values.items * r / 100)) ∧
    calculateTotals (mkValues [mkItem 2 50] (JSVal.ofRat 10) "percentage" (JSVal.ofRat 0))
      = { subtotal := Num.val 100, taxAmount := Num.val 10, discountAmount := Num.val 0,
          amount := Num.val 110 } := by
  constructor
  · intro values r h hr
    have hs := subtotalOf_numeric values.items h
    refine ⟨hs, ?_⟩
    show Num.div (Num.mul (subtotalOf values.items) values.taxRate.toNumber) (Num.val 100) = _
    rw [hs, hr]
    exact div_mul_hundred _ _
  · rw [calculateTotals_percentage _ 10 0 (mkItems_numeric [(2, 50)]) rfl rfl rfl]
    norm_num [mkValues, mkItem, exactSubtotal, JSVal.ofRat, JSVal.toRat, Num.toRat]

theorem calculateTotals_taxAmount_witness :
    (∀ it ∈ (mkValues [mkItem 4 25, mkItem 1 (1 / 2)] (JSVal.ofRat 8) "fixed"
        JSVal.emptyStr).items, it.Numeric) ∧
    (calculateTotals (mkValues [mkItem 4 25, mkItem 1 (1 / 2)] (JSVal.ofRat 8) "fixed"
        JSVal.emptyStr)).taxAmount
      = Num.val (exactSubtotal [mkItem 4 25, mkItem 1 (1 / 2)] * 8 / 100) :=
  ⟨mkItems_numeric [(4, 25), (1, 1 / 2)],
    (calculateTotals_taxAmount.1 (mkValues [mkItem 4 25, mkItem 1 (1 / 2)] (JSVal.ofRat 8)
      "fixed" JSVal.emptyStr) 8 (mkItems_numeric [(4, 25), (1, 1 / 2)]) rfl).2⟩

/-- C4: for numeric items and a numeric discount value, `discountAmount` is
subtotal × discountValue / 100 when the discount type is `percentage` and the discount value
itself when the type is `fixed`; one item of quantity 1 and unit price 200 with no tax and a
fixed discount of 20 gives a grand total of 180. -/
theorem calculateTotals_discountAmount :
    (∀ (values : Values) (d : ℚ), (∀ it ∈ values.items, it.Numeric) →
      values.discountValue = JSVal.ofRat d →
      (values.discountType = "percentage" →
        (calculateTotals values).discountAmount
          = Num.val (exactSubtotal values.items * d / 100)) ∧
      (values.discountType = "fixed" → (calculateTotals values).discountAmount = Num.val d)) ∧
    (calculateTotals (mkValues [mkItem 1 200] (JSVal.ofRat 0) "fixed" (JSVal.ofRat 20))).amount
      = Num.val 180 := by
  constructor
  · intro values d h hd
    have hs := subtotalOf_numeric values.items h
    constructor
    · intro hp
      show (if values.discountType = "percentage" then
          Num.div (Num.mul (subtotalOf values.items) values.discountValue.toNumber) (Num.val 100)
        else (JSVal.number values.discountValue.parseFloat).orZero) = _
      rw [if_pos hp, hs, hd]
      exact div_mul_hundred _ _
    · intro hf
      have hp : values.discountType ≠ "percentage" := by rw [hf]; decide
      show (if values.discountType = "percentage" then
          Num.div (Num.mul (subtotalOf values.items) values.discountValue.toNumber) (Num.val 100)
        else (JSVal.number values.discountValue.parseFloat).orZero) = _
      rw [if_neg hp, hd]
      exact orZero_parseFloat_ofRat d
  · rw [calculateTotals_fixed _ 0 20 (mkItems_numeric [(1, 200)]) rfl rfl (by decide)]
    norm_num [mkValues, mkItem, exactSubtotal, JSVal.ofRat, JSVal.toRat, Num.toRat]

theorem calculateTotals_discountAmount_witness :
    (∀ it ∈ (mkValues [mkItem 3 40] (JSVal.ofRat 5) "percentage" (JSVal.ofRat 25)).items,
      it.Numeric) ∧
    (calculateTotals (mkValues [mkItem 3 40] (JSVal.ofRat 5) "percentage"
        (JSVal.ofRat 25))).discountAmount
      = Num.val (exactSubtotal [mkItem 3 40] * 25 / 100) :=
  ⟨mkItems_numeric [(3, 40)],
    (calculateTotals_discountAmount.1 (mkValues [mkItem 3 40] (JSVal.ofRat 5) "percentage"
      (JSVal.ofRat 25)) 25 (mkItems_numeric [(3, 40)]) rfl).1 rfl⟩

/-! ### Submitting the invoice form -/

theorem subtotalOf_map_amount (items : List Item) (f : Item → JSVal) :
    subtotalOf (items.map (fun item => { item with amount := f item })) = subtotalOf items := by
  unfold subtotalOf
  rw [List.foldl_map]

theorem calculateTotals_withStored (values : Values) (s t x a : JSVal) (f : Item → JSVal) :
    calculateTotals (values.withStored s t x a f) = calculateTotals values := by
  simp only [calculateTotals, Values.withStored, subtotalOf_map_amount]

theorem foldl_add_map_amount (items : List Item) (acc : Num) :
    (items.map (fun item => calculateItemAmount item.quantity item.unitPrice)).foldl Num.add acc
      = items.foldl (fun total item =>
          Num.add total (calculateItemAmount item.quantity item.unitPrice)) acc := by
  rw [List.foldl_map]

/-- C5: whatever totals and item amounts are stored in the form values, the record written by
`handleSubmit` has its subtotal, taxAmount, discountAmount and amount equal to
`calculateTotals(values)`, which does not read the stored ones, and each written item has the
amount `calculateItemAmount(quantity, unitPrice)`, that is quantity × unitPrice for numeric
fields; so the written subtotal is the sum of the written item amounts. -/
theorem handleSubmit_writes_fresh_totals (values : Values) (s t x a : JSVal)
    (f : Item → JSVal) :
    (handleSubmit (values.withStored s t x a f)).subtotal = (calculateTotals values).subtotal ∧
    (handleSubmit (values.withStored s t x a f)).taxAmount = (calculateTotals values).taxAmount ∧
    (handleSubmit (values.withStored s t x a f)).discountAmount
      = (calculateTotals values).discountAmount ∧
    (handleSubmit (values.withStored s t x a f)).amount = (calculateTotals values).amount ∧
    (handleSubmit (values.withStored s t x a f)).items.map WrittenItem.amount
      = values.items.map (fun item => calculateItemAmount item.quantity item.unitPrice) ∧
    (∀ w ∈ (handleSubmit (values.withStored s t x a f)).items,
      w.amount = calculateItemAmount w.quantity w.unitPrice ∧
      ∀ q p : ℚ, w.quantity = JSVal.ofRat q → w.unitPrice = JSVal.ofRat p →
        w.amount = Num.val (q * p)) ∧
    (handleSubmit (values.withStored s t x a f)).subtotal
      = writtenItemSum (handleSubmit (values.withStored s t x a f)) := by
  have hT := calculateTotals_withStored values s t x a f
  have hsub : (handleSubmit (values.withStored s t x a f)).subtotal
      = (calculateTotals values).subtotal := by
    show (calculateTotals (values.withStored s t x a f)).subtotal = _
    rw [hT]
  have hitems : (handleSubmit (values.withStored s t x a f)).items.map WrittenItem.amount
      = values.items.map (fun item => calculateItemAmount item.quantity item.unitPrice) := by
    simp [handleSubmit, Values.withStored, List.map_map, Function.comp_def]
  refine ⟨hsub, ?_, ?_, ?_, hitems, ?_, ?_⟩
  · show (calculateTotals (values.withStored s t x a f)).taxAmount = _
    rw [hT]
  · show (calculateTotals (values.withStored s t x a f)).discountAmount = _
    rw [hT]
  · show (calculateTotals (values.withStored s t x a f)).amount = _
    rw [hT]
  · intro w hw
    simp only [handleSubmit, List.mem_map] at hw
    obtain ⟨it, _, rfl⟩ := hw
    refine ⟨rfl, fun q p hq hp => ?_⟩
    show calculateItemAmount it.quantity it.unitPrice = _
    have hq2 : it.quantity = JSVal.ofRat q := hq
    have hp2 : it.unitPrice = JSVal.ofRat p := hp
    rw [hq2, hp2]
    rfl
  · rw [hsub]
    unfold writtenItemSum
    rw [hitems, foldl_add_map_amount]
    rfl

/-! ### Revenue of a client -/

theorem orZero_eq_toRat (v : JSVal) : v.orZero = Num.val v.toRat := by
  cases v with
  | number n =>
    cases n with
    | val q =>
      by_cases hq : q = 0
      · simp [JSVal.orZero, JSVal.truthy, JSVal.toRat, Num.toRat, hq]
      · simp [JSVal.orZero, JSVal.truthy, JSVal.toRat, Num.toRat, hq]
    | nan => simp [JSVal.orZero, JSVal.truthy, JSVal.toRat, Num.toRat]
  | emptyStr => rfl
  | undefined => rfl

theorem isRevenueStatus_of_known (event : ClientEvent) (h : event.KnownStatus) :
    isRevenueStatus event = isConfirmedOrCompleted event := by
  rcases h with h | h | h | h | h <;>
    simp only [isRevenueStatus, isConfirmedOrCompleted, h] <;> decide

theorem foldl_revenue (events : List ClientEvent) (h : ∀ e ∈ events, e.KnownStatus) (acc : ℚ) :
    events.foldl
      (fun total event =>
        if isRevenueStatus event then Num.add total event.budget.orZero else total)
      (Num.val acc)
      = Num.val (acc + ((events.filter isConfirmedOrCompleted).map budgetValue).sum) := by
  induction events generalizing acc with
  | nil => simp
  | cons e rest ih =>
    have hrest : ∀ x ∈ rest, x.KnownStatus := fun x hx => h x (List.mem_cons_of_mem _ hx)
    have he := isRevenueStatus_of_known e (h e (List.mem_cons_self _ _))
    rw [List.foldl_cons, he, orZero_eq_toRat]
    by_cases hc : isConfirmedOrCompleted e = true
    · rw [if_pos hc, add_val, ih hrest, List.filter_cons_of_pos hc]
      simp [budgetValue, add_assoc]
    · rw [if_neg hc, ih hrest, List.filter_cons_of_neg hc]

/-- C6: for events whose status is tentative, confirmed, cancelled, completed or missing,
`calculateTotalRevenue` returns the sum of the budgets of exactly the events whose status is
confirmed or completed, a missing budget counting as 0; the other events contribute 0. For a
tentative event of budget 500 and a confirmed event of budget 300 the result is 300. -/
theorem calculateTotalRevenue_sum :
    (∀ events : List ClientEvent, (∀ e ∈ events, e.KnownStatus) →
      calculateTotalRevenue events
        = Num.val (((events.filter isConfirmedOrCompleted).map budgetValue).sum)) ∧
    calculateTotalRevenue
        [{ status := some "tentative", budget := JSVal.ofRat 500 },
         { status := some "confirmed", budget := JSVal.ofRat 300 }] = Num.val 300 := by
  have hgen : ∀ events : List ClientEvent, (∀ e ∈ events, e.KnownStatus) →
      calculateTotalRevenue events
        = Num.val (((events.filter isConfirmedOrCompleted).map budgetValue).sum) := by
    intro events h
    unfold calculateTotalRevenue
    rw [foldl_revenue events h 0, zero_add]
  refine ⟨hgen, ?_⟩
  rw [hgen]
  · have h1 : isConfirmedOrCompleted
        { status := some "tentative", budget := JSVal.ofRat 500 } = false := by decide
    have h2 : isConfirmedOrCompleted
        { status := some "confirmed", budget := JSVal.ofRat 300 } = true := by decide
    rw [List.filter_cons_of_neg (by rw [h1]; decide), List.filter_cons_of_pos h2,
      List.filter_nil]
    simp [budgetValue, JSVal.ofRat, JSVal.toRat, Num.toRat]
  · intro e he
    simp only [List.mem_cons, List.mem_singleton, List.not_mem_nil, or_false] at he
    rcases he with rfl | rfl
    · exact Or.inr (Or.inl rfl)
    · exact Or.inr (Or.inr (Or.inl rfl))

theorem calculateTotalRevenue_sum_witness :
    (∀ e ∈ [({ status := some "completed", budget := JSVal.undefined } : ClientEvent),
        { status := none, budget := JSVal.ofRat 40 },
        { status := some "confirmed", budget := JSVal.ofRat 75 }], e.KnownStatus) ∧
    calculateTotalRevenue
        [{ status := some "completed", budget := JSVal.undefined },
         { status := none, budget := JSVal.ofRat 40 },
         { status := some "confirmed", budget := JSVal.ofRat 75 }]
      = Num.val (((([{ status := some "completed", budget := JSVal.undefined },
         { status := none, budget := JSVal.ofRat 40 },
         { status := some "confirmed", budget := JSVal.ofRat 75 }] : List ClientEvent).filter
           isConfirmedOrCompleted).map budgetValue).sum) :=
  have h : ∀ e ∈ [({ status := some "completed", budget := JSVal.undefined } : ClientEvent),
      { status := none, budget := JSVal.ofRat 40 },
      { status := some "confirmed", budget := JSVal.ofRat 75 }], e.KnownStatus := by
    intro e he
    simp only [List.mem_cons, List.mem_singleton, List.not_mem_nil, or_false] at he
    rcases he with rfl | rfl | rfl
    · exact Or.inr (Or.inr (Or.inr (Or.inr rfl)))
    · exact Or.inl rfl
    · exact Or.inr (Or.inr (Or.inl rfl))
  ⟨h, calculateTotalRevenue_sum.1 _ h⟩

/-! ### Upcoming events -/

theorem isUpcoming_iff (now : Int) (e : DashEvent) :
    isUpcoming now e = true ↔ ∃ t, e.date = some t ∧ now ≤ t := by
  unfold isUpcoming
  cases hd : e.date with
  | none => simp
  | some t => simp

theorem mem_upcoming (allEvents : List DashEvent) (now : Int) (e : DashEvent)
    (h : e ∈ upcoming allEvents now) : e ∈ allEvents ∧ isUpcoming now e = true := by
  have h1 : e ∈ (allEvents.filter (isUpcoming now)).mergeSort dateLe := List.mem_of_mem_take h
  rw [List.mem_mergeSort] at h1
  exact List.mem_filter.1 h1

theorem dateLe_eq_time (now : Int) (a b : DashEvent) (ha : isUpcoming now a = true)
    (hb : isUpcoming now b = true) : dateLe a b = decide (a.time ≤ b.time) := by
  obtain ⟨x, hx, _⟩ := (isUpcoming_iff now a).1 ha
  obtain ⟨y, hy, _⟩ := (isUpcoming_iff now b).1 hb
  simp only [dateLe, DashEvent.time, hx, hy, Option.getD_some]
  have hiff : x - y ≤ 0 ↔ x ≤ y := by omega
  exact decide_eq_decide.2 hiff

theorem sorted_filter_times (now : Int) (allEvents : List DashEvent) :
    (((allEvents.filter (isUpcoming now)).mergeSort dateLe).map DashEvent.time).Pairwise
      (fun x y => x ≤ y) := by
  have hmap : ((allEvents.filter (isUpcoming now)).mergeSort dateLe).map DashEvent.time
      = ((allEvents.filter (isUpcoming now)).map DashEvent.time).mergeSort
          (fun x y => decide (x ≤ y)) :=
    List.map_mergeSort (fun a ha b hb =>
      dateLe_eq_time now a b (List.mem_filter.1 ha).2 (List.mem_filter.1 hb).2)
  rw [hmap]
  have hsorted := @List.sorted_mergeSort Int (fun (x y : Int) => decide (x ≤ y))
    (fun a b c hab hbc => by
      simp only [decide_eq_true_eq] at hab hbc ⊢
      omega)
    (fun a b => by
      simp only [Bool.or_eq_true, decide_eq_true_eq]
      omega)
    ((allEvents.filter (isUpcoming now)).map DashEvent.time)
  exact hsorted.imp (fun h => by simpa using h)

/-- C10: for every list of events and every time `now`, each event of the dashboard's upcoming
list has a valid date that is not before `now`, and the list is in ascending order of date. -/
theorem upcoming_not_past_and_sorted (allEvents : List DashEvent) (now : Int) :
    (∀ e ∈ upcoming allEvents now, ∃ t, e.date = some t ∧ now ≤ t) ∧
    (upcoming allEvents now).Pairwise
      (fun a b => ∃ x y, a.date = some x ∧ b.date = some y ∧ x ≤ y) := by
  have hmem : ∀ e ∈ upcoming allEvents now, ∃ t, e.date = some t ∧ now ≤ t := fun e he =>
    (isUpcoming_iff now e).1 (mem_upcoming allEvents now e he).2
  refine ⟨hmem, ?_⟩
  have htimes := List.pairwise_map.1 (sorted_filter_times now allEvents)
  have htake : (upcoming allEvents now).Pairwise (fun a b => a.time ≤ b.time) :=
    htimes.sublist (List.take_sublist 5 _)
  refine (List.Pairwise.and_mem.1 htake).imp ?_
  intro a b hab
  obtain ⟨ha, hb, hle⟩ := hab
  obtain ⟨x, hx, _⟩ := hmem a ha
  obtain ⟨y, hy, _⟩ := hmem b hb
  refine ⟨x, y, hx, hy, ?_⟩
  simpa [DashEvent.time, hx, hy] using hle

/-! ### Bucket keys -/

theorem digitChar_value (k : Nat) (hk : k < 10) :
    (Nat.digitChar k).toNat - 48 = k ∧ Nat.digitChar k ≠ '-' := by
  interval_cases k <;> decide

theorem toDigitsCore_append (fuel n : Nat) (ds : List Char) :
    Nat.toDigitsCore 10 fuel n ds = Nat.toDigitsCore 10 fuel n [] ++ ds := by
  induction fuel generalizing n ds with
  | zero => simp [Nat.toDigitsCore]
  | succ fuel ih =>
    simp only [Nat.toDigitsCore]
    split
    · simp
    · rw [ih (n / 10) (Nat.digitChar (n % 10) :: ds), ih (n / 10) [Nat.digitChar (n % 10)]]
      simp

theorem decodeDigits_snoc (cs : List Char) (c : Char) :
    decodeDigits (cs ++ [c]) = decodeDigits cs * 10 + (c.toNat - 48) := by
  simp [decodeDigits, List.foldl_append]

theorem decodeDigits_toDigitsCore (fuel n : Nat) (h : n < fuel) :
    decodeDigits (Nat.toDigitsCore 10 fuel n []) = n := by
  induction fuel generalizing n with
  | zero => omega
  | succ fuel ih =>
    have hd := (digitChar_value (n % 10) (Nat.mod_lt _ (by decide))).1
    simp only [Nat.toDigitsCore]
    split
    · rename_i h0
      simp only [decodeDigits, List.foldl_cons, List.foldl_nil, Nat.zero_mul, Nat.zero_add]
      rw [hd]
      omega
    · rename_i h0
      rw [toDigitsCore_append, decodeDigits_snoc, ih (n / 10) (by omega), hd]
      omega

theorem toDigitsCore_ne_minus (fuel n : Nat) (ds : List Char) :
    ∀ c ∈ Nat.toDigitsCore 10 fuel n ds, c ∈ ds ∨ c ≠ '-' := by
  induction fuel generalizing n ds with
  | zero => intro c hc; exact Or.inl (by simpa [Nat.toDigitsCore] using hc)
  | succ fuel ih =>
    intro c hc
    have hd := (digitChar_value (n % 10) (Nat.mod_lt _ (by decide))).2
    simp only [Nat.toDigitsCore] at hc
    split at hc
    · rcases List.mem_cons.1 hc with h | h
      · exact Or.inr (h ▸ hd)
      · exact Or.inl h
    · rcases ih _ _ c hc with h | h
      · rcases List.mem_cons.1 h with h | h
        · exact Or.inr (h ▸ hd)
        · exact Or.inl h
      · exact Or.inr h

theorem decodeInt_toString (z : Int) : decodeInt (toString z).data = z := by
  cases z with
  | ofNat m =>
    show decodeInt (Nat.repr m).data = _
    have hdata : (Nat.repr m).data = Nat.toDigitsCore 10 (m + 1) m [] := rfl
    rw [hdata]
    have hdec := decodeDigits_toDigitsCore (m + 1) m (by omega)
    cases hl : Nat.toDigitsCore 10 (m + 1) m [] with
    | nil => rw [hl] at hdec; simp [decodeInt, ← hdec, decodeDigits]
    | cons c cs =>
      have hc : c ≠ '-' := by
        rcases toDigitsCore_ne_minus (m + 1) m [] c (by rw [hl]; exact List.mem_cons_self _ _)
          with h | h
        · simp at h
        · exact h
      rw [hl] at hdec
      unfold decodeInt
      split
      · rename_i heq
        exact absurd (List.cons.inj heq).1 hc
      · rw [hdec]; rfl
  | negSucc m =>
    show decodeInt ("-" ++ Nat.repr (m + 1)).data = _
    have hdata : ("-" ++ Nat.repr (m + 1)).data
        = '-' :: Nat.toDigitsCore 10 (m + 1 + 1) (m + 1) [] := rfl
    rw [hdata]
    simp only [decodeInt]
    rw [decodeDigits_toDigitsCore (m + 1 + 1) (m + 1) (by omega)]
    rfl

theorem toString_int_injective (a b : Int) (h : toString a = toString b) : a = b := by
  rw [← decodeInt_toString a, ← decodeInt_toString b, h]

theorem monthShort_length (m : Fin 12) : (monthShort m).data.length = 3 := by
  revert m
  decide

theorem monthShort_injective (m n : Fin 12) (h : monthShort m = monthShort n) : m = n := by
  revert m n
  decide

theorem monthKey_inj (a b : LocalDate) (h : monthKey a = monthKey b) :
    a.year = b.year ∧ a.month = b.month := by
  have hdata := congrArg String.data h
  simp only [monthKey, String.data_append] at hdata
  rw [List.append_assoc, List.append_assoc] at hdata
  have hsplit := List.append_inj hdata
    ((monthShort_length a.month).trans (monthShort_length b.month).symm)
  have hm : a.month = b.month := monthShort_injective _ _ (String.ext hsplit.1)
  have hy : (toString a.year).data = (toString b.year).data := by
    have h2 := hsplit.2
    exact List.append_cancel_left h2
  exact ⟨toString_int_injective _ _ (String.ext hy), hm⟩

theorem monthKey_eq_iff (a b : LocalDate) :
    monthKey a = monthKey b ↔ a.monthIndex = b.monthIndex := by
  constructor
  · intro h
    obtain ⟨hy, hm⟩ := monthKey_inj a b h
    simp [LocalDate.monthIndex, hy, hm]
  · intro h
    have hya : a.month.val < 12 := a.month.isLt
    have hyb : b.month.val < 12 := b.month.isLt
    unfold LocalDate.monthIndex at h
    have hy : a.year = b.year := by omega
    have hm : a.month = b.month := Fin.ext (by omega)
    simp [monthKey, hy, hm]

/-! ### The six-month window -/

theorem monthIndex_firstOfMonth (y m : Int) :
    (firstOfMonth y m).monthIndex = constructorYear y * 12 + m := by
  have hnn : 0 ≤ m % 12 := Int.emod_nonneg _ (by decide)
  have hlt : m % 12 < 12 := Int.emod_lt_of_pos _ (by decide)
  have hval : ((Fin.ofNat (m % 12).toNat : Fin 12).val : Int) = m % 12 := by
    have h1 : (Fin.ofNat (m % 12).toNat : Fin 12).val = (m % 12).toNat % 12 := rfl
    rw [h1]
    omega
  simp only [LocalDate.monthIndex, firstOfMonth, constructorYear] at hval ⊢
  rw [hval]
  omega

theorem monthIndex_windowMonth (today : LocalDate) (i : Nat) :
    (windowMonth today i).monthIndex
      = constructorYear today.year * 12 + (today.month.val : Int) - (i : Int) := by
  unfold windowMonth
  rw [monthIndex_firstOfMonth]
  omega

theorem monthIndex_monthOfIndex (idx : Int) : (monthOfIndex idx).monthIndex = idx := by
  have hnn : 0 ≤ idx % 12 := Int.emod_nonneg _ (by decide)
  have hlt : idx % 12 < 12 := Int.emod_lt_of_pos _ (by decide)
  have hval : ((Fin.ofNat (idx % 12).toNat : Fin 12).val : Int) = idx % 12 := by
    have h1 : (Fin.ofNat (idx % 12).toNat : Fin 12).val = (idx % 12).toNat % 12 := rfl
    rw [h1]
    omega
  simp only [LocalDate.monthIndex, monthOfIndex] at hval ⊢
  rw [hval]
  omega

theorem monthIndex_sixMonthsAgo (today : LocalDate) :
    (sixMonthsAgo today).monthIndex
      = constructorYear today.year * 12 + (today.month.val : Int) - 5 := by
  unfold sixMonthsAgo
  rw [monthIndex_firstOfMonth]
  omega

/-- The keys of the six window months. -/
theorem windowKeys_nodup (today : LocalDate) :
    ((List.range 6).map (fun i => monthKey (windowMonth today i))).Nodup := by
  refine (List.nodup_range 6).map_on ?_
  intro i _ j _ h
  have hidx := (monthKey_eq_iff _ _).1 h
  rw [monthIndex_windowMonth, monthIndex_windowMonth] at hidx
  omega

/-! ### Objects as property lists -/

theorem set_fresh (obj : JSObject) (k : String) (v : Num) (h : k ∉ obj.keys) :
    obj.set k v = obj ++ [(k, v)] := by
  unfold JSObject.set
  rw [if_neg]
  intro hany
  rw [List.any_eq_true] at hany
  obtain ⟨p, hp, hk⟩ := hany
  exact h (List.mem_map.2 ⟨p, hp, by simpa using hk⟩)

theorem foldl_set_fresh (v : Num) (ks : List String) (acc : JSObject) (hnd : ks.Nodup)
    (hfresh : ∀ k ∈ ks, k ∉ acc.keys) :
    ks.foldl (fun obj k => obj.set k v) acc = acc ++ ks.map (fun k => (k, v)) := by
  induction ks generalizing acc with
  | nil => simp
  | cons k rest ih =>
    rw [List.foldl_cons, set_fresh acc k v (hfresh k (List.mem_cons_self _ _))]
    rw [ih _ (List.nodup_cons.1 hnd).2]
    · simp
    · intro x hx hmem
      simp only [JSObject.keys, List.map_append, List.map_cons, List.map_nil, List.mem_append,
        List.mem_singleton] at hmem
      rcases hmem with hmem | hmem
      · exact hfresh x (List.mem_cons_of_mem _ hx) hmem
      · exact (List.nodup_cons.1 hnd).1 (hmem ▸ hx)

theorem initMonths_eq (today : LocalDate) :
    initMonths today
      = ((List.range 6).map (fun i => monthKey (windowMonth today i))).map
          (fun k => (k, Num.val 0)) := by
  have h := foldl_set_fresh (Num.val 0) _ [] (windowKeys_nodup today) (by simp [JSObject.keys])
  rw [List.foldl_map, List.nil_append] at h
  exact h

theorem lookup_map_key (ks : List String) (g : String → Num) (k : String) :
    (ks.map (fun x => (x, g x))).lookup k = if k ∈ ks then some (g k) else none := by
  induction ks with
  | nil => simp
  | cons x rest ih =>
    rw [List.map_cons, List.lookup_cons]
    by_cases hx : k = x
    · subst hx
      simp
    · have hbeq : (k == x) = false := by simpa using hx
      rw [hbeq, ih]
      simp [hx]

theorem set_map_key (ks : List String) (g : String → Num) (k : String) (v : Num)
    (hk : k ∈ ks) :
    JSObject.set (ks.map (fun x => (x, g x))) k v
      = ks.map (fun x => (x, if x = k then v else g x)) := by
  unfold JSObject.set
  rw [if_pos]
  · rw [List.map_map]
    apply List.map_congr_left
    intro x _
    by_cases hx : x = k
    · simp [hx]
    · simp [hx]
  · rw [List.any_eq_true]
    exact ⟨(k, g k), List.mem_map.2 ⟨k, hk, rfl⟩, by simp⟩

theorem addToMonth_map (ks : List String) (g : String → ℚ) (d : LocalDate) (v : ℚ) :
    addToMonth (ks.map (fun k => (k, Num.val (g k)))) d (Num.val v)
      = ks.map (fun k => (k, Num.val (g k + if monthKey d = k then v else 0))) := by
  unfold addToMonth JSObject.get
  rw [lookup_map_key ks (fun k => Num.val (g k))]
  by_cases hk : monthKey d ∈ ks
  · rw [if_pos hk]
    simp only
    rw [set_map_key ks (fun k => Num.val (g k)) _ _ hk]
    apply List.map_congr_left
    intro x _
    by_cases hx : x = monthKey d
    · subst hx
      simp [add_val]
    · have hx2 : ¬ monthKey d = x := fun h => hx h.symm
      simp [hx, hx2]
  · rw [if_neg hk]
    simp only
    apply List.map_congr_left
    intro x hxmem
    have hx2 : ¬ monthKey d = x := fun h => hk (h ▸ hxmem)
    simp [hx2]

theorem truthy_false_toRat (v : JSVal) (h : v.truthy = false) : v.toRat = 0 := by
  cases v with
  | number n =>
    cases n with
    | val q => simpa [JSVal.truthy, JSVal.toRat, Num.toRat] using h
    | nan => rfl
  | emptyStr => rfl
  | undefined => rfl

theorem truthy_toNumber (v : JSVal) (h : v.truthy = true) : v.toNumber = Num.val v.toRat := by
  cases v with
  | number n =>
    cases n with
    | val q => rfl
    | nan => simp [JSVal.truthy] at h
  | emptyStr => simp [JSVal.truthy] at h
  | undefined => simp [JSVal.truthy] at h

theorem addInvoice_map (start : LocalDate) (ks : List String) (g : String → ℚ)
    (invoice : Invoice) :
    addInvoice start (ks.map (fun k => (k, Num.val (g k)))) invoice
      = ks.map (fun k => (k, Num.val (g k + invoiceShare start k invoice))) := by
  unfold addInvoice
  cases hd : invoice.issueDate with
  | none => simp [invoiceShare, hd]
  | some d =>
    simp only
    by_cases hge : d.ge start = true
    · by_cases ht : invoice.amount.truthy = true
      · rw [if_pos (by simp [hge, ht]), truthy_toNumber _ ht, addToMonth_map]
        apply List.map_congr_left
        intro k _
        by_cases hk : monthKey d = k
        · simp [invoiceShare, hd, hge, hk]
        · simp [invoiceShare, hd, hge, hk]
      · have ht2 : invoice.amount.truthy = false := by simpa using ht
        rw [if_neg (by simp [ht2])]
        apply List.map_congr_left
        intro k _
        simp [invoiceShare, hd, truthy_false_toRat _ ht2]
    · have hge2 : d.ge start = false := by simpa using hge
      rw [if_neg (by simp [hge2])]
      apply List.map_congr_left
      intro k _
      simp [invoiceShare, hd, hge2]

theorem addClient_map (start : LocalDate) (ks : List String) (g : String → ℚ)
    (client : Client) :
    addClient start (ks.map (fun k => (k, Num.val (g k)))) client
      = ks.map (fun k => (k, Num.val (g k + clientShare start k client))) := by
  unfold addClient
  cases hd : client.createdAt with
  | none => simp [clientShare, hd]
  | some d =>
    simp only
    by_cases hge : d.ge start = true
    · rw [if_pos hge, addToMonth_map]
      apply List.map_congr_left
      intro k _
      by_cases hk : monthKey d = k
      · simp [clientShare, hd, hge, hk]
      · simp [clientShare, hd, hge, hk]
    · have hge2 : d.ge start = false := by simpa using hge
      rw [if_neg hge]
      apply List.map_congr_left
      intro k _
      simp [clientShare, hd, hge2]

theorem foldl_buckets {α : Type} (step : JSObject → α → JSObject) (share : String → α → ℚ)
    (hstep : ∀ (ks : List String) (g : String → ℚ) (x : α),
      step (ks.map (fun k => (k, Num.val (g k)))) x
        = ks.map (fun k => (k, Num.val (g k + share k x))))
    (xs : List α) (ks : List String) (g : String → ℚ) :
    xs.foldl step (ks.map (fun k => (k, Num.val (g k))))
      = ks.map (fun k => (k, Num.val (g k + (xs.map (share k)).sum))) := by
  induction xs generalizing g with
  | nil => simp
  | cons x rest ih =>
    rw [List.foldl_cons, hstep, ih]
    apply List.map_congr_left
    intro k _
    simp [add_assoc]

/-! ### The monthly series -/

theorem sum_map_ite {α : Type} (p : α → Bool) (f : α → ℚ) (xs : List α) :
    (xs.map (fun x => if p x = true then f x else 0)).sum = ((xs.filter p).map f).sum := by
  induction xs with
  | nil => simp
  | cons x rest ih =>
    by_cases hp : p x = true
    · rw [List.map_cons, List.sum_cons, ih, if_pos hp, List.filter_cons_of_pos hp,
        List.map_cons, List.sum_cons]
    · rw [List.map_cons, List.sum_cons, ih, if_neg hp, List.filter_cons_of_neg hp, zero_add]

theorem ge_and_key_iff (today d : LocalDate) (i : Nat) (hi : i ≤ 5) :
    (d.ge (sixMonthsAgo today) && decide (monthKey d = monthKey (windowMonth today i))) = true
      ↔ d.monthIndex = (windowMonth today i).monthIndex := by
  rw [Bool.and_eq_true, decide_eq_true_eq, monthKey_eq_iff]
  constructor
  · exact fun h => h.2
  · intro h
    refine ⟨?_, h⟩
    have hs := monthIndex_sixMonthsAgo today
    have hw := monthIndex_windowMonth today i
    have h0 : (sixMonthsAgo today).sinceMonthStart = 0 := rfl
    simp only [LocalDate.ge, Bool.or_eq_true, Bool.and_eq_true, decide_eq_true_eq]
    rw [h0]
    omega

theorem invoiceShare_window (today : LocalDate) (i : Nat) (hi : i ≤ 5) (invoice : Invoice) :
    invoiceShare (sixMonthsAgo today) (monthKey (windowMonth today i)) invoice
      = if Invoice.inMonth (windowMonth today i).monthIndex invoice = true then invoice.value
        else 0 := by
  unfold invoiceShare Invoice.inMonth
  cases invoice.issueDate with
  | none => simp
  | some d =>
    simp only [decide_eq_true_eq]
    by_cases h : d.monthIndex = (windowMonth today i).monthIndex
    · rw [if_pos ((ge_and_key_iff today d i hi).2 h), if_pos h]
      rfl
    · rw [if_neg (fun hc => h ((ge_and_key_iff today d i hi).1 hc)), if_neg h]

theorem clientShare_window (today : LocalDate) (i : Nat) (hi : i ≤ 5) (client : Client) :
    clientShare (sixMonthsAgo today) (monthKey (windowMonth today i)) client
      = if Client.inMonth (windowMonth today i).monthIndex client = true then 1 else 0 := by
  unfold clientShare Client.inMonth
  cases client.createdAt with
  | none => simp
  | some d =>
    simp only [decide_eq_true_eq]
    by_cases h : d.monthIndex = (windowMonth today i).monthIndex
    · rw [if_pos ((ge_and_key_iff today d i hi).2 h), if_pos h]
    · rw [if_neg (fun hc => h ((ge_and_key_iff today d i hi).1 hc)), if_neg h]

theorem revenueByMonth_eq (today : LocalDate) (invoices : List Invoice) :
    revenueByMonth today invoices
      = (List.range 6).map (fun i => (monthKey (windowMonth today i),
          Num.val (monthRevenue invoices (windowMonth today i).monthIndex))) := by
  unfold revenueByMonth
  rw [initMonths_eq, foldl_buckets (addInvoice (sixMonthsAgo today))
    (invoiceShare (sixMonthsAgo today)) (addInvoice_map (sixMonthsAgo today)) invoices _
    (fun _ => 0), List.map_map]
  apply List.map_congr_left
  intro i hi
  have hi5 : i ≤ 5 := by
    have := List.mem_range.1 hi
    omega
  simp only [Function.comp_apply, zero_add]
  have hfun : invoiceShare (sixMonthsAgo today) (monthKey (windowMonth today i))
      = fun invoice => if Invoice.inMonth (windowMonth today i).monthIndex invoice = true then
          invoice.value else 0 := funext (invoiceShare_window today i hi5)
  rw [hfun, sum_map_ite]
  rfl

theorem clientsByMonth_eq (today : LocalDate) (allClients : List Client) :
    clientsByMonth today allClients
      = (List.range 6).map (fun i => (monthKey (windowMonth today i),
          Num.val (monthClients allClients (windowMonth today i).monthIndex))) := by
  unfold clientsByMonth
  rw [initMonths_eq, foldl_buckets (addClient (sixMonthsAgo today))
    (clientShare (sixMonthsAgo today)) (addClient_map (sixMonthsAgo today)) allClients _
    (fun _ => 0), List.map_map]
  apply List.map_congr_left
  intro i hi
  have hi5 : i ≤ 5 := by
    have := List.mem_range.1 hi
    omega
  simp only [Function.comp_apply, zero_add]
  have hfun : clientShare (sixMonthsAgo today) (monthKey (windowMonth today i))
      = fun client => if Client.inMonth (windowMonth today i).monthIndex client = true then
          (1 : ℚ) else 0 := funext (clientShare_window today i hi5)
  rw [hfun, sum_map_ite]
  simp [monthClients]

theorem lookup_map_index (key : Nat → String) (w : Nat → Num) (l : List Nat) (j : Nat)
    (hj : j ∈ l) (hinj : ∀ i ∈ l, key i = key j → i = j) :
    (l.map (fun i => (key i, w i))).lookup (key j) = some (w j) := by
  induction l with
  | nil => simp at hj
  | cons x rest ih =>
    rw [List.map_cons, List.lookup_cons]
    by_cases hx : key j = key x
    · have hxj : x = j := hinj x (List.mem_cons_self _ _) hx.symm
      subst hxj
      simp
    · have hbeq : (key j == key x) = false := by simpa using hx
      rw [hbeq]
      have hjr : j ∈ rest := by
        rcases List.mem_cons.1 hj with h | h
        · exact absurd (congrArg key h) hx
        · exact h
      exact ih hjr (fun i hi => hinj i (List.mem_cons_of_mem _ hi))

theorem range_six_reverse : (List.range 6).reverse = (List.range 6).map (fun k => 5 - k) := by
  decide

theorem series_of_object (key : Nat → String) (v : Nat → ℚ)
    (hnd : ((List.range 6).map key).Nodup) :
    (JSObject.keys ((List.range 6).map (fun i => (key i, Num.val (v i))))).reverse
      = (List.range 6).map (fun k => key (5 - k)) ∧
    ((JSObject.keys ((List.range 6).map (fun i => (key i, Num.val (v i))))).reverse).map
        (fun m => JSObject.get ((List.range 6).map (fun i => (key i, Num.val (v i)))) m)
      = (List.range 6).map (fun k => some (Num.val (v (5 - k)))) := by
  have hkeys : (JSObject.keys ((List.range 6).map (fun i => (key i, Num.val (v i))))).reverse
      = (List.range 6).map (fun k => key (5 - k)) := by
    unfold JSObject.keys
    rw [List.map_map, ← List.map_reverse, range_six_reverse, List.map_map]
    rfl
  refine ⟨hkeys, ?_⟩
  rw [hkeys, List.map_map]
  apply List.map_congr_left
  intro k hk
  have hk6 : k < 6 := List.mem_range.1 hk
  have hinj := List.inj_on_of_nodup_map hnd
  exact lookup_map_index key (fun i => Num.val (v i)) (List.range 6) (5 - k)
    (List.mem_range.2 (by omega))
    (fun i hi h => hinj hi (List.mem_range.2 (by omega)) h)

theorem monthLabels_eq (today : LocalDate) (invoices : List Invoice) :
    monthLabels today invoices
      = (List.range 6).map (fun k => monthKey (windowMonth today (5 - k))) := by
  unfold monthLabels
  rw [revenueByMonth_eq]
  exact (series_of_object (fun i => monthKey (windowMonth today i)) _
    (windowKeys_nodup today)).1

theorem monthData_eq (today : LocalDate) (invoices : List Invoice) :
    monthData today invoices
      = (List.range 6).map (fun k =>
          some (Num.val (monthRevenue invoices (windowMonth today (5 - k)).monthIndex))) := by
  unfold monthData monthLabels
  rw [revenueByMonth_eq]
  exact (series_of_object (fun i => monthKey (windowMonth today i))
    (fun i => monthRevenue invoices (windowMonth today i).monthIndex)
    (windowKeys_nodup today)).2

theorem clientMonthLabels_eq (today : LocalDate) (allClients : List Client) :
    clientMonthLabels today allClients
      = (List.range 6).map (fun k => monthKey (windowMonth today (5 - k))) := by
  unfold clientMonthLabels
  rw [clientsByMonth_eq]
  exact (series_of_object (fun i => monthKey (windowMonth today i)) _
    (windowKeys_nodup today)).1

theorem clientMonthData_eq (today : LocalDate) (allClients : List Client) :
    clientMonthData today allClients
      = (List.range 6).map (fun k =>
          some (Num.val (monthClients allClients (windowMonth today (5 - k)).monthIndex))) := by
  unfold clientMonthData clientMonthLabels
  rw [clientsByMonth_eq]
  exact (series_of_object (fun i => monthKey (windowMonth today i))
    (fun i => monthClients allClients (windowMonth today i).monthIndex)
    (windowKeys_nodup today)).2

theorem constructorYear_of_not (y : Int) (h : ¬ (0 ≤ y ∧ y ≤ 99)) : constructorYear y = y := by
  unfold constructorYear
  rw [if_neg h]

theorem monthIndex_window_of_year (today : LocalDate)
    (hy : ¬ (0 ≤ today.year ∧ today.year ≤ 99)) (k : Nat) (hk : k < 6) :
    (windowMonth today (5 - k)).monthIndex = today.monthIndex - 5 + (k : Int) := by
  rw [monthIndex_windowMonth, constructorYear_of_not _ hy]
  unfold LocalDate.monthIndex
  omega

theorem monthKey_window_of_year (today : LocalDate)
    (hy : ¬ (0 ≤ today.year ∧ today.year ≤ 99)) (k : Nat) (hk : k < 6) :
    monthKey (windowMonth today (5 - k))
      = monthKey (monthOfIndex (today.monthIndex - 5 + (k : Int))) := by
  rw [monthKey_eq_iff, monthIndex_monthOfIndex]
  exact monthIndex_window_of_year today hy k hk

theorem monthRevenue_filter_window (today : LocalDate) (invoices : List Invoice) (idx : Int)
    (h1 : today.monthIndex - 5 ≤ idx) (h2 : idx ≤ today.monthIndex) :
    monthRevenue (invoices.filter (Invoice.inWindow today)) idx = monthRevenue invoices idx := by
  have hf : (invoices.filter (Invoice.inWindow today)).filter (Invoice.inMonth idx)
      = invoices.filter (Invoice.inMonth idx) := by
    rw [List.filter_filter]
    apply List.filter_congr
    intro x _
    unfold Invoice.inMonth Invoice.inWindow
    cases x.issueDate with
    | none => rfl
    | some d =>
      by_cases hd : d.monthIndex = idx
      · have h3 : today.monthIndex - 5 ≤ d.monthIndex := by omega
        have h4 : d.monthIndex ≤ today.monthIndex := by omega
        simp [hd, h3, h4, h1, h2]
      · simp [hd]
  unfold monthRevenue
  rw [hf]

theorem monthClients_filter_window (today : LocalDate) (allClients : List Client) (idx : Int)
    (h1 : today.monthIndex - 5 ≤ idx) (h2 : idx ≤ today.monthIndex) :
    monthClients (allClients.filter (Client.inWindow today)) idx
      = monthClients allClients idx := by
  have hf : (allClients.filter (Client.inWindow today)).filter (Client.inMonth idx)
      = allClients.filter (Client.inMonth idx) := by
    rw [List.filter_filter]
    apply List.filter_congr
    intro x _
    unfold Client.inMonth Client.inWindow
    cases x.createdAt with
    | none => rfl
    | some d =>
      by_cases hd : d.monthIndex = idx
      · have h3 : today.monthIndex - 5 ≤ d.monthIndex := by omega
        have h4 : d.monthIndex ≤ today.monthIndex := by omega
        simp [hd, h3, h4, h1, h2]
      · simp [hd]
  unfold monthClients
  rw [hf]

/-- C7: for a current date whose year is not one of the years 0 to 99 (which the `Date`
constructor reads as 1900 to 1999), the revenue chart pairs the six months that end with the
current month, oldest first, each with the sum of the amounts of exactly the invoices whose
issue date falls in that calendar month, and removing the invoices dated outside these six
months changes no bucket; the client-growth chart is the same with the number of clients
created in the month. -/
theorem monthly_buckets_sum_their_month (today : LocalDate) (invoices : List Invoice)
    (allClients : List Client) (hy : ¬ (0 ≤ today.year ∧ today.year ≤ 99)) :
    List.zip (monthLabels today invoices) (monthData today invoices)
      = (List.range 6).map (fun (k : Nat) =>
          (monthKey (monthOfIndex (today.monthIndex - 5 + (k : Int))),
            some (Num.val (monthRevenue invoices (today.monthIndex - 5 + (k : Int)))))) ∧
    monthData today (invoices.filter (Invoice.inWindow today)) = monthData today invoices ∧
    List.zip (clientMonthLabels today allClients) (clientMonthData today allClients)
      = (List.range 6).map (fun (k : Nat) =>
          (monthKey (monthOfIndex (today.monthIndex - 5 + (k : Int))),
            some (Num.val (monthClients allClients (today.monthIndex - 5 + (k : Int)))))) ∧
    clientMonthData today (allClients.filter (Client.inWindow today))
      = clientMonthData today allClients := by
  refine ⟨?_, ?_, ?_, ?_⟩
  · rw [monthLabels_eq, monthData_eq, List.zip_map']
    apply List.map_congr_left
    intro k hk
    have hk6 : k < 6 := List.mem_range.1 hk
    rw [monthKey_window_of_year today hy k hk6, monthIndex_window_of_year today hy k hk6]
  · rw [monthData_eq, monthData_eq]
    apply List.map_congr_left
    intro k hk
    have hk6 : k < 6 := List.mem_range.1 hk
    rw [monthIndex_window_of_year today hy k hk6,
      monthRevenue_filter_window today invoices _ (by omega) (by omega)]
  · rw [clientMonthLabels_eq, clientMonthData_eq, List.zip_map']
    apply List.map_congr_left
    intro k hk
    have hk6 : k < 6 := List.mem_range.1 hk
    rw [monthKey_window_of_year today hy k hk6, monthIndex_window_of_year today hy k hk6]
  · rw [clientMonthData_eq, clientMonthData_eq]
    apply List.map_congr_left
    intro k hk
    have hk6 : k < 6 := List.mem_range.1 hk
    rw [monthIndex_window_of_year today hy k hk6,
      monthClients_filter_window today allClients _ (by omega) (by omega)]

theorem januarySeries_eval :
    (List.range 6).map (fun (k : Nat) =>
        (monthKey (monthOfIndex (januaryToday.monthIndex - 5 + (k : Int))),
          some (Num.val (monthRevenue januaryInvoices
            (januaryToday.monthIndex - 5 + (k : Int))))))
      = [("Aug 2023", some (Num.val 100)), ("Sep 2023", some (Num.val 0)),
         ("Oct 2023", some (Num.val 0)), ("Nov 2023", some (Num.val 0)),
         ("Dec 2023", some (Num.val 0)), ("Jan 2024", some (Num.val 20))] := by
  have h0 : (januaryInvoices.filter
      (Invoice.inMonth (januaryToday.monthIndex - 5 + (0 : Nat)))).map Invoice.amount
        = [JSVal.ofRat 100] := by decide
  have h1 : ∀ k : Nat, 1 ≤ k → k ≤ 4 →
      (januaryInvoices.filter
        (Invoice.inMonth (januaryToday.monthIndex - 5 + k))).map Invoice.amount = [] := by
    decide
  have h5 : (januaryInvoices.filter
      (Invoice.inMonth (januaryToday.monthIndex - 5 + (5 : Nat)))).map Invoice.amount
        = [JSVal.ofRat 7, JSVal.undefined, JSVal.ofRat 13] := by decide
  have hv : ∀ idx, monthRevenue januaryInvoices idx
      = (((januaryInvoices.filter (Invoice.inMonth idx)).map Invoice.amount).map
          JSVal.toRat).sum := by
    intro idx
    rw [List.map_map]
    rfl
  have k0 : monthKey (monthOfIndex (januaryToday.monthIndex - 5 + ((0 : Nat) : Int)))
      = "Aug 2023" := by decide
  have k1 : monthKey (monthOfIndex (januaryToday.monthIndex - 5 + ((1 : Nat) : Int)))
      = "Sep 2023" := by decide
  have k2 : monthKey (monthOfIndex (januaryToday.monthIndex - 5 + ((2 : Nat) : Int)))
      = "Oct 2023" := by decide
  have k3 : monthKey (monthOfIndex (januaryToday.monthIndex - 5 + ((3 : Nat) : Int)))
      = "Nov 2023" := by decide
  have k4 : monthKey (monthOfIndex (januaryToday.monthIndex - 5 + ((4 : Nat) : Int)))
      = "Dec 2023" := by decide
  have k5 : monthKey (monthOfIndex (januaryToday.monthIndex - 5 + ((5 : Nat) : Int)))
      = "Jan 2024" := by decide
  rw [show List.range 6 = [0, 1, 2, 3, 4, 5] from by decide]
  simp only [List.map_cons, List.map_nil, hv]
  rw [h0, h1 1 (by decide) (by decide), h1 2 (by decide) (by decide),
    h1 3 (by decide) (by decide), h1 4 (by decide) (by decide), h5, k0, k1, k2, k3, k4, k5]
  norm_num [JSVal.ofRat, JSVal.toRat, Num.toRat]

theorem monthly_buckets_sum_their_month_witness :
    ¬ (0 ≤ januaryToday.year ∧ januaryToday.year ≤ 99) ∧
    List.zip (monthLabels januaryToday januaryInvoices) (monthData januaryToday januaryInvoices)
      = [("Aug 2023", some (Num.val 100)), ("Sep 2023", some (Num.val 0)),
         ("Oct 2023", some (Num.val 0)), ("Nov 2023", some (Num.val 0)),
         ("Dec 2023", some (Num.val 0)), ("Jan 2024", some (Num.val 20))] :=
  ⟨by decide,
    (monthly_buckets_sum_their_month januaryToday januaryInvoices [] (by decide)).1.trans
      januarySeries_eval⟩

/-- C8: for every current date the revenue series and the client-growth series have exactly six
labels and six values, so they are never empty, and with no records all six values are 0. -/
theorem series_has_six_buckets (today : LocalDate) (invoices : List Invoice)
    (allClients : List Client) :
    (monthLabels today invoices).length = 6 ∧
    (monthData today invoices).length = 6 ∧
    (clientMonthLabels today allClients).length = 6 ∧
    (clientMonthData today allClients).length = 6 ∧
    monthData today [] = List.replicate 6 (some (Num.val 0)) ∧
    clientMonthData today [] = List.replicate 6 (some (Num.val 0)) ∧
    monthLabels today invoices ≠ [] ∧ monthData today invoices ≠ [] := by
  have h1 : (monthLabels today invoices).length = 6 := by
    rw [monthLabels_eq, List.length_map, List.length_range]
  have h2 : (monthData today invoices).length = 6 := by
    rw [monthData_eq, List.length_map, List.length_range]
  refine ⟨h1, h2, ?_, ?_, ?_, ?_, ?_, ?_⟩
  · rw [clientMonthLabels_eq, List.length_map, List.length_range]
  · rw [clientMonthData_eq, List.length_map, List.length_range]
  · rw [monthData_eq]
    simp [monthRevenue, List.range_succ]
  · rw [clientMonthData_eq]
    simp [monthClients, List.range_succ]
  · intro h
    rw [h] at h1
    simp at h1
  · intro h
    rw [h] at h2
    simp at h2

/-- C9: for a current date whose year is not one of the years 0 to 99, the labels of both charts
are the keys of six consecutive calendar months in ascending order, all distinct, from the
month five months before the current month (first) to the current month (last), also when the
window crosses a year boundary. -/
theorem month_labels_consecutive (today : LocalDate) (invoices : List Invoice)
    (allClients : List Client) (hy : ¬ (0 ≤ today.year ∧ today.year ≤ 99)) :
    monthLabels today invoices
      = (List.range 6).map
          (fun (k : Nat) => monthKey (monthOfIndex (today.monthIndex - 5 + (k : Int)))) ∧
    clientMonthLabels today allClients = monthLabels today invoices ∧
    (monthLabels today invoices).Nodup ∧
    (monthLabels today invoices).head? = some (monthKey (monthOfIndex (today.monthIndex - 5))) ∧
    (monthLabels today invoices).getLast? = some (monthKey today) := by
  have hl : monthLabels today invoices
      = (List.range 6).map
          (fun (k : Nat) => monthKey (monthOfIndex (today.monthIndex - 5 + (k : Int)))) := by
    rw [monthLabels_eq]
    apply List.map_congr_left
    intro k hk
    exact monthKey_window_of_year today hy k (List.mem_range.1 hk)
  refine ⟨hl, ?_, ?_, ?_, ?_⟩
  · rw [clientMonthLabels_eq, monthLabels_eq]
  · rw [hl]
    refine (List.nodup_range 6).map_on ?_
    intro i _ j _ h
    have hidx := (monthKey_eq_iff _ _).1 h
    rw [monthIndex_monthOfIndex, monthIndex_monthOfIndex] at hidx
    omega
  · rw [hl]
    simp [List.range_succ_eq_map]
  · rw [hl]
    have hlast : monthKey (monthOfIndex (today.monthIndex - 5 + ((5 : Nat) : Int)))
        = monthKey today := by
      rw [monthKey_eq_iff, monthIndex_monthOfIndex]
      omega
    rw [List.range_succ, List.map_append, List.map_singleton, List.getLast?_append, hlast]
    rfl

theorem month_labels_consecutive_witness :
    ¬ (0 ≤ januaryToday.year ∧ januaryToday.year ≤ 99) ∧
    monthLabels januaryToday januaryInvoices
      = ["Aug 2023", "Sep 2023", "Oct 2023", "Nov 2023", "Dec 2023", "Jan 2024"] :=
  ⟨by decide,
    (month_labels_consecutive januaryToday januaryInvoices [] (by decide)).1.trans
      (by decide)⟩

/-! ### Totality, sign and purity of the totals -/

theorem overDiscounted_numeric : ∀ it ∈ overDiscounted.items, it.Numeric := by
  intro it hit
  simp only [overDiscounted, List.mem_singleton] at hit
  subst hit
  exact ⟨1, 100, rfl, rfl⟩

/-- In exact arithmetic: for numeric items (the empty list included), a numeric tax rate and a
numeric discount value of either discount type, `calculateTotals` returns a record of four
finite numbers; for the empty list with tax 0 and a 0% discount all four are 0. -/
theorem calculateTotals_total :
    (∀ (values : Values) (r d : ℚ), (∀ it ∈ values.items, it.Numeric) →
      values.taxRate = JSVal.ofRat r → values.discountValue = JSVal.ofRat d →
      ∃ s t x a : ℚ, calculateTotals values
        = { subtotal := Num.val s, taxAmount := Num.val t, discountAmount := Num.val x,
            amount := Num.val a }) ∧
    calculateTotals (mkValues [] (JSVal.ofRat 0) "percentage" (JSVal.ofRat 0))
      = { subtotal := Num.val 0, taxAmount := Num.val 0, discountAmount := Num.val 0,
          amount := Num.val 0 } := by
  constructor
  · intro values r d h hr hd
    by_cases hp : values.discountType = "percentage"
    · exact ⟨_, _, _, _, calculateTotals_percentage values r d h hr hd hp⟩
    · exact ⟨_, _, _, _, calculateTotals_fixed values r d h hr hd hp⟩
  · rw [calculateTotals_percentage _ 0 0 (mkItems_numeric []) rfl rfl rfl]
    norm_num [mkValues, exactSubtotal]

theorem calculateTotals_total_witness :
    (∀ it ∈ overDiscounted.items, it.Numeric) ∧
    ∃ s t x a : ℚ, calculateTotals overDiscounted
      = { subtotal := Num.val s, taxAmount := Num.val t, discountAmount := Num.val x,
          amount := Num.val a } :=
  ⟨overDiscounted_numeric,
    calculateTotals_total.1 overDiscounted 10 200 overDiscounted_numeric rfl rfl⟩

theorem overDiscounted_amount : (calculateTotals overDiscounted).amount = Num.val (-90) := by
  rw [calculateTotals_fixed overDiscounted 10 200 overDiscounted_numeric rfl rfl (by decide)]
  norm_num [overDiscounted, exactSubtotal, JSVal.ofRat, JSVal.toRat, Num.toRat]

theorem subtotalOf_eq_of_inputs (xs ys : List Item)
    (h : xs.map Item.inputs = ys.map Item.inputs) : subtotalOf xs = subtotalOf ys := by
  have hfold : ∀ zs : List Item, subtotalOf zs
      = (zs.map Item.inputs).foldl
          (fun total p => Num.add total (calculateItemAmount p.1 p.2)) (Num.val 0) := by
    intro zs
    unfold subtotalOf
    rw [List.foldl_map]
    rfl
  rw [hfold xs, hfold ys, h]

/-- C19: `calculateTotals` is a function of the quantities and unit prices of the items, the tax
rate, the discount type and the discount value alone: two form value sets that agree on these
give identical subtotal, taxAmount, discountAmount and amount, whatever their stored totals,
stored item amounts and other fields are. -/
theorem calculateTotals_depends_only_on_inputs (v w : Values)
    (hitems : v.items.map Item.inputs = w.items.map Item.inputs)
    (hrate : v.taxRate = w.taxRate) (htype : v.discountType = w.discountType)
    (hvalue : v.discountValue = w.discountValue) :
    calculateTotals v = calculateTotals w := by
  simp only [calculateTotals, subtotalOf_eq_of_inputs v.items w.items hitems, hrate, htype,
    hvalue]

theorem calculateTotals_depends_only_on_inputs_witness :
    overDiscounted.items.map Item.inputs
      = (mkValues [mkItem 1 100] (JSVal.ofRat 10) "fixed" (JSVal.ofRat 200)).items.map
          Item.inputs ∧
    calculateTotals overDiscounted
      = calculateTotals (mkValues [mkItem 1 100] (JSVal.ofRat 10) "fixed" (JSVal.ofRat 200)) :=
  ⟨rfl, calculateTotals_depends_only_on_inputs overDiscounted
    (mkValues [mkItem 1 100] (JSVal.ofRat 10) "fixed" (JSVal.ofRat 200)) rfl rfl rfl rfl⟩

/-! ### Items that are not numbers -/

theorem nan_add (n : Num) : Num.add Num.nan n = Num.nan := by
  cases n <;> rfl

theorem foldl_subtotal_nan (items : List Item) :
    items.foldl (fun total item =>
        Num.add total (calculateItemAmount item.quantity item.unitPrice)) Num.nan
      = Num.nan := by
  induction items with
  | nil => rfl
  | cons it rest ih => rw [List.foldl_cons, nan_add, ih]

theorem add_nan (n : Num) : Num.add n Num.nan = Num.nan := by
  cases n <;> rfl

theorem foldl_subtotal_of_nan_item (items : List Item) (acc : Num) (bad : Item)
    (hbad : bad ∈ items) (hnan : calculateItemAmount bad.quantity bad.unitPrice = Num.nan) :
    items.foldl (fun total item =>
        Num.add total (calculateItemAmount item.quantity item.unitPrice)) acc
      = Num.nan := by
  induction items generalizing acc with
  | nil => simp at hbad
  | cons it rest ih =>
    rw [List.foldl_cons]
    rcases List.mem_cons.1 hbad with h | h
    · subst h
      rw [hnan, add_nan, foldl_subtotal_nan]
    · exact ih _ h

theorem calculateItemAmount_nan (v u : JSVal) (hv : v.parseFloat = Num.nan) :
    calculateItemAmount v u = Num.nan ∧ calculateItemAmount u v = Num.nan := by
  unfold calculateItemAmount
  rw [hv]
  constructor
  · rfl
  · cases u.parseFloat <;> rfl

theorem subtotal_nan_of_item (values : Values) (bad : Item) (hbad : bad ∈ values.items)
    (hnan : bad.quantity.parseFloat = Num.nan ∨ bad.unitPrice.parseFloat = Num.nan) :
    (calculateTotals values).subtotal = Num.nan := by
  have hb : calculateItemAmount bad.quantity bad.unitPrice = Num.nan := by
    rcases hnan with h | h
    · exact (calculateItemAmount_nan _ _ h).1
    · exact (calculateItemAmount_nan _ _ h).2
  exact foldl_subtotal_of_nan_item values.items (Num.val 0) bad hbad hb

/-- C20 (the code differs): an item whose quantity or unit price is the empty string, missing
or `NaN` is not treated as 0. `calculateItemAmount` gives it the amount `NaN`, whatever the
other field is, and the subtotal of every list that holds an item with a cleared quantity is
`NaN`, so the contributions of the other items are lost: a cleared quantity next to an item
2 × 50 gives the subtotal `NaN`, where the item 2 × 50 alone gives 100. -/
theorem blank_item_amount_is_nan :
    (∀ u : JSVal,
      calculateItemAmount JSVal.emptyStr u = Num.nan ∧
      calculateItemAmount u JSVal.emptyStr = Num.nan ∧
      calculateItemAmount JSVal.undefined u = Num.nan ∧
      calculateItemAmount u JSVal.undefined = Num.nan ∧
      calculateItemAmount (JSVal.number Num.nan) u = Num.nan ∧
      calculateItemAmount u (JSVal.number Num.nan) = Num.nan) ∧
    (∀ (before after : List Item) (taxRate : JSVal) (discountType : String)
      (discountValue : JSVal),
      (calculateTotals (mkValues (before ++ clearedItem :: after) taxRate discountType
        discountValue)).subtotal = Num.nan) ∧
    calculateItemAmount clearedItem.quantity clearedItem.unitPrice = Num.nan ∧
    (calculateTotals (mkValues [clearedItem, mkItem 2 50] (JSVal.ofRat 0) "percentage"
      (JSVal.ofRat 0))).subtotal = Num.nan ∧
    (calculateTotals (mkValues [mkItem 2 50] (JSVal.ofRat 0) "percentage"
      (JSVal.ofRat 0))).subtotal = Num.val 100 := by
  refine ⟨?_, ?_, rfl, ?_, ?_⟩
  · intro u
    have he := calculateItemAmount_nan JSVal.emptyStr u rfl
    have hu := calculateItemAmount_nan JSVal.undefined u rfl
    have hn := calculateItemAmount_nan (JSVal.number Num.nan) u rfl
    exact ⟨he.1, he.2, hu.1, hu.2, hn.1, hn.2⟩
  · intro before after taxRate discountType discountValue
    exact subtotal_nan_of_item _ clearedItem
      (List.mem_append_right _ (List.mem_cons_self _ _)) (Or.inl rfl)
  · exact subtotal_nan_of_item _ clearedItem (List.mem_cons_self _ _) (Or.inl rfl)
  · have h := subtotalOf_numeric [mkItem 2 50] (mkItems_numeric [(2, 50)])
    show subtotalOf [mkItem 2 50] = Num.val 100
    rw [h]
    norm_num [mkItem, exactSubtotal, JSVal.ofRat, JSVal.toRat, Num.toRat]

/-! ### Validation of the invoice form -/

theorem requiredNumberMin_iff (m : ℚ) (v : JSVal) :
    requiredNumberMin m v = true ↔ ∃ q : ℚ, v = JSVal.ofRat q ∧ m ≤ q := by
  cases v with
  | number n =>
    cases n with
    | val q =>
      simp only [requiredNumberMin, decide_eq_true_eq, JSVal.ofRat]
      constructor
      · exact fun h => ⟨q, rfl, h⟩
      · rintro ⟨q2, hq, hle⟩
        injection hq with hq
        injection hq with hq
        rw [hq]
        exact hle
    | nan =>
      simp only [requiredNumberMin, JSVal.ofRat]
      constructor
      · intro h
        exact absurd h (by decide)
      · rintro ⟨q2, hq, _⟩
        injection hq with hq
        exact absurd hq (by intro hc; cases hc)
  | emptyStr =>
    simp only [requiredNumberMin, JSVal.ofRat]
    constructor
    · intro h
      exact absurd h (by decide)
    · rintro ⟨q2, hq, _⟩
      cases hq
  | undefined =>
    simp only [requiredNumberMin, JSVal.ofRat]
    constructor
    · intro h
      exact absurd h (by decide)
    · rintro ⟨q2, hq, _⟩
      cases hq

theorem itemSchema_iff (item : Item) :
    itemSchema item = true ↔
      item.description ≠ "" ∧ (∃ q : ℚ, item.quantity = JSVal.ofRat q ∧ 1 ≤ q) ∧
        (∃ p : ℚ, item.unitPrice = JSVal.ofRat p ∧ 0 ≤ p) := by
  unfold itemSchema requiredString
  rw [Bool.and_eq_true, Bool.and_eq_true, decide_eq_true_eq, requiredNumberMin_iff,
    requiredNumberMin_iff, and_assoc]

theorem itemsSchema_iff (items : List Item) :
    itemsSchema items = true ↔
      items ≠ [] ∧ ∀ it ∈ items, it.description ≠ "" ∧
        (∃ q : ℚ, it.quantity = JSVal.ofRat q ∧ 1 ≤ q) ∧
        (∃ p : ℚ, it.unitPrice = JSVal.ofRat p ∧ 0 ≤ p) := by
  unfold itemsSchema
  rw [Bool.and_eq_true, List.all_eq_true, decide_eq_true_eq]
  constructor
  · rintro ⟨hall, hlen⟩
    refine ⟨?_, fun it hit => (itemSchema_iff it).1 (hall it hit)⟩
    intro hnil
    rw [hnil] at hlen
    simp at hlen
  · rintro ⟨hne, hall⟩
    refine ⟨fun it hit => (itemSchema_iff it).2 (hall it hit), ?_⟩
    cases items with
    | nil => exact absurd rfl hne
    | cons x xs => simp

theorem validationSchema_items (isDate : String → Bool) (values : Values)
    (h : validationSchema isDate values = true) : itemsSchema values.items = true := by
  unfold validationSchema at h
  simp only [Bool.and_eq_true] at h
  exact h.2

theorem formAccepts_schema (isDate : String → Bool) (values : Values)
    (h : formAccepts isDate values = true) : validationSchema isDate values = true := by
  unfold formAccepts at h
  rw [Bool.and_eq_true] at h
  exact h.2

theorem submitForm_none_of_rejected (isDate : String → Bool) (values : Values)
    (h : formAccepts isDate values = false) : submitForm isDate values = none := by
  unfold submitForm
  rw [h]
  rfl

/-- C12: the validation schema of the invoice form accepts the form values only if the list of
line items has at least one item and every item has a non-empty description, a numeric
quantity of at least 1 and a numeric unit price of at least 0 (the rule for `items` is exactly
this condition); values with an item of quantity below 1 or of negative unit price are
rejected, and no record is built for them. -/
theorem validation_of_items (isDate : String → Bool) (values : Values) :
    (validationSchema isDate values = true →
      values.items ≠ [] ∧ ∀ it ∈ values.items, it.description ≠ "" ∧
        (∃ q : ℚ, it.quantity = JSVal.ofRat q ∧ 1 ≤ q) ∧
        (∃ p : ℚ, it.unitPrice = JSVal.ofRat p ∧ 0 ≤ p)) ∧
    (itemsSchema values.items = true ↔
      values.items ≠ [] ∧ ∀ it ∈ values.items, it.description ≠ "" ∧
        (∃ q : ℚ, it.quantity = JSVal.ofRat q ∧ 1 ≤ q) ∧
        (∃ p : ℚ, it.unitPrice = JSVal.ofRat p ∧ 0 ≤ p)) ∧
    (∀ it ∈ values.items, ∀ x : ℚ,
      (it.quantity = JSVal.ofRat x ∧ x < 1) ∨ (it.unitPrice = JSVal.ofRat x ∧ x < 0) →
      validationSchema isDate values = false ∧ submitForm isDate values = none) := by
  have h1 : validationSchema isDate values = true →
      values.items ≠ [] ∧ ∀ it ∈ values.items, it.description ≠ "" ∧
        (∃ q : ℚ, it.quantity = JSVal.ofRat q ∧ 1 ≤ q) ∧
        (∃ p : ℚ, it.unitPrice = JSVal.ofRat p ∧ 0 ≤ p) := fun h =>
    (itemsSchema_iff values.items).1 (validationSchema_items isDate values h)
  refine ⟨h1, itemsSchema_iff values.items, ?_⟩
  intro it hit x hx
  have hrej : validationSchema isDate values = false := by
    cases hv : validationSchema isDate values with
    | false => rfl
    | true =>
      obtain ⟨_, hq, hp⟩ := (h1 hv).2 it hit
      rcases hx with ⟨hx1, hx2⟩ | ⟨hx1, hx2⟩
      · obtain ⟨q, hq1, hq2⟩ := hq
        rw [hx1] at hq1
        have hxq : x = q := by
          injection hq1 with hq1
          injection hq1
        rw [hxq] at hx2
        exact absurd hq2 (not_le.2 hx2)
      · obtain ⟨q, hq1, hq2⟩ := hp
        rw [hx1] at hq1
        have hxq : x = q := by
          injection hq1 with hq1
          injection hq1
        rw [hxq] at hx2
        exact absurd hq2 (not_le.2 hx2)
  refine ⟨hrej, submitForm_none_of_rejected isDate values ?_⟩
  cases ha : formAccepts isDate values with
  | false => rfl
  | true =>
    rw [formAccepts_schema isDate values ha] at hrej
    exact absurd hrej (by decide)

theorem overDiscounted_schema : validationSchema nonEmptyDate overDiscounted = true := by
  have hitems : itemsSchema overDiscounted.items = true := by
    rw [itemsSchema_iff]
    constructor
    · simp [overDiscounted]
    · intro it hit
      simp only [overDiscounted, List.mem_singleton] at hit
      subst hit
      exact ⟨by decide, ⟨1, rfl, le_refl _⟩, ⟨100, rfl, by norm_num⟩⟩
  simp only [validationSchema, hitems]
  decide

theorem validation_of_items_witness :
    validationSchema nonEmptyDate overDiscounted = true ∧
    (overDiscounted.items ≠ [] ∧ ∀ it ∈ overDiscounted.items, it.description ≠ "" ∧
      (∃ q : ℚ, it.quantity = JSVal.ofRat q ∧ 1 ≤ q) ∧
      (∃ p : ℚ, it.unitPrice = JSVal.ofRat p ∧ 0 ≤ p)) ∧
    (validationSchema nonEmptyDate zeroQuantity = false ∧
      submitForm nonEmptyDate zeroQuantity = none) :=
  ⟨overDiscounted_schema,
    (validation_of_items nonEmptyDate overDiscounted).1 overDiscounted_schema,
    (validation_of_items nonEmptyDate zeroQuantity).2.2 (mkItem 0 100)
      (List.mem_singleton.2 rfl) 0 (Or.inl ⟨rfl, by norm_num⟩)⟩

theorem numberInputValid_ofRat (min : ℚ) (max : Option ℚ) (step d : ℚ)
    (h : numberInputValid min max step (JSVal.ofRat d) = true) :
    min ≤ d ∧ ∀ m, max = some m → d ≤ m := by
  simp only [numberInputValid, JSVal.ofRat, Bool.and_eq_true, decide_eq_true_eq] at h
  refine ⟨h.1.1, ?_⟩
  intro m hm
  have h2 := h.1.2
  rw [hm] at h2
  simpa using h2

theorem inputsValid_discount (values : Values) (d : ℚ) (h : inputsValid values = true)
    (hd : values.discountValue = JSVal.ofRat d) :
    0 ≤ d ∧ (values.discountType = "percentage" → d ≤ 100) := by
  unfold inputsValid at h
  rw [Bool.and_eq_true] at h
  have hdisc := h.2
  by_cases hp : values.discountType = "percentage"
  · rw [if_pos hp, hd] at hdisc
    have hr := numberInputValid_ofRat _ _ _ _ hdisc
    exact ⟨hr.1, fun _ => hr.2 100 rfl⟩
  · rw [if_neg hp, hd] at hdisc
    have hr := numberInputValid_ofRat _ _ _ _ hdisc
    exact ⟨hr.1, fun hc => absurd hc hp⟩

theorem formAccepts_inputs (isDate : String → Bool) (values : Values)
    (h : formAccepts isDate values = true) : inputsValid values = true := by
  unfold formAccepts at h
  rw [Bool.and_eq_true] at h
  exact h.1

/-- C13: the invoice form lets no submission through, so `handleSubmit` computes and writes
nothing, when the discount value is a negative number or when the discount type is
`percentage` and the value is above 100; every accepted discount value `d` has `0 ≤ d`, and
`d ≤ 100` for a percentage. The rejection comes from the `min` and `max` attributes of the
discount input: the validation schema itself does not read the discount. -/
theorem discount_is_validated (isDate : String → Bool) (values : Values) :
    (∀ d : ℚ, values.discountValue = JSVal.ofRat d →
      d < 0 ∨ (values.discountType = "percentage" ∧ 100 < d) →
      formAccepts isDate values = false ∧ submitForm isDate values = none) ∧
    (∀ d : ℚ, formAccepts isDate values = true → values.discountValue = JSVal.ofRat d →
      0 ≤ d ∧ (values.discountType = "percentage" → d ≤ 100)) ∧
    (∀ (t : String) (x : JSVal),
      validationSchema isDate { values with discountType := t, discountValue := x }
        = validationSchema isDate values) := by
  have hacc : ∀ d : ℚ, formAccepts isDate values = true →
      values.discountValue = JSVal.ofRat d →
      0 ≤ d ∧ (values.discountType = "percentage" → d ≤ 100) := fun d ha hd =>
    inputsValid_discount values d (formAccepts_inputs isDate values ha) hd
  refine ⟨?_, hacc, fun _ _ => rfl⟩
  intro d hd hbad
  have hrej : formAccepts isDate values = false := by
    cases ha : formAccepts isDate values with
    | false => rfl
    | true =>
      obtain ⟨h0, h100⟩ := hacc d ha hd
      rcases hbad with hneg | ⟨hp, hgt⟩
      · exact absurd h0 (not_le.2 hneg)
      · exact absurd (h100 hp) (not_le.2 hgt)
  exact ⟨hrej, submitForm_none_of_rejected isDate values hrej⟩

theorem discount_is_validated_witness :
    (negativeDiscount.discountValue = JSVal.ofRat (-5) ∧
      formAccepts nonEmptyDate negativeDiscount = false ∧
      submitForm nonEmptyDate negativeDiscount = none) ∧
    (percentOver.discountValue = JSVal.ofRat 150 ∧ percentOver.discountType = "percentage" ∧
      formAccepts nonEmptyDate percentOver = false ∧
      submitForm nonEmptyDate percentOver = none) :=
  ⟨⟨rfl, (discount_is_validated nonEmptyDate negativeDiscount).1 (-5) rfl
      (Or.inl (by norm_num))⟩,
    ⟨rfl, rfl, (discount_is_validated nonEmptyDate percentOver).1 150 rfl
      (Or.inr ⟨rfl, by norm_num⟩)⟩⟩

theorem overDiscounted_inputs : inputsValid overDiscounted = true := by
  have hq : numberInputValid 1 none 1 (JSVal.ofRat 1) = true := by
    norm_num [numberInputValid, JSVal.ofRat]
  have hp : numberInputValid 0 none (1 / 100) (JSVal.ofRat 100) = true := by
    norm_num [numberInputValid, JSVal.ofRat]
  have ht : numberInputValid 0 (some 100) (1 / 100) (JSVal.ofRat 10) = true := by
    norm_num [numberInputValid, JSVal.ofRat]
  have hd : numberInputValid 0 none 1 (JSVal.ofRat 200) = true := by
    norm_num [numberInputValid, JSVal.ofRat]
  have hne : ¬ overDiscounted.discountType = "percentage" := by decide
  unfold inputsValid
  rw [if_neg hne]
  simp only [overDiscounted, List.all_cons, List.all_nil, hq, hp, ht, hd, Bool.and_self]

theorem overDiscounted_accepted :
    submitForm nonEmptyDate overDiscounted = some (handleSubmit overDiscounted) := by
  unfold submitForm formAccepts
  rw [overDiscounted_inputs, overDiscounted_schema]
  rfl

/-- C15: a fixed discount is not clamped. Whenever the items, the tax rate and the discount value
are numeric, the discount type is `fixed` and the discount value exceeds
subtotal + taxAmount, the grand total returned by `calculateTotals` is negative. This happens
for valid, non-negative input: one item 1 × 100, a tax of 10% and a fixed discount of 200 pass
the validation of the form and the record written has the grand total −90. -/
theorem fixed_discount_not_clamped :
    (∀ (values : Values) (r d : ℚ), (∀ it ∈ values.items, it.Numeric) →
      values.taxRate = JSVal.ofRat r → values.discountValue = JSVal.ofRat d →
      values.discountType = "fixed" →
      exactSubtotal values.items + exactSubtotal values.items * r / 100 < d →
      ∃ a : ℚ, (calculateTotals values).amount = Num.val a ∧ a < 0) ∧
    (overDiscounted.items.map Item.inputs = [(JSVal.ofRat 1, JSVal.ofRat 100)] ∧
      overDiscounted.taxRate = JSVal.ofRat 10 ∧ overDiscounted.discountType = "fixed" ∧
      overDiscounted.discountValue = JSVal.ofRat 200 ∧
      (calculateTotals overDiscounted).amount = Num.val (-90) ∧
      submitForm nonEmptyDate overDiscounted = some (handleSubmit overDiscounted) ∧
      (handleSubmit overDiscounted).amount = Num.val (-90)) := by
  constructor
  · intro values r d h hr hd hf hlt
    have hp : values.discountType ≠ "percentage" := by rw [hf]; decide
    rw [calculateTotals_fixed values r d h hr hd hp]
    exact ⟨_, rfl, by linarith⟩
  · exact ⟨rfl, rfl, rfl, rfl, overDiscounted_amount, overDiscounted_accepted,
      overDiscounted_amount⟩

theorem fixed_discount_not_clamped_witness :
    (∀ it ∈ overDiscounted.items, it.Numeric) ∧
    exactSubtotal overDiscounted.items + exactSubtotal overDiscounted.items * 10 / 100 < 200 ∧
    ∃ a : ℚ, (calculateTotals overDiscounted).amount = Num.val a ∧ a < 0 :=
  have hlt : exactSubtotal overDiscounted.items
      + exactSubtotal overDiscounted.items * 10 / 100 < 200 := by
    norm_num [overDiscounted, exactSubtotal, JSVal.ofRat, JSVal.toRat, Num.toRat]
  ⟨overDiscounted_numeric, hlt,
    fixed_discount_not_clamped.1 overDiscounted 10 200 overDiscounted_numeric rfl rfl rfl hlt⟩

/-! ### Order independence of the revenue series -/

theorem monthRevenue_perm (xs ys : List Invoice) (h : xs.Perm ys) (idx : Int) :
    monthRevenue xs idx = monthRevenue ys idx := by
  unfold monthRevenue
  exact ((h.filter _).map _).sum_eq

/-- In exact arithmetic: for every current date, a list of invoices and any permutation of it
give the same monthly revenue series, labels and bucket values alike; each bucket is the sum of
the amounts of all the invoices dated in its month, so several invoices of one month add up. -/
theorem revenue_series_order_independent (today : LocalDate) (xs ys : List Invoice)
    (h : xs.Perm ys) :
    monthLabels today xs = monthLabels today ys ∧
    monthData today xs = monthData today ys ∧
    monthData today xs = (List.range 6).map (fun (k : Nat) =>
      some (Num.val (monthRevenue xs (windowMonth today (5 - k)).monthIndex))) := by
  refine ⟨?_, ?_, monthData_eq today xs⟩
  · rw [monthLabels_eq, monthLabels_eq]
  · rw [monthData_eq, monthData_eq]
    apply List.map_congr_left
    intro k _
    rw [monthRevenue_perm xs ys h]

theorem revenue_series_order_independent_witness :
    januaryInvoices.reverse.Perm januaryInvoices ∧
    monthLabels januaryToday januaryInvoices.reverse
      = monthLabels januaryToday januaryInvoices ∧
    monthData januaryToday januaryInvoices.reverse = monthData januaryToday januaryInvoices :=
  ⟨List.reverse_perm _,
    (revenue_series_order_independent januaryToday _ _ (List.reverse_perm _)).1,
    (revenue_series_order_independent januaryToday _ _ (List.reverse_perm _)).2.1⟩

/-! ### The upcoming list as a sorted prefix -/

theorem timeLe_trans (a b c : DashEvent) (hab : timeLe a b = true) (hbc : timeLe b c = true) :
    timeLe a c = true := by
  simp only [timeLe, decide_eq_true_eq] at hab hbc ⊢
  omega

theorem timeLe_total (a b : DashEvent) : (timeLe a b || timeLe b a) = true := by
  simp only [timeLe, Bool.or_eq_true, decide_eq_true_eq]
  omega

theorem sortedUpcoming_eq_timeLe (allEvents : List DashEvent) (now : Int) :
    sortedUpcoming allEvents now = (allEvents.filter (isUpcoming now)).mergeSort timeLe := by
  have h := @List.map_mergeSort DashEvent DashEvent dateLe timeLe id
    (allEvents.filter (isUpcoming now))
    (fun a ha b hb =>
      dateLe_eq_time now a b (List.mem_filter.1 ha).2 (List.mem_filter.1 hb).2)
  rw [List.map_id, List.map_id] at h
  exact h

theorem sortedUpcoming_perm (allEvents : List DashEvent) (now : Int) :
    (sortedUpcoming allEvents now).Perm (allEvents.filter (isUpcoming now)) :=
  List.mergeSort_perm _ _

theorem sortedUpcoming_sorted (allEvents : List DashEvent) (now : Int) :
    (sortedUpcoming allEvents now).Pairwise (fun a b => a.time ≤ b.time) := by
  rw [sortedUpcoming_eq_timeLe]
  have h := @List.sorted_mergeSort DashEvent timeLe timeLe_trans timeLe_total
    (allEvents.filter (isUpcoming now))
  exact h.imp (fun hab => by simpa [timeLe] using hab)

/-- C17: the upcoming list is exactly the first 5 elements of the list obtained by sorting the
events with a date `>= now` in ascending order of date (a permutation of these events, each
date at most the next): it has `min 5 n` entries for `n` such events, never more than 5, and
every event left out is dated no earlier than every event kept. -/
theorem upcoming_is_first_five (allEvents : List DashEvent) (now : Int) :
    upcoming allEvents now = (sortedUpcoming allEvents now).take 5 ∧
    (sortedUpcoming allEvents now).Perm (allEvents.filter (isUpcoming now)) ∧
    (∀ e, e ∈ sortedUpcoming allEvents now ↔
      e ∈ allEvents ∧ ∃ t, e.date = some t ∧ now ≤ t) ∧
    (sortedUpcoming allEvents now).Pairwise (fun a b => a.time ≤ b.time) ∧
    (upcoming allEvents now).length = min 5 (allEvents.filter (isUpcoming now)).length ∧
    (upcoming allEvents now).length ≤ 5 ∧
    (∀ a ∈ upcoming allEvents now, ∀ b ∈ (sortedUpcoming allEvents now).drop 5,
      a.time ≤ b.time) := by
  have hperm := sortedUpcoming_perm allEvents now
  have hsorted := sortedUpcoming_sorted allEvents now
  have hlen : (upcoming allEvents now).length
      = min 5 (allEvents.filter (isUpcoming now)).length := by
    show ((sortedUpcoming allEvents now).take 5).length = _
    rw [List.length_take, hperm.length_eq]
  refine ⟨rfl, hperm, ?_, hsorted, hlen, ?_, ?_⟩
  · intro e
    rw [hperm.mem_iff, List.mem_filter, isUpcoming_iff]
  · rw [hlen]
    exact Nat.min_le_left _ _
  · have hsplit : ((sortedUpcoming allEvents now).take 5
        ++ (sortedUpcoming allEvents now).drop 5).Pairwise (fun a b => a.time ≤ b.time) := by
      rw [List.take_append_drop]
      exact hsorted
    exact (List.pairwise_append.1 hsplit).2.2

/-! ### Stability of the sort -/

theorem datedAt_pairwise (t : Int) (l : List DashEvent) :
    (l.filter (DashEvent.datedAt t)).Pairwise (fun a b => timeLe a b = true) := by
  apply List.pairwise_of_forall_mem_list
  intro a ha b hb
  have hat := (List.mem_filter.1 ha).2
  have hbt := (List.mem_filter.1 hb).2
  simp only [DashEvent.datedAt, decide_eq_true_eq] at hat hbt
  simp [timeLe, DashEvent.time, hat, hbt]

theorem sortedUpcoming_filter_datedAt (allEvents : List DashEvent) (now t : Int) :
    (sortedUpcoming allEvents now).filter (DashEvent.datedAt t)
      = (allEvents.filter (isUpcoming now)).filter (DashEvent.datedAt t) := by
  have hsub : List.Sublist ((allEvents.filter (isUpcoming now)).filter (DashEvent.datedAt t))
      (sortedUpcoming allEvents now) := by
    rw [sortedUpcoming_eq_timeLe]
    exact List.sublist_mergeSort timeLe_trans timeLe_total (datedAt_pairwise t _)
      (List.filter_sublist _)
  have hsub2 := hsub.filter (DashEvent.datedAt t)
  rw [List.filter_filter] at hsub2
  simp only [Bool.and_self] at hsub2
  have hlen := ((sortedUpcoming_perm allEvents now).filter (DashEvent.datedAt t)).length_eq
  exact (hsub2.eq_of_length hlen.symm).symm

/-- C18: the sort of the upcoming events is stable. For every date, the events of that date
appear in the sorted list in exactly their order in the input list, and those that reach the
upcoming list are the first of them, in that order; in particular, of two upcoming events with
equal dates the one that comes first in the input comes first in the sorted list. -/
theorem upcoming_sort_is_stable (allEvents : List DashEvent) (now : Int) :
    (∀ t : Int, (sortedUpcoming allEvents now).filter (DashEvent.datedAt t)
      = (allEvents.filter (isUpcoming now)).filter (DashEvent.datedAt t)) ∧
    (∀ t : Int, List.IsPrefix ((upcoming allEvents now).filter (DashEvent.datedAt t))
      ((allEvents.filter (isUpcoming now)).filter (DashEvent.datedAt t))) ∧
    (∀ a b : DashEvent, List.Sublist [a, b] allEvents → isUpcoming now a = true →
      isUpcoming now b = true → a.date = b.date →
      List.Sublist [a, b] (sortedUpcoming allEvents now)) := by
  refine ⟨sortedUpcoming_filter_datedAt allEvents now, ?_, ?_⟩
  · intro t
    rw [← sortedUpcoming_filter_datedAt allEvents now t]
    exact List.IsPrefix.filter _ (List.take_prefix 5 _)
  · intro a b hab ha hb hd
    have hsub := hab.filter (isUpcoming now)
    rw [List.filter_cons_of_pos ha, List.filter_cons_of_pos hb, List.filter_nil] at hsub
    rw [sortedUpcoming_eq_timeLe]
    refine List.pair_sublist_mergeSort timeLe_trans timeLe_total ?_ hsub
    simp [timeLe, DashEvent.time, hd]

theorem upcoming_sort_is_stable_witness :
    List.Sublist [⟨"first", none, some 10⟩, ⟨"second", none, some 10⟩] tiedEvents ∧
    List.Sublist [⟨"first", none, some 10⟩, ⟨"second", none, some 10⟩]
      (sortedUpcoming tiedEvents 0) :=
  have hsub : List.Sublist [⟨"first", none, some 10⟩, ⟨"second", none, some 10⟩] tiedEvents :=
    List.Sublist.cons₂ _ (List.Sublist.cons _ (List.Sublist.cons₂ _ List.Sublist.slnil))
  ⟨hsub, (upcoming_sort_is_stable tiedEvents 0).2.2 _ _ hsub (by decide) (by decide) rfl⟩

/-! ### Event types -/

theorem lookup_map_cell (ks : List String) (g : String → Cell) (k : String) :
    (ks.map (fun x => (x, g x))).lookup k = if k ∈ ks then some (g k) else none := by
  induction ks with
  | nil => simp
  | cons x rest ih =>
    rw [List.map_cons, List.lookup_cons]
    by_cases hx : k = x
    · subst hx
      simp
    · have hbeq : (k == x) = false := by simpa using hx
      rw [hbeq, ih]
      simp [hx]

theorem write_present (ks : List String) (g : String → Cell) (k : String) (c : Cell)
    (hk : k ∈ ks) (hproto : k ≠ "__proto__") :
    TypeCounts.write (ks.map (fun x => (x, g x))) k c
      = ks.map (fun x => (x, if x = k then c else g x)) := by
  unfold TypeCounts.write
  rw [if_neg hproto, if_pos]
  · rw [List.map_map]
    apply List.map_congr_left
    intro x _
    by_cases hx : x = k
    · simp [hx]
    · simp [hx]
  · rw [List.any_eq_true]
    exact ⟨(k, g k), List.mem_map.2 ⟨k, hk, rfl⟩, by simp⟩

theorem write_absent (ks : List String) (g : String → Cell) (k : String) (c : Cell)
    (hk : k ∉ ks) (hproto : k ≠ "__proto__") :
    TypeCounts.write (ks.map (fun x => (x, g x))) k c
      = (ks.map (fun x => (x, g x))) ++ [(k, c)] := by
  unfold TypeCounts.write
  rw [if_neg hproto, if_neg]
  intro hany
  rw [List.any_eq_true] at hany
  obtain ⟨p, hp, hpk⟩ := hany
  obtain ⟨x, hx, rfl⟩ := List.mem_map.1 hp
  have hxk : x = k := by simpa using hpk
  exact hk (hxk ▸ hx)

theorem typeCount_append_singleton (l : List DashEvent) (e : DashEvent) (k : String) :
    typeCount (l ++ [e]) k = typeCount l k + if e.type = some k then 1 else 0 := by
  unfold typeCount
  rw [List.filter_append, List.length_append]
  by_cases h : e.type = some k
  · simp [DashEvent.hasType, h]
  · simp [DashEvent.hasType, h]

theorem eventTypes_append_singleton (l : List DashEvent) (e : DashEvent) :
    eventTypes (l ++ [e]) = countEvent (eventTypes l) e := by
  unfold eventTypes
  rw [List.foldl_append]
  rfl

theorem typeCount_cell_truthy (n : Nat) (hn : n ≠ 0) :
    (Lookup.own (Cell.number (Num.val (n : ℚ)))).plusOne
      = Cell.number (Num.val ((n + 1 : Nat) : ℚ)) := by
  have hq : (n : ℚ) ≠ 0 := by exact_mod_cast hn
  simp [Lookup.plusOne, JSVal.truthy, hq, add_val]

theorem eventTypes_repr (l : List DashEvent)
    (h : ∀ e ∈ l, ∀ t, e.type = some t → t ∉ objectPrototypeNames) :
    ∃ ks : List String, ks.Nodup ∧ (∀ k, k ∈ ks ↔ k ≠ "" ∧ typeCount l k ≠ 0) ∧
      eventTypes l = ks.map (fun k => (k, Cell.number (Num.val ((typeCount l k : Nat) : ℚ)))) := by
  induction l using List.reverseRecOn with
  | nil => exact ⟨[], List.nodup_nil, by simp [typeCount], rfl⟩
  | append_singleton l e ih =>
    obtain ⟨ks, hnd, hmem, hrep⟩ := ih (fun x hx => h x (List.mem_append_left _ hx))
    rw [eventTypes_append_singleton, hrep]
    have hsame : ∀ t, e.type ≠ some t → typeCount (l ++ [e]) t = typeCount l t := by
      intro t ht
      rw [typeCount_append_singleton, if_neg ht, Nat.add_zero]
    cases hty : e.type with
    | none =>
      refine ⟨ks, hnd, ?_, ?_⟩
      · intro k
        rw [hsame k (by rw [hty]; exact fun hc => Option.noConfusion hc)]
        exact hmem k
      · simp only [countEvent, hty]
        apply List.map_congr_left
        intro k _
        rw [hsame k (by rw [hty]; exact fun hc => Option.noConfusion hc)]
    | some t =>
      by_cases ht : t = ""
      · have hne : ∀ k, k ≠ "" → e.type ≠ some k := by
          intro k hk hc
          rw [hty] at hc
          exact hk ((Option.some.inj hc).symm.trans ht)
        refine ⟨ks, hnd, ?_, ?_⟩
        · intro k
          constructor
          · intro hk
            have hk2 := (hmem k).1 hk
            refine ⟨hk2.1, ?_⟩
            rw [hsame k (hne k hk2.1)]
            exact hk2.2
          · rintro ⟨hk1, hk2⟩
            rw [hsame k (hne k hk1)] at hk2
            exact (hmem k).2 ⟨hk1, hk2⟩
        · simp only [countEvent, hty, ht, ne_eq, not_true_eq_false, if_false]
          apply List.map_congr_left
          intro k hk
          rw [hsame k (hne k ((hmem k).1 hk).1)]
      · have hproto : t ∉ objectPrototypeNames := h e (List.mem_append_right _ (List.mem_singleton.2 rfl)) t hty
        have hp2 : t ≠ "__proto__" := by
          intro hc
          apply hproto
          rw [hc]
          decide
        have hcnt : typeCount (l ++ [e]) t = typeCount l t + 1 := by
          rw [typeCount_append_singleton, if_pos hty]
        have hother : ∀ k, k ≠ t → typeCount (l ++ [e]) k = typeCount l k := by
          intro k hk
          apply hsame
          rw [hty]
          exact fun hc => hk (Option.some.inj hc).symm
        have hstep : countEvent (ks.map (fun k =>
            (k, Cell.number (Num.val ((typeCount l k : Nat) : ℚ))))) e
            = TypeCounts.write (ks.map (fun k =>
                (k, Cell.number (Num.val ((typeCount l k : Nat) : ℚ))))) t
                (TypeCounts.read (ks.map (fun k =>
                  (k, Cell.number (Num.val ((typeCount l k : Nat) : ℚ))))) t).plusOne := by
          simp only [countEvent, hty, ne_eq, ht, not_false_eq_true, if_true]
        rw [hstep]
        unfold TypeCounts.read
        rw [lookup_map_cell ks (fun k => Cell.number (Num.val ((typeCount l k : Nat) : ℚ)))]
        by_cases hin : t ∈ ks
        · have hpos : typeCount l t ≠ 0 := ((hmem t).1 hin).2
          rw [if_pos hin]
          simp only
          rw [typeCount_cell_truthy _ hpos, write_present ks _ t _ hin hp2]
          refine ⟨ks, hnd, ?_, ?_⟩
          · intro k
            by_cases hk : k = t
            · subst hk
              rw [hcnt]
              exact ⟨fun _ => ⟨ht, Nat.succ_ne_zero _⟩, fun _ => hin⟩
            · rw [hother k hk]
              exact hmem k
          · apply List.map_congr_left
            intro k _
            by_cases hk : k = t
            · subst hk
              rw [if_pos rfl, hcnt]
            · rw [if_neg hk, hother k hk]
        · have hzero : typeCount l t = 0 := by
            by_contra hc
            exact hin ((hmem t).2 ⟨ht, hc⟩)
          rw [if_neg hin]
          simp only [if_neg hproto]
          rw [write_absent ks _ t _ hin hp2]
          refine ⟨ks ++ [t], ?_, ?_, ?_⟩
          · rw [List.nodup_append]
            refine ⟨hnd, List.nodup_singleton t, ?_⟩
            intro a ha hb
            rw [List.mem_singleton] at hb
            exact hin (hb ▸ ha)
          · intro k
            rw [List.mem_append, List.mem_singleton]
            by_cases hk : k = t
            · subst hk
              rw [hcnt]
              exact ⟨fun _ => ⟨ht, Nat.succ_ne_zero _⟩, fun _ => Or.inr rfl⟩
            · rw [hother k hk]
              constructor
              · rintro (h1 | h1)
                · exact (hmem k).1 h1
                · exact absurd h1 hk
              · exact fun h1 => Or.inl ((hmem k).2 h1)
          · rw [List.map_append, List.map_singleton, hcnt, hzero]
            have hmap : ks.map (fun k =>
                (k, Cell.number (Num.val ((typeCount l k : Nat) : ℚ))))
                = ks.map (fun k =>
                    (k, Cell.number (Num.val ((typeCount (l ++ [e]) k : Nat) : ℚ)))) := by
              apply List.map_congr_left
              intro k hk
              have hkt : k ≠ t := fun hc => hin (hc ▸ hk)
              rw [hother k hkt]
            rw [hmap]
            simp [Lookup.plusOne]

theorem count_nonEmptyTypes (l : List DashEvent) (k : String) (hk : k ≠ "") :
    (nonEmptyTypes l).count k = typeCount l k := by
  induction l with
  | nil => rfl
  | cons e rest ih =>
    unfold nonEmptyTypes typeCount at ih ⊢
    cases hty : e.type with
    | none =>
      have hf : DashEvent.hasType k e = false := by simp [DashEvent.hasType, hty]
      rw [List.filterMap_cons, List.filter_cons]
      simp only [hty, hf]
      exact ih
    | some t =>
      by_cases ht : t = ""
      · have hf : DashEvent.hasType k e = false := by
          simp only [DashEvent.hasType, hty, decide_eq_false_iff_not]
          intro hc
          exact hk ((Option.some.inj hc).symm.trans ht)
        rw [List.filterMap_cons, List.filter_cons]
        simp only [hty, hf, ht, ne_eq, not_true_eq_false, if_false]
        exact ih
      · rw [List.filterMap_cons, List.filter_cons]
        simp only [hty, ne_eq, ht, not_false_eq_true, if_true]
        by_cases htk : t = k
        · have hf : DashEvent.hasType k e = true := by simp [DashEvent.hasType, hty, htk]
          rw [hf, if_pos rfl, htk, List.count_cons_self, List.length_cons, ih]
        · have hf : DashEvent.hasType k e = false := by
            simp only [DashEvent.hasType, hty, decide_eq_false_iff_not]
            exact fun hc => htk (Option.some.inj hc)
          rw [hf, if_neg (by decide), List.count_cons_of_ne (fun hc => htk hc.symm), ih]

theorem length_nonEmptyTypes (l : List DashEvent) :
    (nonEmptyTypes l).length = (l.filter DashEvent.typed).length := by
  induction l with
  | nil => rfl
  | cons e rest ih =>
    unfold nonEmptyTypes at ih ⊢
    cases hty : e.type with
    | none =>
      have hf : DashEvent.typed e = false := by simp [DashEvent.typed, hty]
      rw [List.filterMap_cons, List.filter_cons]
      simp only [hty, hf]
      exact ih
    | some t =>
      by_cases ht : t = ""
      · have hf : DashEvent.typed e = false := by simp [DashEvent.typed, hty, ht]
        rw [List.filterMap_cons, List.filter_cons]
        simp only [hty, hf, ht, ne_eq, not_true_eq_false, if_false]
        exact ih
      · have hf : DashEvent.typed e = true := by simp [DashEvent.typed, hty, ht]
        rw [List.filterMap_cons, List.filter_cons]
        simp only [hty, hf, ne_eq, ht, not_false_eq_true, if_true, List.length_cons, ih]

theorem mem_nonEmptyTypes (l : List DashEvent) (k : String) :
    k ∈ nonEmptyTypes l ↔ k ≠ "" ∧ typeCount l k ≠ 0 := by
  constructor
  · intro hk
    have hne : k ≠ "" := by
      unfold nonEmptyTypes at hk
      obtain ⟨e, _, he⟩ := List.mem_filterMap.1 hk
      cases hty : e.type with
      | none => simp [hty] at he
      | some t =>
        by_cases ht : t = ""
        · simp [hty, ht] at he
        · simp only [hty, ne_eq, ht, not_false_eq_true, if_true, Option.some.injEq] at he
          exact he ▸ ht
    refine ⟨hne, ?_⟩
    rw [← count_nonEmptyTypes l k hne]
    exact Nat.pos_iff_ne_zero.1 (List.count_pos_iff.2 hk)
  · rintro ⟨hne, hcount⟩
    rw [← count_nonEmptyTypes l k hne] at hcount
    exact List.count_pos_iff.1 (Nat.pos_iff_ne_zero.2 hcount)

/-- The event-type mapping counts correctly for the type strings that are not the name of a
property inherited from `Object.prototype`: if no event has such a name as its type, every
non-empty type string with at least one event is mapped to the number of events of that type,
no other key exists, and the counts sum to the number of events with a non-empty type. -/
theorem eventTypes_counts (l : List DashEvent)
    (h : ∀ e ∈ l, ∀ t, e.type = some t → t ∉ objectPrototypeNames) :
    (∀ t : String, (eventTypes l).lookup t
      = if t ≠ "" ∧ typeCount l t ≠ 0 then
          some (Cell.number (Num.val ((typeCount l t : Nat) : ℚ)))
        else none) ∧
    ((eventTypes l).map (fun p => p.2.toRat)).sum
      = (((l.filter DashEvent.typed).length : Nat) : ℚ) := by
  obtain ⟨ks, hnd, hmem, hrep⟩ := eventTypes_repr l h
  constructor
  · intro t
    rw [hrep, lookup_map_cell ks (fun k => Cell.number (Num.val ((typeCount l k : Nat) : ℚ)))]
    by_cases ht : t ∈ ks
    · rw [if_pos ht, if_pos ((hmem t).1 ht)]
    · rw [if_neg ht, if_neg (fun hc => ht ((hmem t).2 hc))]
  · have hperm : ks.Perm (nonEmptyTypes l).dedup := by
      rw [List.perm_ext_iff_of_nodup hnd (List.nodup_dedup _)]
      intro k
      rw [List.mem_dedup, mem_nonEmptyTypes]
      exact hmem k
    have hnat : (ks.map (fun k => typeCount l k)).sum = (l.filter DashEvent.typed).length := by
      have hcongr : ks.map (fun k => typeCount l k)
          = ks.map (fun k => (nonEmptyTypes l).count k) := by
        apply List.map_congr_left
        intro k hk
        rw [count_nonEmptyTypes l k ((hmem k).1 hk).1]
      rw [hcongr, (hperm.map _).sum_eq, List.sum_map_count_dedup_eq_length,
        length_nonEmptyTypes]
    rw [hrep, List.map_map, ← hnat, Nat.cast_list_sum, List.map_map]
    rfl

/-- C11 (the code differs): an event whose type is the name of a property that `{}` inherits
from `Object.prototype` is not counted. For one event of type `constructor` the read
`eventTypes[event.type]` finds the inherited function, so the key is mapped to a string and
not to the number 1, and for one event of type `__proto__` the write is ignored and the
mapping stays empty; an ordinary type such as `Wedding` is mapped to its count. -/
theorem eventTypes_inherited_key :
    typeCount [eventOfType "e1" "constructor"] "constructor" = 1 ∧
    (eventTypes [eventOfType "e1" "constructor"]).lookup "constructor" = some Cell.text ∧
    typeCount [eventOfType "e1" "__proto__"] "__proto__" = 1 ∧
    eventTypes [eventOfType "e1" "__proto__"] = [] ∧
    eventTypes [eventOfType "e1" "Wedding", eventOfType "e2" "Wedding"]
      = [("Wedding", Cell.number (Num.val 2))] := by
  refine ⟨by decide, by decide, by decide, by decide, ?_⟩
  have h1 : countEvent [] (eventOfType "e1" "Wedding")
      = [("Wedding", Cell.number (Num.val 1))] := by decide
  have h2 : TypeCounts.read [("Wedding", Cell.number (Num.val 1))] "Wedding"
      = Lookup.own (Cell.number (Num.val 1)) := by decide
  have h3 : (Lookup.own (Cell.number (Num.val 1))).plusOne = Cell.number (Num.val 2) := by
    simp only [Lookup.plusOne, JSVal.truthy, add_val]
    norm_num
  have h4 : TypeCounts.write [("Wedding", Cell.number (Num.val 1))] "Wedding"
      (Cell.number (Num.val 2)) = [("Wedding", Cell.number (Num.val 2))] := by decide
  show countEvent (countEvent [] (eventOfType "e1" "Wedding")) (eventOfType "e2" "Wedding") = _
  rw [h1]
  show TypeCounts.write [("Wedding", Cell.number (Num.val 1))] "Wedding"
    (TypeCounts.read [("Wedding", Cell.number (Num.val 1))] "Wedding").plusOne = _
  rw [h2, h3, h4]

/-! ### Bounds under a percentage discount -/

theorem exactSubtotal_nonneg (items : List Item)
    (h : ∀ it ∈ items, 0 ≤ it.quantity.toRat ∧ 0 ≤ it.unitPrice.toRat) :
    0 ≤ exactSubtotal items := by
  unfold exactSubtotal
  apply List.sum_nonneg
  intro x hx
  obtain ⟨it, hit, rfl⟩ := List.mem_map.1 hx
  exact mul_nonneg (h it hit).1 (h it hit).2

/-- In exact arithmetic: for items with numeric, non-negative quantity and unit price, a
numeric tax rate `r ≥ 0` and a percentage discount with `0 ≤ d ≤ 100`, the totals returned by
`calculateTotals` are finite numbers with 0 ≤ discountAmount ≤ subtotal and
0 ≤ taxAmount ≤ amount, so the grand total is not negative. -/
theorem percentage_discount_bounds (values : Values) (r d : ℚ)
    (h : ∀ it ∈ values.items, it.Numeric ∧ 0 ≤ it.quantity.toRat ∧ 0 ≤ it.unitPrice.toRat)
    (hr : values.taxRate = JSVal.ofRat r) (hr0 : 0 ≤ r)
    (hd : values.discountValue = JSVal.ofRat d) (hd0 : 0 ≤ d) (hd100 : d ≤ 100)
    (hp : values.discountType = "percentage") :
    ∃ s t x a : ℚ,
      calculateTotals values
        = { subtotal := Num.val s, taxAmount := Num.val t, discountAmount := Num.val x,
            amount := Num.val a } ∧
      0 ≤ x ∧ x ≤ s ∧ 0 ≤ t ∧ t ≤ a ∧ 0 ≤ a := by
  have hs : 0 ≤ exactSubtotal values.items :=
    exactSubtotal_nonneg values.items (fun it hit => (h it hit).2)
  have ht : 0 ≤ exactSubtotal values.items * r / 100 :=
    div_nonneg (mul_nonneg hs hr0) (by norm_num)
  have hx0 : 0 ≤ exactSubtotal values.items * d / 100 :=
    div_nonneg (mul_nonneg hs hd0) (by norm_num)
  have hx1 : exactSubtotal values.items * d / 100 ≤ exactSubtotal values.items := by
    have hmul : exactSubtotal values.items * d ≤ exactSubtotal values.items * 100 :=
      mul_le_mul_of_nonneg_left hd100 hs
    linarith
  refine ⟨_, _, _, _,
    calculateTotals_percentage values r d (fun it hit => (h it hit).1) hr hd hp,
    hx0, hx1, ht, ?_, ?_⟩
  · linarith
  · linarith

theorem percentage_discount_bounds_witness :
    (∀ it ∈ (mkValues [mkItem 3 40] (JSVal.ofRat 5) "percentage" (JSVal.ofRat 25)).items,
      it.Numeric ∧ 0 ≤ it.quantity.toRat ∧ 0 ≤ it.unitPrice.toRat) ∧
    ∃ s t x a : ℚ,
      calculateTotals (mkValues [mkItem 3 40] (JSVal.ofRat 5) "percentage" (JSVal.ofRat 25))
        = { subtotal := Num.val s, taxAmount := Num.val t, discountAmount := Num.val x,
            amount := Num.val a } ∧
      0 ≤ x ∧ x ≤ s ∧ 0 ≤ t ∧ t ≤ a ∧ 0 ≤ a :=
  have h : ∀ it ∈ (mkValues [mkItem 3 40] (JSVal.ofRat 5) "percentage"
      (JSVal.ofRat 25)).items,
      it.Numeric ∧ 0 ≤ it.quantity.toRat ∧ 0 ≤ it.unitPrice.toRat := by
    intro it hit
    simp only [mkValues, List.mem_singleton] at hit
    subst hit
    refine ⟨⟨3, 40, rfl, rfl⟩, ?_, ?_⟩
    · norm_num [mkItem, JSVal.ofRat, JSVal.toRat, Num.toRat]
    · norm_num [mkItem, JSVal.ofRat, JSVal.toRat, Num.toRat]
  ⟨h, percentage_discount_bounds _ 5 25 h rfl (by norm_num) rfl (by norm_num) (by norm_num)
    rfl⟩

/-! ### Statistics of the dashboard -/

/-- C23: the statistic `upcomingEvents` is the length of the truncated upcoming list, which is
the smaller of 5 and the number of events with a date `>= now`, so it is never more than 5. -/
theorem upcoming_stat_is_capped (allEvents : List DashEvent) (now : Int)
    (allClients : List Client) (invoices : List Invoice) :
    (dashboardStats allEvents now allClients invoices).upcomingEvents
      = (upcoming allEvents now).length ∧
    (dashboardStats allEvents now allClients invoices).upcomingEvents
      = min 5 (allEvents.filter (isUpcoming now)).length ∧
    (∀ e : DashEvent, isUpcoming now e = true ↔ ∃ t, e.date = some t ∧ now ≤ t) ∧
    (dashboardStats allEvents now allClients invoices).upcomingEvents ≤ 5 := by
  have hlen : (upcoming allEvents now).length
      = min 5 (allEvents.filter (isUpcoming now)).length := by
    show ((sortedUpcoming allEvents now).take 5).length = _
    rw [List.length_take, (sortedUpcoming_perm allEvents now).length_eq]
  refine ⟨rfl, hlen, isUpcoming_iff now, ?_⟩
  show (upcoming allEvents now).length ≤ 5
  rw [hlen]
  exact Nat.min_le_left _ _

theorem foldl_add_val (xs : List ℚ) (acc : ℚ) :
    (xs.map Num.val).foldl Num.add (Num.val acc) = Num.val (acc + xs.sum) := by
  induction xs generalizing acc with
  | nil => simp
  | cons x rest ih =>
    rw [List.map_cons, List.foldl_cons, add_val, ih, List.sum_cons, add_assoc]

theorem totalRevenue_eq (invoices : List Invoice) :
    totalRevenue invoices = Num.val ((invoices.map Invoice.value).sum) := by
  unfold totalRevenue
  have hmap : invoices.map (fun invoice => invoice.amount.orZero)
      = (invoices.map Invoice.value).map Num.val := by
    rw [List.map_map]
    apply List.map_congr_left
    intro inv _
    exact orZero_eq_toRat inv.amount
  rw [hmap, foldl_add_val, zero_add]

theorem sum_indicator_le (l : List Nat) (f : Nat → Int) (hnd : (l.map f).Nodup) (x : Int)
    (v : ℚ) (hv : 0 ≤ v) :
    (l.map (fun k => if f k = x then v else 0)).sum ≤ v := by
  induction l with
  | nil => simpa using hv
  | cons k rest ih =>
    rw [List.map_cons, List.nodup_cons] at hnd
    rw [List.map_cons, List.sum_cons]
    by_cases hk : f k = x
    · have hzero : (rest.map (fun j => if f j = x then v else 0)).sum = 0 := by
        apply List.sum_eq_zero
        intro y hy
        obtain ⟨j, hj, rfl⟩ := List.mem_map.1 hy
        have hne : f j ≠ x := by
          intro hc
          exact hnd.1 (List.mem_map.2 ⟨j, hj, hc.trans hk.symm⟩)
        rw [if_neg hne]
      rw [if_pos hk, hzero, add_zero]
    · rw [if_neg hk, zero_add]
      exact ih hnd.2

theorem monthRevenue_cons (inv : Invoice) (rest : List Invoice) (idx : Int) :
    monthRevenue (inv :: rest) idx
      = (if Invoice.inMonth idx inv = true then inv.value else 0) + monthRevenue rest idx := by
  unfold monthRevenue
  by_cases h : Invoice.inMonth idx inv = true
  · rw [List.filter_cons_of_pos h, List.map_cons, List.sum_cons, if_pos h]
  · rw [List.filter_cons_of_neg h, if_neg h, zero_add]

theorem sum_monthRevenue_le (l : List Nat) (f : Nat → Int) (hnd : (l.map f).Nodup)
    (invoices : List Invoice) (h : ∀ inv ∈ invoices, 0 ≤ inv.value) :
    (l.map (fun k => monthRevenue invoices (f k))).sum ≤ (invoices.map Invoice.value).sum := by
  induction invoices with
  | nil => simp [monthRevenue]
  | cons inv rest ih =>
    have hrest := ih (fun x hx => h x (List.mem_cons_of_mem _ hx))
    have hv : 0 ≤ inv.value := h inv (List.mem_cons_self _ _)
    have hsplit : (l.map (fun k => monthRevenue (inv :: rest) (f k))).sum
        = (l.map (fun k => if Invoice.inMonth (f k) inv = true then inv.value else 0)).sum
          + (l.map (fun k => monthRevenue rest (f k))).sum := by
      rw [← List.sum_map_add]
      congr 1
      apply List.map_congr_left
      intro k _
      exact monthRevenue_cons inv rest (f k)
    have hind : (l.map (fun k =>
        if Invoice.inMonth (f k) inv = true then inv.value else 0)).sum ≤ inv.value := by
      cases hd : inv.issueDate with
      | none =>
        have hz : (l.map (fun k =>
            if Invoice.inMonth (f k) inv = true then inv.value else 0)).sum = 0 := by
          apply List.sum_eq_zero
          intro y hy
          obtain ⟨k, _, rfl⟩ := List.mem_map.1 hy
          simp [Invoice.inMonth, hd]
        rw [hz]
        exact hv
      | some d =>
        have hfun : (fun k => if Invoice.inMonth (f k) inv = true then inv.value else 0)
            = (fun k => if f k = d.monthIndex then inv.value else 0) := by
          funext k
          simp only [Invoice.inMonth, hd, decide_eq_true_eq]
          by_cases hk : f k = d.monthIndex
          · rw [if_pos hk, if_pos hk.symm]
          · rw [if_neg hk, if_neg (fun hc => hk hc.symm)]
        rw [hfun]
        exact sum_indicator_le l f hnd d.monthIndex inv.value hv
    rw [hsplit, List.map_cons, List.sum_cons]
    linarith

theorem windowIndex_nodup (today : LocalDate) :
    ((List.range 6).map (fun (k : Nat) => (windowMonth today (5 - k)).monthIndex)).Nodup := by
  refine (List.nodup_range 6).map_on ?_
  intro i hi j hj h
  rw [monthIndex_windowMonth, monthIndex_windowMonth] at h
  have hi6 := List.mem_range.1 hi
  have hj6 := List.mem_range.1 hj
  omega

/-- In exact arithmetic: when every invoice amount is non-negative (a missing amount counting
as 0), the six buckets of the revenue chart sum to at most `totalRevenue`, which is the sum of
all invoice amounts; this holds for every current date. -/
theorem buckets_le_totalRevenue (today : LocalDate) (invoices : List Invoice)
    (h : ∀ inv ∈ invoices, 0 ≤ inv.value) :
    totalRevenue invoices = Num.val ((invoices.map Invoice.value).sum) ∧
    bucketSum (monthData today invoices) ≤ (invoices.map Invoice.value).sum := by
  refine ⟨totalRevenue_eq invoices, ?_⟩
  unfold bucketSum
  rw [monthData_eq, List.map_map]
  exact sum_monthRevenue_le (List.range 6)
    (fun (k : Nat) => (windowMonth today (5 - k)).monthIndex) (windowIndex_nodup today)
    invoices h

theorem januaryInvoices_nonneg : ∀ inv ∈ januaryInvoices, 0 ≤ inv.value := by
  intro inv hinv
  simp only [januaryInvoices, List.mem_cons, List.mem_singleton, List.not_mem_nil,
    or_false] at hinv
  rcases hinv with rfl | rfl | rfl | rfl | rfl | rfl | rfl <;>
    norm_num [Invoice.value, JSVal.ofRat, JSVal.toRat, Num.toRat]

theorem buckets_le_totalRevenue_witness :
    (∀ inv ∈ januaryInvoices, 0 ≤ inv.value) ∧
    bucketSum (monthData januaryToday januaryInvoices)
      ≤ (januaryInvoices.map Invoice.value).sum :=
  ⟨januaryInvoices_nonneg,
    (buckets_le_totalRevenue januaryToday januaryInvoices januaryInvoices_nonneg).2⟩

/-! ### Letter case of the status -/

theorem isRevenueStatus_sameButCase (a b : ClientEvent) (h : a.sameButCase b) :
    isRevenueStatus a = isRevenueStatus b := by
  have hs : a.status.map toLowerCase = b.status.map toLowerCase := h.1
  unfold isRevenueStatus
  cases ha : a.status with
  | none =>
    cases hb : b.status with
    | none => rfl
    | some t => rw [ha, hb] at hs; cases hs
  | some s =>
    cases hb : b.status with
    | none => rw [ha, hb] at hs; cases hs
    | some t =>
      rw [ha, hb] at hs
      have hst : toLowerCase s = toLowerCase t := Option.some.inj hs
      simp only [hst]

theorem foldl_revenue_sameButCase (xs ys : List ClientEvent)
    (h : List.Forall₂ ClientEvent.sameButCase xs ys) (acc : Num) :
    xs.foldl
      (fun total event =>
        if isRevenueStatus event then Num.add total event.budget.orZero else total) acc
      = ys.foldl
        (fun total event =>
          if isRevenueStatus event then Num.add total event.budget.orZero else total) acc := by
  induction h generalizing acc with
  | nil => rfl
  | cons hab _ ih =>
    rw [List.foldl_cons, List.foldl_cons, isRevenueStatus_sameButCase _ _ hab, hab.2]
    exact ih _

theorem revenue_of_single (s : String) (b : ℚ)
    (h : toLowerCase s = "confirmed" ∨ toLowerCase s = "completed") :
    calculateTotalRevenue [{ status := some s, budget := JSVal.ofRat b }] = Num.val b := by
  have hrev : isRevenueStatus { status := some s, budget := JSVal.ofRat b } = true := by
    unfold isRevenueStatus
    rcases h with h | h <;> simp only [h] <;> decide
  unfold calculateTotalRevenue
  rw [List.foldl_cons, List.foldl_nil, if_pos hrev, orZero_eq_toRat, add_val, zero_add]
  rfl

/-- C28: `calculateTotalRevenue` reads the status through `toLowerCase` only: two event lists
whose events have, one by one, the same budget and statuses that are the same word up to
letter case give the same revenue; an event whose status is `confirmed` or `completed` in any
letter case, such as `Confirmed` or `COMPLETED`, contributes its budget. -/
theorem revenue_ignores_letter_case :
    (∀ xs ys : List ClientEvent, List.Forall₂ ClientEvent.sameButCase xs ys →
      calculateTotalRevenue xs = calculateTotalRevenue ys) ∧
    (∀ (s : String) (b : ℚ), toLowerCase s = "confirmed" ∨ toLowerCase s = "completed" →
      calculateTotalRevenue [{ status := some s, budget := JSVal.ofRat b }] = Num.val b) ∧
    sameUpToCase (some "Confirmed") (some "confirmed") ∧
    sameUpToCase (some "COMPLETED") (some "completed") ∧
    (∀ b : ℚ, calculateTotalRevenue [{ status := some "Confirmed", budget := JSVal.ofRat b }]
        = Num.val b ∧
      calculateTotalRevenue [{ status := some "COMPLETED", budget := JSVal.ofRat b }]
        = Num.val b) := by
  refine ⟨?_, revenue_of_single, by unfold sameUpToCase; decide,
    by unfold sameUpToCase; decide, ?_⟩
  · intro xs ys h
    exact foldl_revenue_sameButCase xs ys h (Num.val 0)
  · intro b
    exact ⟨revenue_of_single "Confirmed" b (Or.inl (by decide)),
      revenue_of_single "COMPLETED" b (Or.inr (by decide))⟩

theorem revenue_ignores_letter_case_witness :
    List.Forall₂ ClientEvent.sameButCase
      [{ status := some "Confirmed", budget := JSVal.ofRat 300 },
       { status := some "tentative", budget := JSVal.ofRat 500 }]
      [{ status := some "confirmed", budget := JSVal.ofRat 300 },
       { status := some "TENTATIVE", budget := JSVal.ofRat 500 }] ∧
    calculateTotalRevenue
        [{ status := some "Confirmed", budget := JSVal.ofRat 300 },
         { status := some "tentative", budget := JSVal.ofRat 500 }]
      = calculateTotalRevenue
        [{ status := some "confirmed", budget := JSVal.ofRat 300 },
         { status := some "TENTATIVE", budget := JSVal.ofRat 500 }] :=
  have h : List.Forall₂ ClientEvent.sameButCase
      [{ status := some "Confirmed", budget := JSVal.ofRat 300 },
       { status := some "tentative", budget := JSVal.ofRat 500 }]
      [{ status := some "confirmed", budget := JSVal.ofRat 300 },
       { status := some "TENTATIVE", budget := JSVal.ofRat 500 }] :=
    List.Forall₂.cons ⟨by unfold sameUpToCase; decide, rfl⟩
      (List.Forall₂.cons ⟨by unfold sameUpToCase; decide, rfl⟩ List.Forall₂.nil)
  ⟨h, revenue_ignores_letter_case.1 _ _ h⟩

/-! ### Deleting an invoice -/

/-- C29: after a successful confirmed deletion the invoice list is the old list without the
entries whose id is the id of the deleted invoice: an invoice is in the new list exactly when
it is in the old one with another id, and the new list is a sublist of the old one, so the
invoices kept are unchanged and in their order; with no invoice selected, or when the deletion
fails, the list is unchanged. -/
theorem delete_removes_only_the_target (invoices : List ListedInvoice)
    (target : ListedInvoice) :
    handleDeleteConfirm invoices (some target) true
      = invoices.filter (fun invoice => decide (invoice.id ≠ target.id)) ∧
    (∀ invoice : ListedInvoice, invoice ∈ handleDeleteConfirm invoices (some target) true ↔
      invoice ∈ invoices ∧ invoice.id ≠ target.id) ∧
    List.Sublist (handleDeleteConfirm invoices (some target) true) invoices ∧
    (∀ deleted : Bool, handleDeleteConfirm invoices none deleted = invoices) ∧
    handleDeleteConfirm invoices (some target) false = invoices := by
  refine ⟨rfl, ?_, ?_, fun _ => rfl, rfl⟩
  · intro invoice
    show invoice ∈ invoices.filter (fun invoice => decide (invoice.id ≠ target.id)) ↔ _
    rw [List.mem_filter, decide_eq_true_eq]
  · exact List.filter_sublist _

/-! ### Searching the lists -/

theorem jsIncludes_empty (s : String) : jsIncludes s "" = true := by
  unfold jsIncludes
  rw [decide_eq_true_eq]
  exact List.nil_infix

theorem toLowerCase_empty : toLowerCase "" = "" := by decide

theorem optIncludesLower_empty (x : Option String) : optIncludesLower x "" = x.isSome := by
  cases x with
  | none => rfl
  | some s =>
    simp only [optIncludesLower, toLowerCase_empty, jsIncludes_empty, Option.isSome_some]

theorem optIncludesLower_none (term : String) : optIncludesLower none term = false := rfl

/-- C25: with an empty search term and the status filter `all`, `filteredInvoices` is the list
of the invoices that have at least one of `invoiceNumber`, `client.name` and `event.title`, in
their order; for every search term and status filter the result is a sublist of the invoices
and holds no invoice that lacks all three fields. -/
theorem filteredInvoices_needs_a_field (invoices : List ListedInvoice) :
    filteredInvoices invoices "" "all" = invoices.filter ListedInvoice.searchable ∧
    (∀ searchTerm filterStatus : String,
      List.Sublist (filteredInvoices invoices searchTerm filterStatus) invoices ∧
      ∀ invoice ∈ filteredInvoices invoices searchTerm filterStatus,
        invoice.searchable = true) := by
  constructor
  · unfold filteredInvoices
    apply List.filter_congr
    intro invoice _
    simp only [optIncludesLower_empty, ListedInvoice.searchable, decide_True, Bool.true_or,
      Bool.and_true]
  · intro searchTerm filterStatus
    refine ⟨List.filter_sublist _, ?_⟩
    intro invoice hinv
    have hkeep := (List.mem_filter.1 hinv).2
    simp only [Bool.and_eq_true, Bool.or_eq_true] at hkeep
    unfold ListedInvoice.searchable
    rcases hkeep.1 with (h1 | h2) | h3
    · cases hn : invoice.invoiceNumber with
      | none => rw [hn] at h1; exact absurd h1 (by simp [optIncludesLower])
      | some _ => simp
    · cases hn : invoice.clientName with
      | none => rw [hn] at h2; exact absurd h2 (by simp [optIncludesLower])
      | some _ => simp
    · cases hn : invoice.eventTitle with
      | none => rw [hn] at h3; exact absurd h3 (by simp [optIncludesLower])
      | some _ => simp

/-- C26: with an empty search term and the type filter `all`, `filteredClients` is the whole
client list in its order; for every search term and type filter it is a sublist of the clients,
in which every client has the type of the filter when the filter is not `all`. -/
theorem filteredClients_filters (clients : List ListedClient) :
    filteredClients clients "" "all" = clients ∧
    (∀ searchTerm filterType : String,
      List.Sublist (filteredClients clients searchTerm filterType) clients ∧
      (filterType ≠ "all" → ∀ client ∈ filteredClients clients searchTerm filterType,
        client.type = some filterType)) := by
  constructor
  · unfold filteredClients
    rw [List.filter_eq_self]
    intro client _
    simp only [toLowerCase_empty, jsIncludes_empty, Bool.true_or, decide_True, Bool.and_true]
  · intro searchTerm filterType
    refine ⟨List.filter_sublist _, ?_⟩
    intro hne client hc
    have hkeep := (List.mem_filter.1 hc).2
    simp only [Bool.and_eq_true, Bool.or_eq_true, decide_eq_true_eq] at hkeep
    rcases hkeep.2 with h | h
    · exact absurd h hne
    · exact h

theorem filteredClients_filters_witness :
    "VIP" ≠ "all" ∧
    ∀ client ∈ filteredClients exampleClients "" "VIP", client.type = some "VIP" :=
  ⟨by decide, ((filteredClients_filters exampleClients).2 "" "VIP").2 (by decide)⟩

/-! ### Choosing the client of an invoice -/

theorem find_client_of_mem (clients : List FormClient) (clientId : String)
    (h : ∃ c ∈ clients, c.id = clientId) :
    ∃ client, clients.find? (fun c => decide (c.id = clientId)) = some client := by
  obtain ⟨c, hc, hid⟩ := h
  cases hf : clients.find? (fun c => decide (c.id = clientId)) with
  | some client => exact ⟨client, rfl⟩
  | none =>
    rw [List.find?_eq_none] at hf
    have := hf c hc
    simp [hid] at this

theorem handleClientChange_found (clients : List FormClient) (events : List FormEvent)
    (clientId : String) (st : Selection) (hne : clientId ≠ "")
    (h : ∃ c ∈ clients, c.id = clientId) :
    (handleClientChange clients events clientId st).eventId
      = match clientEvents events clientId with
        | [only] => only.id
        | _ => "" := by
  obtain ⟨client, hfind⟩ := find_client_of_mem clients clientId h
  unfold handleClientChange clientEvents
  rw [if_pos hne, hfind]
  simp only
  split <;> rfl

/-- C27: when the chosen `clientId` is empty or the id of a client of the list, the `eventId`
left by `handleClientChange` is empty or the id of an event of the list whose `clientId` is the
chosen one: it is the id of the client's event when the client has exactly one event, and
empty when the client has no event or several, or when no client is chosen. -/
theorem handleClientChange_eventId (clients : List FormClient) (events : List FormEvent)
    (clientId : String) (st : Selection)
    (h : clientId = "" ∨ ∃ c ∈ clients, c.id = clientId) :
    (handleClientChange clients events clientId st).clientId = clientId ∧
    ((handleClientChange clients events clientId st).eventId = "" ∨
      ∃ e ∈ events, e.id = (handleClientChange clients events clientId st).eventId ∧
        e.clientId = some clientId) ∧
    (∀ only : FormEvent, clientId ≠ "" → clientEvents events clientId = [only] →
      (handleClientChange clients events clientId st).eventId = only.id) ∧
    ((clientEvents events clientId).length ≠ 1 →
      (handleClientChange clients events clientId st).eventId = "") ∧
    (clientId = "" → (handleClientChange clients events clientId st).eventId = "") := by
  have hempty : clientId = "" →
      (handleClientChange clients events clientId st).eventId = "" := by
    intro hc
    unfold handleClientChange
    rw [if_neg (by simpa using hc)]
  have hid : (handleClientChange clients events clientId st).clientId = clientId := by
    unfold handleClientChange
    split
    · split
      · split <;> rfl
      · rfl
    · rfl
  by_cases hne : clientId = ""
  · refine ⟨hid, Or.inl (hempty hne), fun _ hc _ => absurd hne hc, fun _ => hempty hne,
      hempty⟩
  · have hmem : ∃ c ∈ clients, c.id = clientId := h.resolve_left hne
    have hev := handleClientChange_found clients events clientId st hne hmem
    refine ⟨hid, ?_, ?_, ?_, hempty⟩
    · rw [hev]
      cases hce : clientEvents events clientId with
      | nil => exact Or.inl rfl
      | cons only rest =>
        cases rest with
        | nil =>
          right
          have honly : only ∈ clientEvents events clientId := by
            rw [hce]
            exact List.mem_singleton.2 rfl
          have hm := List.mem_filter.1 honly
          exact ⟨only, hm.1, rfl, by simpa using hm.2⟩
        | cons b more => exact Or.inl rfl
    · intro only _ hce
      rw [hev, hce]
    · intro hlen
      rw [hev]
      cases hce : clientEvents events clientId with
      | nil => rfl
      | cons only rest =>
        cases rest with
        | nil =>
          rw [hce] at hlen
          exact absurd rfl hlen
        | cons b more => rfl

theorem handleClientChange_eventId_witness :
    ("c1" = "" ∨ ∃ c ∈ exampleFormClients, c.id = "c1") ∧
    (handleClientChange exampleFormClients exampleFormEvents "c1"
      ⟨"", "e3", none, none⟩).eventId = "e1" ∧
    (handleClientChange exampleFormClients exampleFormEvents "c2"
      ⟨"", "e1", none, none⟩).eventId = "" :=
  have h1 : "c1" = "" ∨ ∃ c ∈ exampleFormClients, c.id = "c1" :=
    Or.inr ⟨⟨"c1"⟩, by decide, rfl⟩
  have h2 : "c2" = "" ∨ ∃ c ∈ exampleFormClients, c.id = "c2" :=
    Or.inr ⟨⟨"c2"⟩, by decide, rfl⟩
  ⟨h1,
    (handleClientChange_eventId exampleFormClients exampleFormEvents "c1"
      ⟨"", "e3", none, none⟩ h1).2.2.1 ⟨"e1", some "c1"⟩ (by decide) (by decide),
    (handleClientChange_eventId exampleFormClients exampleFormEvents "c2"
      ⟨"", "e1", none, none⟩ h2).2.2.2.1 (by decide)⟩

/-! ### Decimal digits of a number -/

theorem toDigitsCore_fuel (f1 f2 m : Nat) (ds : List Char) (h1 : m < f1) (h2 : m < f2) :
    Nat.toDigitsCore 10 f1 m ds = Nat.toDigitsCore 10 f2 m ds := by
  induction f1 generalizing f2 m ds with
  | zero => omega
  | succ f1 ih =>
    cases f2 with
    | zero => omega
    | succ f2 =>
      simp only [Nat.toDigitsCore]
      split
      · rfl
      · exact ih f2 (m / 10) _ (by omega) (by omega)

theorem toDigits_lt_ten (n : Nat) (h : n < 10) : Nat.toDigits 10 n = [Nat.digitChar n] := by
  unfold Nat.toDigits
  simp only [Nat.toDigitsCore]
  rw [if_pos (by omega), Nat.mod_eq_of_lt h]

theorem toDigits_ge_ten (n : Nat) (h : 10 ≤ n) :
    Nat.toDigits 10 n = Nat.toDigits 10 (n / 10) ++ [Nat.digitChar (n % 10)] := by
  have hstep : Nat.toDigitsCore 10 (n + 1) n []
      = Nat.toDigitsCore 10 n (n / 10) [Nat.digitChar (n % 10)] := by
    simp only [Nat.toDigitsCore]
    rw [if_neg (by omega)]
  unfold Nat.toDigits
  rw [hstep, toDigitsCore_append,
    toDigitsCore_fuel n (n / 10 + 1) (n / 10) [] (by omega) (by omega)]

theorem toString_nat_data (n : Nat) : (toString n).data = Nat.toDigits 10 n := rfl

theorem toString_ofNat_data (n : Nat) : (toString (Int.ofNat n)).data = Nat.toDigits 10 n :=
  rfl

theorem digitChar_zero : Nat.digitChar 0 = '0' := rfl

theorem toDigits_two (n : Nat) (h1 : 10 ≤ n) (h2 : n < 100) :
    Nat.toDigits 10 n = [Nat.digitChar (n / 10), Nat.digitChar (n % 10)] := by
  rw [toDigits_ge_ten n h1, toDigits_lt_ten (n / 10) (by omega)]
  rfl

theorem toDigits_three (n : Nat) (h1 : 100 ≤ n) (h2 : n < 1000) :
    Nat.toDigits 10 n
      = [Nat.digitChar (n / 100), Nat.digitChar (n / 10 % 10), Nat.digitChar (n % 10)] := by
  rw [toDigits_ge_ten n (by omega), toDigits_two (n / 10) (by omega) (by omega)]
  have h : n / 10 / 10 = n / 100 := by omega
  rw [h]
  rfl

theorem toDigits_four (n : Nat) (h1 : 1000 ≤ n) (h2 : n < 10000) :
    Nat.toDigits 10 n
      = [Nat.digitChar (n / 1000), Nat.digitChar (n / 100 % 10), Nat.digitChar (n / 10 % 10),
          Nat.digitChar (n % 10)] := by
  rw [toDigits_ge_ten n (by omega), toDigits_three (n / 10) (by omega) (by omega)]
  have ha : n / 10 / 100 = n / 1000 := by omega
  have hb : n / 10 / 10 % 10 = n / 100 % 10 := by omega
  rw [ha, hb]
  rfl

theorem padStart_two (n : Nat) (h : n < 100) :
    padStart 2 (toString n) = String.mk [Nat.digitChar (n / 10), Nat.digitChar (n % 10)] := by
  unfold padStart
  rw [toString_nat_data]
  by_cases h10 : n < 10
  · rw [toDigits_lt_ten n h10]
    have h0 : n / 10 = 0 := by omega
    have hm : n % 10 = n := by omega
    rw [h0, hm]
    rfl
  · rw [toDigits_two n (by omega) h]
    rfl

theorem padStart_four_data (n : Nat) (h : n < 10000) :
    List.replicate (4 - (Nat.toDigits 10 n).length) '0' ++ Nat.toDigits 10 n
      = [Nat.digitChar (n / 1000), Nat.digitChar (n / 100 % 10), Nat.digitChar (n / 10 % 10),
          Nat.digitChar (n % 10)] := by
  by_cases h10 : n < 10
  · rw [toDigits_lt_ten n h10]
    have ha : n / 1000 = 0 := by omega
    have hb : n / 100 % 10 = 0 := by omega
    have hc : n / 10 % 10 = 0 := by omega
    have hd : n % 10 = n := by omega
    rw [ha, hb, hc, hd]
    rfl
  · by_cases h100 : n < 100
    · rw [toDigits_two n (by omega) h100]
      have ha : n / 1000 = 0 := by omega
      have hb : n / 100 % 10 = 0 := by omega
      have hc : n / 10 % 10 = n / 10 := by omega
      rw [ha, hb, hc]
      rfl
    · by_cases h1000 : n < 1000
      · rw [toDigits_three n (by omega) h1000]
        have ha : n / 1000 = 0 := by omega
        have hb : n / 100 % 10 = n / 100 := by omega
        rw [ha, hb]
        rfl
      · rw [toDigits_four n (by omega) h]
        rfl

theorem isDigit_digitChar (k : Nat) (hk : k < 10) : (Nat.digitChar k).isDigit = true := by
  interval_cases k <;> decide

theorem isClockTime_clockText (h m : Nat) (hh : h < 100) (hm : m < 100) :
    isClockTime (clockText h m) = (decide (h ≤ 23) && decide (m ≤ 59)) := by
  have d1 := digitChar_value (h / 10) (by omega)
  have d2 := digitChar_value (h % 10) (Nat.mod_lt _ (by decide))
  have d3 := digitChar_value (m / 10) (by omega)
  have d4 := digitChar_value (m % 10) (Nat.mod_lt _ (by decide))
  have hsum : h / 10 * 10 + h % 10 = h := by omega
  have msum : m / 10 * 10 + m % 10 = m := by omega
  simp only [isClockTime, clockText, isDigit_digitChar (h / 10) (by omega),
    isDigit_digitChar (h % 10) (Nat.mod_lt _ (by decide)),
    isDigit_digitChar (m / 10) (by omega),
    isDigit_digitChar (m % 10) (Nat.mod_lt _ (by decide)), d1.1, d2.1, d3.1, d4.1, hsum, msum,
    Bool.true_and, Bool.and_self]

theorem formattedEndTime_default (h m : Nat) (hh : h + 2 < 100) (hm : m < 100) :
    formattedEndTime h m none = clockText (h + 2) m := by
  unfold formattedEndTime
  simp only
  rw [padStart_two (h + 2) hh, padStart_two m hm]
  rfl

/-! ### Default end time of an event -/

/-- The default end time is right for the start hours 0 to 21: the text is the clock time two
hours after the start and is a valid 24-hour `HH:MM`; for a start time within the day the text
is valid exactly when the start hour is at most 21. -/
theorem formattedEndTime_before_22 (h m : Nat) (hh : h ≤ 23) (hm : m ≤ 59) :
    (h ≤ 21 → formattedEndTime h m none = clockText ((h + 2) % 24) m) ∧
    (isClockTime (formattedEndTime h m none) = true ↔ h ≤ 21) := by
  have hdef := formattedEndTime_default h m (by omega) (by omega)
  constructor
  · intro h21
    rw [hdef, Nat.mod_eq_of_lt (by omega)]
  · rw [hdef, isClockTime_clockText (h + 2) m (by omega) (by omega), Bool.and_eq_true,
      decide_eq_true_eq, decide_eq_true_eq]
    omega

/-- C22 (the code differs): the default end time is the start hour plus 2 without wrapping at
midnight. For the start time 22:30 the field is set to `24:30`, which is not a 24-hour clock
time, where two hours later is `00:30`; for every start time from 22:00 to 23:59 the text is
not a valid clock time, and for every start time from 00:00 to 21:59 it is the clock time two
hours later. -/
theorem end_time_default_overflows :
    formattedEndTime 22 30 none = "24:30" ∧
    isClockTime (formattedEndTime 22 30 none) = false ∧
    clockText ((22 + 2) % 24) 30 = "00:30" ∧
    formattedEndTime 23 59 none = "25:59" ∧
    (∀ m : Fin 60, isClockTime (formattedEndTime 22 m.val none) = false ∧
      isClockTime (formattedEndTime 23 m.val none) = false) ∧
    (∀ (h : Fin 22) (m : Fin 60),
      formattedEndTime h.val m.val none = clockText ((h.val + 2) % 24) m.val ∧
      isClockTime (formattedEndTime h.val m.val none) = true) := by
  have hbad : ∀ h m : Nat, 22 ≤ h → h ≤ 23 → m ≤ 59 →
      isClockTime (formattedEndTime h m none) = false := by
    intro h m h22 h23 hm
    cases hc : isClockTime (formattedEndTime h m none) with
    | false => rfl
    | true =>
      have := (formattedEndTime_before_22 h m h23 hm).2.1 hc
      omega
  refine ⟨?_, hbad 22 30 (by decide) (by decide) (by decide), by decide, ?_, ?_, ?_⟩
  · rw [formattedEndTime_default 22 30 (by decide) (by decide)]
    decide
  · rw [formattedEndTime_default 23 59 (by decide) (by decide)]
    decide
  · intro m
    have hm : m.val ≤ 59 := by omega
    exact ⟨hbad 22 m.val (by decide) (by decide) hm, hbad 23 m.val (by decide) (by decide) hm⟩
  · intro h m
    have hh : h.val ≤ 21 := by omega
    have hm : m.val ≤ 59 := by omega
    have hlem := formattedEndTime_before_22 h.val m.val (by omega) hm
    exact ⟨hlem.1 hh, hlem.2.2 hh⟩

/-! ### Invoice numbers -/

theorem substrLast2_four (y : Nat) (h1 : 1000 ≤ y) (h2 : y < 10000) :
    substrLast2 (toString (Int.ofNat y))
      = String.mk [Nat.digitChar (y % 100 / 10), Nat.digitChar (y % 100 % 10)] := by
  unfold substrLast2
  rw [toString_ofNat_data, toDigits_four y h1 h2]
  have ha : y % 100 / 10 = y / 10 % 10 := by omega
  have hb : y % 100 % 10 = y % 10 := by omega
  rw [ha, hb]
  rfl

theorem padStart_four (r : Nat) (h : r < 10000) :
    padStart 4 (toString (Int.ofNat r))
      = String.mk [Nat.digitChar (r / 1000), Nat.digitChar (r / 100 % 10),
          Nat.digitChar (r / 10 % 10), Nat.digitChar (r % 10)] := by
  unfold padStart
  rw [toString_ofNat_data, padStart_four_data r h]

/-- C30: for a current date with a four-digit year and a random value in [0, 1),
`generateInvoiceNumber` returns the 13-character text `INV-YYMM-RRRR`, where `YY` is the year
modulo 100, `MM` is the month number from 1 to 12 and `RRRR` is the integer
`floor(random × 10000)`, which lies between 0 and 9999, each written with all its digits; the
text is therefore determined by the year, the month and that integer. -/
theorem generateInvoiceNumber_format (date : LocalDate) (random : ℚ)
    (hy1 : 1000 ≤ date.year) (hy2 : date.year ≤ 9999) (hr0 : 0 ≤ random) (hr1 : random < 1) :
    ∃ r : Nat, Int.floor (random * 10000) = (r : Int) ∧ r ≤ 9999 ∧
      generateInvoiceNumber date random
        = invoiceNumberText (date.year.toNat % 100) (date.month.val + 1) r ∧
      (generateInvoiceNumber date random).length = 13 ∧
      1 ≤ date.month.val + 1 ∧ date.month.val + 1 ≤ 12 := by
  have hf0 : 0 ≤ Int.floor (random * 10000) := Int.floor_nonneg.2 (by positivity)
  have hf1 : Int.floor (random * 10000) < 10000 := by
    rw [Int.floor_lt]
    push_cast
    linarith
  obtain ⟨r, hr⟩ := Int.eq_ofNat_of_zero_le hf0
  obtain ⟨y, hy⟩ := Int.eq_ofNat_of_zero_le (show (0 : Int) ≤ date.year by omega)
  have hr9 : r ≤ 9999 := by omega
  have hmonth : date.month.val + 1 ≤ 12 := by
    have := date.month.isLt
    omega
  have htext : generateInvoiceNumber date random
      = invoiceNumberText (date.year.toNat % 100) (date.month.val + 1) r := by
    unfold generateInvoiceNumber
    simp only
    rw [hr, hy, show ((r : Nat) : Int) = Int.ofNat r from rfl,
      show ((y : Nat) : Int) = Int.ofNat y from rfl,
      substrLast2_four y (by omega) (by omega), padStart_four r (by omega),
      padStart_two (date.month.val + 1) (by omega)]
    rfl
  refine ⟨r, hr, hr9, htext, ?_, Nat.le_add_left 1 _, hmonth⟩
  rw [htext]
  rfl

theorem generateInvoiceNumber_format_witness :
    (1000 : Int) ≤ januaryToday.year ∧ januaryToday.year ≤ 9999 ∧
    ∃ r : Nat, Int.floor ((1 / 2 : ℚ) * 10000) = (r : Int) ∧ r ≤ 9999 ∧
      generateInvoiceNumber januaryToday (1 / 2)
        = invoiceNumberText (januaryToday.year.toNat % 100) (januaryToday.month.val + 1) r ∧
      (generateInvoiceNumber januaryToday (1 / 2)).length = 13 ∧
      1 ≤ januaryToday.month.val + 1 ∧ januaryToday.month.val + 1 ≤ 12 :=
  ⟨by decide, by decide,
    generateInvoiceNumber_format januaryToday (1 / 2) (by decide) (by decide) (by norm_num)
      (by norm_num)⟩

/-! ### Double-precision arithmetic -/

theorem f64_pack_ne_nan (b : Bool) (mant : Nat) (k : Int) :
    Ieee.pack b mant k ≠ Ieee.F64.nan := by
  unfold Ieee.pack
  split_ifs <;> simp

theorem f64_pack_nonneg (mant : Nat) (k : Int) : (Ieee.pack false mant k).nonneg = true := by
  unfold Ieee.pack
  simp only [Bool.false_eq_true, if_false]
  split_ifs <;> simp [Ieee.F64.nonneg]

theorem f64_roundFrac_ne_nan (b : Bool) (n d : Nat) (e : Int) :
    Ieee.roundFrac b n d e ≠ Ieee.F64.nan := by
  unfold Ieee.roundFrac
  split_ifs
  · simp
  · exact f64_pack_ne_nan _ _ _

theorem f64_roundFrac_nonneg (n d : Nat) (e : Int) :
    (Ieee.roundFrac false n d e).nonneg = true := by
  unfold Ieee.roundFrac
  split_ifs
  · simp [Ieee.F64.nonneg]
  · exact f64_pack_nonneg _ _

theorem f64_finite_of (a : Ieee.F64) (h1 : a ≠ Ieee.F64.nan) (h2 : a.isInf = false) :
    a.isFinite = true := by
  cases a with
  | fin m e => rfl
  | inf s => simp [Ieee.F64.isInf] at h2
  | nan => exact absurd rfl h1

theorem f64_finite_iff (a : Ieee.F64) : a.isFinite = true ↔ ∃ x, a.toRat = some x := by
  cases a with
  | fin m e => simp [Ieee.F64.isFinite, Ieee.F64.toRat]
  | inf s => simp [Ieee.F64.isFinite, Ieee.F64.toRat]
  | nan => simp [Ieee.F64.isFinite, Ieee.F64.toRat]

theorem f64_value_of_toRat (a : Ieee.F64) (x : ℚ) (h : a.toRat = some x) : a.value = x := by
  simp [Ieee.F64.value, h]

theorem f64_add_ne_nan (a b : Ieee.F64) (ha : a.isFinite = true) (hb : b.isFinite = true) :
    a.add b ≠ Ieee.F64.nan := by
  cases a with
  | fin m1 e1 =>
    cases b with
    | fin m2 e2 => exact f64_roundFrac_ne_nan _ _ _ _
    | inf s => simp [Ieee.F64.isFinite] at hb
    | nan => simp [Ieee.F64.isFinite] at hb
  | inf s => simp [Ieee.F64.isFinite] at ha
  | nan => simp [Ieee.F64.isFinite] at ha

theorem f64_mul_ne_nan (a b : Ieee.F64) (ha : a.isFinite = true) (hb : b.isFinite = true) :
    a.mul b ≠ Ieee.F64.nan := by
  cases a with
  | fin m1 e1 =>
    cases b with
    | fin m2 e2 => exact f64_roundFrac_ne_nan _ _ _ _
    | inf s => simp [Ieee.F64.isFinite] at hb
    | nan => simp [Ieee.F64.isFinite] at hb
  | inf s => simp [Ieee.F64.isFinite] at ha
  | nan => simp [Ieee.F64.isFinite] at ha

theorem f64_neg_finite (a : Ieee.F64) (ha : a.isFinite = true) : a.neg.isFinite = true := by
  cases a with
  | fin m e => rfl
  | inf s => simp [Ieee.F64.isFinite] at ha
  | nan => simp [Ieee.F64.isFinite] at ha

theorem f64_sub_ne_nan (a b : Ieee.F64) (ha : a.isFinite = true) (hb : b.isFinite = true) :
    a.sub b ≠ Ieee.F64.nan :=
  f64_add_ne_nan a b.neg ha (f64_neg_finite b hb)

theorem f64_hundred : Ieee.F64.ofInt 100 = Ieee.F64.fin 25 2 := by decide

theorem f64_div_hundred_ne_nan (a : Ieee.F64) (ha : a.isFinite = true) :
    a.div (Ieee.F64.ofInt 100) ≠ Ieee.F64.nan := by
  rw [f64_hundred]
  cases a with
  | fin m e =>
    have h25 : ¬ ((25 : Int) = 0) := by decide
    simp only [Ieee.F64.div, if_neg h25]
    exact f64_roundFrac_ne_nan _ _ _ _
  | inf s => simp [Ieee.F64.isFinite] at ha
  | nan => simp [Ieee.F64.isFinite] at ha

/-! ### Exact operations -/

theorem ieee_exact_elim (op : Ieee.F64 → Ieee.F64 → Ieee.F64) (f : ℚ → ℚ → ℚ)
    (a b : Ieee.F64) (x y : ℚ) (h : Ieee.F64.Exact op f a b) (ha : a.toRat = some x)
    (hb : b.toRat = some y) : (op a b).toRat = some (f x y) := by
  obtain ⟨x1, y1, hx, hy, hr⟩ := h
  rw [ha] at hx
  rw [hb] at hy
  rw [Option.some.inj hx, Option.some.inj hy]
  exact hr

theorem ieee_exact_of_eq (op : Ieee.F64 → Ieee.F64 → Ieee.F64) (f : ℚ → ℚ → ℚ)
    (a b : Ieee.F64) (m1 e1 m2 e2 m3 e3 : Int) (ha : a = Ieee.F64.fin m1 e1)
    (hb : b = Ieee.F64.fin m2 e2) (hr : op a b = Ieee.F64.fin m3 e3)
    (hv : f ((m1 : ℚ) * (2 : ℚ) ^ e1) ((m2 : ℚ) * (2 : ℚ) ^ e2) = (m3 : ℚ) * (2 : ℚ) ^ e3) :
    Ieee.F64.Exact op f a b := by
  refine ⟨(m1 : ℚ) * (2 : ℚ) ^ e1, (m2 : ℚ) * (2 : ℚ) ^ e2, ?_, ?_, ?_⟩
  · rw [ha]
    rfl
  · rw [hb]
    rfl
  · rw [hr, hv]
    rfl

theorem ieee_field_toRat (v : Ieee.JSVal) (q : ℚ) (h : v.toRat = some q) :
    v.parseFloat.toRat = some q ∧ v.toNumber.toRat = some q := by
  cases v with
  | number x => exact ⟨h, h⟩
  | emptyStr => simp [Ieee.JSVal.toRat] at h
  | undefined => simp [Ieee.JSVal.toRat] at h

theorem f64_hundred_toRat : (Ieee.F64.ofInt 100).toRat = some 100 := by
  rw [f64_hundred]
  norm_num [Ieee.F64.toRat]

theorem f64_zero_toRat : Ieee.F64.zero.toRat = some 0 := by
  norm_num [Ieee.F64.zero, Ieee.F64.toRat]

theorem ieee_foldl_exact (items : List Ieee.Item) (total : Ieee.F64) (t : ℚ)
    (ht : total.toRat = some t) (h : Ieee.ExactSubtotal total items) :
    (items.foldl Ieee.addItem total).toRat = some (t + Ieee.exactSubtotal items) := by
  induction items generalizing total t with
  | nil => simpa [Ieee.exactSubtotal] using ht
  | cons item rest ih =>
    obtain ⟨hmul, hadd, hrest⟩ := h
    obtain ⟨x, y, hx, hy, hxy⟩ := hmul
    have hsum : (Ieee.addItem total item).toRat = some (t + x * y) :=
      ieee_exact_elim _ _ _ _ t (x * y) hadd ht hxy
    rw [List.foldl_cons, ih _ _ hsum hrest]
    simp [Ieee.exactSubtotal, f64_value_of_toRat _ _ hx, f64_value_of_toRat _ _ hy, add_assoc]

theorem ieee_subtotal_exact (items : List Ieee.Item)
    (h : Ieee.ExactSubtotal Ieee.F64.zero items) :
    (Ieee.subtotalOf items).toRat = some (Ieee.exactSubtotal items) := by
  have := ieee_foldl_exact items Ieee.F64.zero 0 f64_zero_toRat h
  rwa [zero_add] at this

/-- The totals of a percentage discount when every operation is exact. -/
theorem ieee_totals_exact (values : Ieee.Values) (r d : ℚ)
    (hr : values.taxRate.toRat = some r) (hd : values.discountValue.toRat = some d)
    (hp : values.discountType = "percentage") (hx : Ieee.ExactTotals values) :
    (Ieee.calculateTotals values).subtotal.toRat = some (Ieee.exactSubtotal values.items) ∧
    (Ieee.calculateTotals values).taxAmount.toRat
      = some (Ieee.exactSubtotal values.items * r / 100) ∧
    (Ieee.calculateTotals values).discountAmount.toRat
      = some (Ieee.exactSubtotal values.items * d / 100) ∧
    (Ieee.calculateTotals values).amount.toRat
      = some (Ieee.exactSubtotal values.items + Ieee.exactSubtotal values.items * r / 100
          - Ieee.exactSubtotal values.items * d / 100) := by
  obtain ⟨hsub, hmulr, hdivr, hdisc, hadd, hsubt⟩ := hx
  obtain ⟨hmuld, hdivd⟩ := hdisc hp
  have hs : (Ieee.calculateTotals values).subtotal.toRat
      = some (Ieee.exactSubtotal values.items) := ieee_subtotal_exact values.items hsub
  have hs2 : (Ieee.subtotalOf values.items).toRat = some (Ieee.exactSubtotal values.items) := hs
  have hsr := ieee_exact_elim _ _ _ _ _ _ hmulr hs2 (ieee_field_toRat _ _ hr).2
  have ht : (Ieee.calculateTotals values).taxAmount.toRat
      = some (Ieee.exactSubtotal values.items * r / 100) :=
    ieee_exact_elim _ _ _ _ _ _ hdivr hsr f64_hundred_toRat
  have hsd := ieee_exact_elim _ _ _ _ _ _ hmuld hs2 (ieee_field_toRat _ _ hd).2
  have hdef : (Ieee.calculateTotals values).discountAmount
      = Ieee.F64.div (Ieee.F64.mul (Ieee.subtotalOf values.items)
          values.discountValue.toNumber) (Ieee.F64.ofInt 100) := by
    simp only [Ieee.calculateTotals, if_pos hp]
  have hxd : (Ieee.calculateTotals values).discountAmount.toRat
      = some (Ieee.exactSubtotal values.items * d / 100) := by
    rw [hdef]
    exact ieee_exact_elim _ _ _ _ _ _ hdivd hsd f64_hundred_toRat
  have hst := ieee_exact_elim _ _ _ _ _ _ hadd hs ht
  exact ⟨hs, ht, hxd, ieee_exact_elim _ _ _ _ _ _ hsubt hst hxd⟩

/-! ### Numbers that need no rounding -/

theorem f64_bitLength_le (fuel n b : Nat) (h : n < 2 ^ b) : Ieee.bitLength fuel n ≤ b := by
  induction fuel generalizing n b with
  | zero => exact Nat.zero_le _
  | succ fuel ih =>
    unfold Ieee.bitLength
    by_cases hn : n = 0
    · rw [if_pos hn]
      exact Nat.zero_le _
    · rw [if_neg hn]
      obtain ⟨c, rfl⟩ : ∃ c, b = c + 1 := by
        cases b with
        | zero =>
          simp only [pow_zero, Nat.lt_one_iff] at h
          exact absurd h hn
        | succ c => exact ⟨c, rfl⟩
      have hhalf : n / 2 < 2 ^ c := by
        rw [pow_succ] at h
        omega
      have := ih (n / 2) c hhalf
      omega

theorem f64_floorLog2_one_le (n : Nat) (hn : n < 2 ^ 53) : Ieee.floorLog2 n 1 ≤ 52 := by
  have h1 : Ieee.floorLog2Nat 1 = 0 := by decide
  have hL : Ieee.floorLog2Nat n ≤ 52 := by
    have := f64_bitLength_le 2200 n 53 hn
    unfold Ieee.floorLog2Nat
    omega
  unfold Ieee.floorLog2
  simp only [h1, Nat.cast_zero, sub_zero]
  split_ifs <;> omega

theorem f64_floorLog2_one_ge (n : Nat) : -1 ≤ Ieee.floorLog2 n 1 := by
  have h1 : Ieee.floorLog2Nat 1 = 0 := by decide
  unfold Ieee.floorLog2
  simp only [h1, Nat.cast_zero, sub_zero]
  split_ifs <;> omega

theorem f64_divRoundEven_one (x : Nat) : Ieee.divRoundEven x 1 = x := by
  simp [Ieee.divRoundEven, Nat.mod_one]

theorem f64_stripTwos_value (fuel m : Nat) (k : Int) :
    ((Ieee.stripTwos fuel m k).1 : ℚ) * (2 : ℚ) ^ (Ieee.stripTwos fuel m k).2
      = (m : ℚ) * (2 : ℚ) ^ k := by
  induction fuel generalizing m k with
  | zero => rfl
  | succ fuel ih =>
    unfold Ieee.stripTwos
    by_cases h : m % 2 = 0
    · rw [if_pos h, ih]
      have hm : m = 2 * (m / 2) := by omega
      have hq : (m : ℚ) = 2 * ((m / 2 : Nat) : ℚ) := by
        have := congrArg (fun (x : Nat) => (x : ℚ)) hm
        simpa using this
      rw [zpow_add₀ (by norm_num : (2 : ℚ) ≠ 0), zpow_one]
      rw [hq]
      ring
    · rw [if_neg h]

theorem f64_stripTwos_mono (fuel m : Nat) (k : Int) : k ≤ (Ieee.stripTwos fuel m k).2 := by
  induction fuel generalizing m k with
  | zero => exact le_refl _
  | succ fuel ih =>
    unfold Ieee.stripTwos
    by_cases h : m % 2 = 0
    · rw [if_pos h]
      have := ih (m / 2) (k + 1)
      omega
    · rw [if_neg h]

theorem f64_stripTwos_exponent (s fuel m : Nat) (k : Int) (hs : s ≤ fuel)
    (hd : 2 ^ s ∣ m) : k + (s : Int) ≤ (Ieee.stripTwos fuel m k).2 := by
  induction s generalizing fuel m k with
  | zero =>
    simp only [Nat.cast_zero, add_zero]
    exact f64_stripTwos_mono fuel m k
  | succ s ih =>
    obtain ⟨fuel, rfl⟩ : ∃ f, fuel = f + 1 := ⟨fuel - 1, by omega⟩
    obtain ⟨c, hc⟩ := hd
    have hm2 : m = 2 * (2 ^ s * c) := by
      rw [hc, pow_succ]
      ring
    have heven : m % 2 = 0 := by omega
    have hhalf : 2 ^ s ∣ m / 2 := ⟨c, by omega⟩
    unfold Ieee.stripTwos
    rw [if_pos heven]
    have := ih fuel (m / 2) (k + 1) (by omega) hhalf
    push_cast
    omega

/-- A number `n * 2 ^ e` with `e ≥ 0` that is less than `2 ^ 53` is a binary64 value: rounding
returns it unchanged, written as `m * 2 ^ k` with `k ≥ 0`. -/
theorem f64_roundFrac_whole (n e : Nat) (h : n * 2 ^ e < 2 ^ 53) :
    ∃ m k : Nat, Ieee.roundFrac false n 1 (e : Int) = Ieee.F64.fin (m : Int) (k : Int) ∧
      m * 2 ^ k = n * 2 ^ e := by
  by_cases hn : n = 0
  · subst hn
    exact ⟨0, 0, rfl, by simp⟩
  have hn1 : 1 ≤ n := Nat.pos_of_ne_zero hn
  have hpow : 1 ≤ 2 ^ e := Nat.one_le_two_pow
  have hnlt : n < 2 ^ 53 := lt_of_le_of_lt (Nat.le_mul_of_pos_right n hpow) h
  have helt : e < 53 := by
    have h2 : 2 ^ e < 2 ^ 53 := lt_of_le_of_lt (Nat.le_mul_of_pos_left _ hn1) h
    exact (Nat.pow_lt_pow_iff_right (by norm_num)).1 h2
  have hle := f64_floorLog2_one_le n hnlt
  have hge := f64_floorLog2_one_ge n
  obtain ⟨s, hs⟩ : ∃ s : Nat, (e : Int) - Ieee.lastPlace n 1 (e : Int) = (s : Int) := by
    refine ⟨((e : Int) - Ieee.lastPlace n 1 (e : Int)).toNat, ?_⟩
    unfold Ieee.lastPlace
    omega
  have hs53 : s ≤ 53 := by
    unfold Ieee.lastPlace at hs
    omega
  have hk : Ieee.lastPlace n 1 (e : Int) = (e : Int) - (s : Int) := by omega
  have hscaled : Ieee.scaled n 1 ((e : Int) - Ieee.lastPlace n 1 (e : Int)) = n * 2 ^ s := by
    rw [hs]
    unfold Ieee.scaled
    rw [if_pos (Int.ofNat_nonneg _), f64_divRoundEven_one, Int.toNat_ofNat, Nat.shiftLeft_eq]
  have hmant : n * 2 ^ s ≠ 0 := by
    have : 0 < n * 2 ^ s := Nat.mul_pos hn1 (Nat.pos_pow_of_pos _ (by norm_num))
    omega
  have hpack : Ieee.roundFrac false n 1 (e : Int)
      = Ieee.F64.fin ((Ieee.stripTwos 53 (n * 2 ^ s) ((e : Int) - (s : Int))).1 : Int)
          (Ieee.stripTwos 53 (n * 2 ^ s) ((e : Int) - (s : Int))).2 := by
    unfold Ieee.roundFrac
    rw [if_neg hn, hscaled, hk]
    unfold Ieee.pack
    rw [if_neg hmant, if_neg (by omega)]
    simp
  have hexp := f64_stripTwos_exponent s 53 (n * 2 ^ s) ((e : Int) - (s : Int)) hs53
    (Dvd.intro_left _ rfl)
  have hval := f64_stripTwos_value 53 (n * 2 ^ s) ((e : Int) - (s : Int))
  obtain ⟨k, hkk⟩ : ∃ k : Nat,
      (Ieee.stripTwos 53 (n * 2 ^ s) ((e : Int) - (s : Int))).2 = (k : Int) :=
    ⟨(Ieee.stripTwos 53 (n * 2 ^ s) ((e : Int) - (s : Int))).2.toNat, by omega⟩
  refine ⟨(Ieee.stripTwos 53 (n * 2 ^ s) ((e : Int) - (s : Int))).1, k, ?_, ?_⟩
  · rw [hpack, hkk]
  · rw [hkk] at hval
    have h2 : ((2 : ℚ)) ^ ((e : Int) - (s : Int)) * (2 : ℚ) ^ (s : Int) = (2 : ℚ) ^ (e : Int) := by
      rw [← zpow_add₀ (by norm_num : (2 : ℚ) ≠ 0)]
      congr 1
      omega
    have h3 : (((Ieee.stripTwos 53 (n * 2 ^ s) ((e : Int) - (s : Int))).1 * 2 ^ k : Nat) : ℚ)
        = ((n * 2 ^ e : Nat) : ℚ) := by
      push_cast
      rw [← zpow_natCast (2 : ℚ) k, hval, ← zpow_natCast (2 : ℚ) e, ← h2]
      push_cast
      rw [← zpow_natCast (2 : ℚ) s]
      ring
    exact_mod_cast h3
theorem f64_whole_iff (a : Ieee.F64) :
    a.isWhole = true ↔ ∃ m e : Nat, a = Ieee.F64.fin (m : Int) (e : Int) := by
  constructor
  · intro h
    cases a with
    | fin m e =>
      simp only [Ieee.F64.isWhole, Bool.and_eq_true, decide_eq_true_eq] at h
      exact ⟨m.toNat, e.toNat, by rw [Int.toNat_of_nonneg h.1, Int.toNat_of_nonneg h.2]⟩
    | inf s => simp [Ieee.F64.isWhole] at h
    | nan => simp [Ieee.F64.isWhole] at h
  · rintro ⟨m, e, rfl⟩
    simp [Ieee.F64.isWhole]

theorem f64_whole_toRat (m e : Nat) :
    (Ieee.F64.fin (m : Int) (e : Int)).toRat = some (((m * 2 ^ e : Nat) : ℚ)) := by
  simp [Ieee.F64.toRat]

theorem f64_whole_value (m e : Nat) :
    (Ieee.F64.fin (m : Int) (e : Int)).value = ((m * 2 ^ e : Nat) : ℚ) := by
  simp [Ieee.F64.value, Ieee.F64.toRat]

theorem f64_whole_value_nonneg (a : Ieee.F64) (h : a.isWhole = true) : 0 ≤ a.value := by
  obtain ⟨m, e, rfl⟩ := (f64_whole_iff a).1 h
  rw [f64_whole_value]
  exact Nat.cast_nonneg _

theorem f64_whole_toRat_value (a : Ieee.F64) (h : a.isWhole = true) :
    a.toRat = some a.value := by
  obtain ⟨m, e, rfl⟩ := (f64_whole_iff a).1 h
  rw [f64_whole_value, f64_whole_toRat]

/-- The sum of two whole numbers is exact when it is less than `2 ^ 53`. -/
theorem f64_add_whole (a b : Ieee.F64) (ha : a.isWhole = true) (hb : b.isWhole = true)
    (h : a.value + b.value < 2 ^ 53) :
    (a.add b).isWhole = true ∧ (a.add b).toRat = some (a.value + b.value) := by
  obtain ⟨m1, e1, rfl⟩ := (f64_whole_iff a).1 ha
  obtain ⟨m2, e2, rfl⟩ := (f64_whole_iff b).1 hb
  rw [f64_whole_value, f64_whole_value] at h ⊢
  have hnat : m1 * 2 ^ e1 + m2 * 2 ^ e2 < 2 ^ 53 := by exact_mod_cast h
  have hd1 : ((e1 : Int) - min (e1 : Int) (e2 : Int)).toNat = e1 - min e1 e2 := by omega
  have hd2 : ((e2 : Int) - min (e1 : Int) (e2 : Int)).toNat = e2 - min e1 e2 := by omega
  have hmin : min (e1 : Int) (e2 : Int) = ((min e1 e2 : Nat) : Int) := by omega
  have ht : (m1 : Int) * ((1 <<< (e1 - min e1 e2) : Nat) : Int)
      + (m2 : Int) * ((1 <<< (e2 - min e1 e2) : Nat) : Int)
      = ((m1 * 2 ^ (e1 - min e1 e2) + m2 * 2 ^ (e2 - min e1 e2) : Nat) : Int) := by
    rw [Nat.one_shiftLeft, Nat.one_shiftLeft]
    push_cast
    ring
  have hsum : (m1 * 2 ^ (e1 - min e1 e2) + m2 * 2 ^ (e2 - min e1 e2)) * 2 ^ min e1 e2
      = m1 * 2 ^ e1 + m2 * 2 ^ e2 := by
    have h1 : e1 - min e1 e2 + min e1 e2 = e1 := by omega
    have h2 : e2 - min e1 e2 + min e1 e2 = e2 := by omega
    rw [add_mul, mul_assoc, mul_assoc, ← pow_add, ← pow_add, h1, h2]
  obtain ⟨m, k, hr, hv⟩ := f64_roundFrac_whole
    (m1 * 2 ^ (e1 - min e1 e2) + m2 * 2 ^ (e2 - min e1 e2)) (min e1 e2)
    (by rw [hsum]; exact hnat)
  have hadd : (Ieee.F64.fin (m1 : Int) (e1 : Int)).add (Ieee.F64.fin (m2 : Int) (e2 : Int))
      = Ieee.F64.fin (m : Int) (k : Int) := by
    simp only [Ieee.F64.add]
    rw [hd1, hd2, ht, hmin, Int.natAbs_ofNat,
      decide_eq_false (not_lt.2 (Int.ofNat_nonneg _))]
    exact hr
  rw [hadd]
  refine ⟨(f64_whole_iff _).2 ⟨m, k, rfl⟩, ?_⟩
  rw [f64_whole_toRat, hv, hsum]
  push_cast
  rfl

/-- The product of two whole numbers is exact when it is less than `2 ^ 53`. -/
theorem f64_mul_whole (a b : Ieee.F64) (ha : a.isWhole = true) (hb : b.isWhole = true)
    (h : a.value * b.value < 2 ^ 53) :
    (a.mul b).isWhole = true ∧ (a.mul b).toRat = some (a.value * b.value) := by
  obtain ⟨m1, e1, rfl⟩ := (f64_whole_iff a).1 ha
  obtain ⟨m2, e2, rfl⟩ := (f64_whole_iff b).1 hb
  rw [f64_whole_value, f64_whole_value] at h ⊢
  have hnat : m1 * 2 ^ e1 * (m2 * 2 ^ e2) < 2 ^ 53 := by exact_mod_cast h
  have hprod : m1 * m2 * 2 ^ (e1 + e2) = m1 * 2 ^ e1 * (m2 * 2 ^ e2) := by
    rw [pow_add]
    ring
  obtain ⟨m, k, hr, hv⟩ := f64_roundFrac_whole (m1 * m2) (e1 + e2)
    (by rw [hprod]; exact hnat)
  have hmul : (Ieee.F64.fin (m1 : Int) (e1 : Int)).mul (Ieee.F64.fin (m2 : Int) (e2 : Int))
      = Ieee.F64.fin (m : Int) (k : Int) := by
    simp only [Ieee.F64.mul]
    have hcast : (m1 : Int) * (m2 : Int) = ((m1 * m2 : Nat) : Int) := by push_cast; ring
    have hexp : (e1 : Int) + (e2 : Int) = ((e1 + e2 : Nat) : Int) := by push_cast; ring
    rw [hcast, hexp, Int.natAbs_ofNat, decide_eq_false (not_lt.2 (Int.ofNat_nonneg _))]
    exact hr
  rw [hmul]
  refine ⟨(f64_whole_iff _).2 ⟨m, k, rfl⟩, ?_⟩
  rw [f64_whole_toRat, hv, hprod]
  push_cast
  rfl
theorem ieee_exactSubtotal_cons (item : Ieee.Item) (rest : List Ieee.Item) :
    Ieee.exactSubtotal (item :: rest)
      = item.quantity.parseFloat.value * item.unitPrice.parseFloat.value
        + Ieee.exactSubtotal rest := by
  simp [Ieee.exactSubtotal]

theorem ieee_exactSubtotal_whole_nonneg (items : List Ieee.Item)
    (h : ∀ it ∈ items, it.quantity.parseFloat.isWhole = true ∧
      it.unitPrice.parseFloat.isWhole = true) :
    0 ≤ Ieee.exactSubtotal items := by
  unfold Ieee.exactSubtotal
  apply List.sum_nonneg
  intro x hx
  obtain ⟨it, hit, rfl⟩ := List.mem_map.1 hx
  exact mul_nonneg (f64_whole_value_nonneg _ (h it hit).1)
    (f64_whole_value_nonneg _ (h it hit).2)

/-- Whole quantities and unit prices whose exact amounts sum to less than `2 ^ 53` (together
with the running total) are added up without rounding. -/
theorem ieee_whole_exactSubtotal (items : List Ieee.Item) (total : Ieee.F64)
    (ht : total.isWhole = true)
    (h : ∀ it ∈ items, it.quantity.parseFloat.isWhole = true ∧
      it.unitPrice.parseFloat.isWhole = true)
    (hs : total.value + Ieee.exactSubtotal items < 2 ^ 53) :
    Ieee.ExactSubtotal total items := by
  induction items generalizing total with
  | nil => trivial
  | cons item rest ih =>
    have hq := (h item (List.mem_cons_self _ _)).1
    have hp := (h item (List.mem_cons_self _ _)).2
    have hrest : ∀ it ∈ rest, it.quantity.parseFloat.isWhole = true ∧
        it.unitPrice.parseFloat.isWhole = true :=
      fun it hit => h it (List.mem_cons_of_mem _ hit)
    have hr0 := ieee_exactSubtotal_whole_nonneg rest hrest
    have ht0 := f64_whole_value_nonneg total ht
    rw [ieee_exactSubtotal_cons] at hs
    have hprod : item.quantity.parseFloat.value * item.unitPrice.parseFloat.value < 2 ^ 53 := by
      linarith
    have hmul := f64_mul_whole _ _ hq hp hprod
    have hamt : (Ieee.calculateItemAmount item.quantity item.unitPrice).value
        = item.quantity.parseFloat.value * item.unitPrice.parseFloat.value :=
      f64_value_of_toRat _ _ hmul.2
    have hsum : total.value + (Ieee.calculateItemAmount item.quantity item.unitPrice).value
        < 2 ^ 53 := by
      rw [hamt]
      linarith
    have hadd := f64_add_whole total _ ht hmul.1 hsum
    refine ⟨⟨_, _, f64_whole_toRat_value _ hq, f64_whole_toRat_value _ hp, hmul.2⟩,
      ⟨_, _, f64_whole_toRat_value _ ht, f64_whole_toRat_value _ hmul.1, hadd.2⟩, ?_⟩
    have hnew : (Ieee.addItem total item).value
        = total.value + (Ieee.calculateItemAmount item.quantity item.unitPrice).value :=
      f64_value_of_toRat _ _ hadd.2
    have hnext : (Ieee.addItem total item).value + Ieee.exactSubtotal rest < 2 ^ 53 := by
      rw [hnew, hamt]
      linarith
    exact ih (Ieee.addItem total item) hadd.1 hrest hnext

theorem ieee_whole_sum_nonneg (xs : List Ieee.F64) (h : ∀ x ∈ xs, x.isWhole = true) :
    0 ≤ (xs.map Ieee.F64.value).sum := by
  apply List.sum_nonneg
  intro v hv
  obtain ⟨x, hx, rfl⟩ := List.mem_map.1 hv
  exact f64_whole_value_nonneg x (h x hx)

/-! ### The subtotal in double arithmetic -/

theorem wholeAmounts_exactSubtotal :
    Ieee.ExactSubtotal Ieee.F64.zero Ieee.wholeAmounts.items := by
  refine ⟨?_, ?_, ?_, ?_, trivial⟩
  · exact ieee_exact_of_eq _ _ _ _ 1 1 25 1 25 2 (by decide) (by decide) (by decide)
      (by norm_num)
  · exact ieee_exact_of_eq _ _ _ _ 0 0 25 2 25 2 (by decide) (by decide) (by decide)
      (by norm_num)
  · exact ieee_exact_of_eq _ _ _ _ 1 2 25 0 25 2 (by decide) (by decide) (by decide)
      (by norm_num)
  · exact ieee_exact_of_eq _ _ _ _ 25 2 25 2 25 3 (by decide) (by decide) (by decide)
      (by norm_num)

/-- C1, amended: the subtotal returned by `calculateTotals` is the sum, taken from 0 in the
order of the list in double arithmetic, of the double products quantity × unitPrice that
`calculateItemAmount` returns, with no rounding step besides the rounding of each operation;
it is the exact sum over the items of quantity × unitPrice whenever none of these
multiplications and additions rounds or overflows, which is the case when all quantities and
unit prices are whole numbers and the exact sum is less than 2^53; for the empty list it
is 0. -/
theorem subtotal_exact_unless_rounded (values : Ieee.Values) :
    (Ieee.calculateTotals values).subtotal
      = (values.items.map (fun it => Ieee.calculateItemAmount it.quantity it.unitPrice)).foldl
          Ieee.F64.add Ieee.F64.zero ∧
    (Ieee.ExactSubtotal Ieee.F64.zero values.items →
      (Ieee.calculateTotals values).subtotal.toRat
        = some (Ieee.exactSubtotal values.items)) ∧
    ((∀ it ∈ values.items, it.quantity.parseFloat.isWhole = true ∧
        it.unitPrice.parseFloat.isWhole = true) →
      Ieee.exactSubtotal values.items < 2 ^ 53 →
      (Ieee.calculateTotals values).subtotal.toRat
        = some (Ieee.exactSubtotal values.items)) ∧
    (values.items = [] → (Ieee.calculateTotals values).subtotal = Ieee.F64.zero) := by
  refine ⟨?_, ieee_subtotal_exact values.items, ?_, ?_⟩
  · show Ieee.subtotalOf values.items = _
    unfold Ieee.subtotalOf
    rw [List.foldl_map]
    rfl
  · intro hw hs
    apply ieee_subtotal_exact values.items
    apply ieee_whole_exactSubtotal values.items Ieee.F64.zero (by decide) hw
    rw [f64_value_of_toRat _ _ f64_zero_toRat, zero_add]
    exact hs
  · intro hnil
    show Ieee.subtotalOf values.items = _
    rw [hnil]
    rfl

theorem subtotal_exact_unless_rounded_witness :
    Ieee.ExactSubtotal Ieee.F64.zero Ieee.wholeAmounts.items ∧
    (Ieee.calculateTotals Ieee.wholeAmounts).subtotal.toRat
      = some (Ieee.exactSubtotal Ieee.wholeAmounts.items) :=
  ⟨wholeAmounts_exactSubtotal,
    (subtotal_exact_unless_rounded Ieee.wholeAmounts).2.1 wholeAmounts_exactSubtotal⟩

/-- C1 fails as stated: for the items 2^53 × 1 and 1 × 1 the subtotal returned is 2^53, the
sum 2^53 + 1 rounded to a double, and not the exact sum. -/
theorem subtotal_rounds_above_two_pow_53 :
    (∀ it ∈ Ieee.bigSubtotal.items, ∃ q p : ℚ, it.quantity.toRat = some q ∧
      it.unitPrice.toRat = some p ∧ 0 ≤ q ∧ 0 ≤ p) ∧
    (Ieee.calculateTotals Ieee.bigSubtotal).subtotal.toRat = some (2 ^ 53) ∧
    Ieee.exactSubtotal Ieee.bigSubtotal.items = 2 ^ 53 + 1 ∧
    (Ieee.calculateTotals Ieee.bigSubtotal).subtotal.toRat
      ≠ some (Ieee.exactSubtotal Ieee.bigSubtotal.items) := by
  have hone : Ieee.F64.ofFrac 1 1 = Ieee.F64.fin 1 0 := by decide
  have hsub : (Ieee.calculateTotals Ieee.bigSubtotal).subtotal = Ieee.F64.fin 1 53 := by decide
  have hexact : Ieee.exactSubtotal Ieee.bigSubtotal.items = 2 ^ 53 + 1 := by
    simp only [Ieee.exactSubtotal, Ieee.bigSubtotal, Ieee.JSVal.ofFrac, Ieee.JSVal.parseFloat,
      hone, Ieee.F64.value, Ieee.F64.toRat, List.map_cons, List.map_nil, List.sum_cons,
      List.sum_nil, Option.getD_some]
    norm_num
  refine ⟨?_, ?_, hexact, ?_⟩
  · intro it hit
    simp only [Ieee.bigSubtotal, List.mem_cons, List.mem_singleton, List.not_mem_nil,
      or_false] at hit
    rcases hit with rfl | rfl
    · refine ⟨2 ^ 53, 1, ?_, ?_, by norm_num, by norm_num⟩
      · norm_num [Ieee.JSVal.toRat, Ieee.F64.toRat]
      · simp only [Ieee.JSVal.ofFrac, Ieee.JSVal.toRat, hone]
        norm_num [Ieee.F64.toRat]
    · refine ⟨1, 1, ?_, ?_, by norm_num, by norm_num⟩
      · simp only [Ieee.JSVal.ofFrac, Ieee.JSVal.toRat, hone]
        norm_num [Ieee.F64.toRat]
      · simp only [Ieee.JSVal.ofFrac, Ieee.JSVal.toRat, hone]
        norm_num [Ieee.F64.toRat]
  · rw [hsub]
    norm_num [Ieee.F64.toRat]
  · rw [hsub, hexact]
    norm_num [Ieee.F64.toRat]

/-! ### Finite totals -/

theorem f64_finite_of_ops (a : Ieee.F64) (h1 : a ≠ Ieee.F64.nan) (h2 : (!a.isInf) = true) :
    a.isFinite = true :=
  f64_finite_of a h1 (by simpa using h2)

theorem ieee_finite_field (v : Ieee.JSVal) (h : v.isFiniteNumber = true) :
    v.parseFloat.isFinite = true ∧ v.toNumber.isFinite = true := by
  cases v with
  | number x => exact ⟨h, h⟩
  | emptyStr => simp [Ieee.JSVal.isFiniteNumber] at h
  | undefined => simp [Ieee.JSVal.isFiniteNumber] at h

theorem ieee_foldl_finite (items : List Ieee.Item) (total : Ieee.F64)
    (ht : total.isFinite = true)
    (h : ∀ it ∈ items, it.quantity.isFiniteNumber = true ∧ it.unitPrice.isFiniteNumber = true)
    (hr : Ieee.subtotalInRange total items = true) :
    (items.foldl Ieee.addItem total).isFinite = true := by
  induction items generalizing total with
  | nil => exact ht
  | cons item rest ih =>
    simp only [Ieee.subtotalInRange, Bool.and_eq_true] at hr
    obtain ⟨⟨hprod, hsum⟩, hrest⟩ := hr
    have hq := (ieee_finite_field _ (h item (List.mem_cons_self _ _)).1).1
    have hp := (ieee_finite_field _ (h item (List.mem_cons_self _ _)).2).1
    have hamt : (Ieee.calculateItemAmount item.quantity item.unitPrice).isFinite = true :=
      f64_finite_of_ops _ (f64_mul_ne_nan _ _ hq hp) hprod
    have hnext : (Ieee.addItem total item).isFinite = true :=
      f64_finite_of_ops _ (f64_add_ne_nan _ _ ht hamt) hsum
    rw [List.foldl_cons]
    exact ih _ hnext (fun it hit => h it (List.mem_cons_of_mem _ hit)) hrest

theorem ieee_orZero_finite (x : Ieee.F64) (h : x.isFinite = true) :
    (Ieee.JSVal.number x).orZero.isFinite = true := by
  simp only [Ieee.JSVal.orZero]
  split_ifs
  · exact h
  · rfl

/-- C14, amended: for items with finite numeric quantity and unitPrice, a finite tax rate and a
finite discount value of either discount type, the four fields `calculateTotals` returns are
finite numbers unless one of its operations overflows to an infinity; for the empty list with
tax 0 and a 0% discount all four are 0. -/
theorem totals_finite_unless_overflow :
    (∀ values : Ieee.Values,
      (∀ it ∈ values.items,
        it.quantity.isFiniteNumber = true ∧ it.unitPrice.isFiniteNumber = true) →
      values.taxRate.isFiniteNumber = true → values.discountValue.isFiniteNumber = true →
      Ieee.inRange values = true →
      (Ieee.calculateTotals values).subtotal.isFinite = true ∧
      (Ieee.calculateTotals values).taxAmount.isFinite = true ∧
      (Ieee.calculateTotals values).discountAmount.isFinite = true ∧
      (Ieee.calculateTotals values).amount.isFinite = true) ∧
    Ieee.calculateTotals ⟨[], Ieee.JSVal.ofFrac 0 1, "percentage", Ieee.JSVal.ofFrac 0 1⟩
      = ⟨Ieee.F64.zero, Ieee.F64.zero, Ieee.F64.zero, Ieee.F64.zero⟩ := by
  refine ⟨?_, by decide⟩
  intro values h hr hd hin
  simp only [Ieee.inRange, Bool.and_eq_true] at hin
  obtain ⟨⟨⟨⟨⟨⟨hsubR, hmulR⟩, htaxR⟩, hdmulR⟩, hdiscR⟩, haddR⟩, hamtR⟩ := hin
  have hs : (Ieee.calculateTotals values).subtotal.isFinite = true :=
    ieee_foldl_finite values.items Ieee.F64.zero rfl h hsubR
  have hs2 : (Ieee.subtotalOf values.items).isFinite = true := hs
  have hsr : (Ieee.F64.mul (Ieee.subtotalOf values.items) values.taxRate.toNumber).isFinite
      = true :=
    f64_finite_of_ops _ (f64_mul_ne_nan _ _ hs2 (ieee_finite_field _ hr).2) hmulR
  have ht : (Ieee.calculateTotals values).taxAmount.isFinite = true :=
    f64_finite_of_ops _ (f64_div_hundred_ne_nan _ hsr) htaxR
  have hx : (Ieee.calculateTotals values).discountAmount.isFinite = true := by
    by_cases hp : values.discountType = "percentage"
    · have hdm : (!(Ieee.F64.mul (Ieee.subtotalOf values.items)
          values.discountValue.toNumber).isInf) = true := by
        simpa [hp] using hdmulR
      have hsd := f64_finite_of_ops _
        (f64_mul_ne_nan _ _ hs2 (ieee_finite_field _ hd).2) hdm
      have hdef : (Ieee.calculateTotals values).discountAmount
          = Ieee.F64.div (Ieee.F64.mul (Ieee.subtotalOf values.items)
              values.discountValue.toNumber) (Ieee.F64.ofInt 100) := by
        simp only [Ieee.calculateTotals, if_pos hp]
      have hne : (Ieee.calculateTotals values).discountAmount ≠ Ieee.F64.nan := by
        rw [hdef]
        exact f64_div_hundred_ne_nan _ hsd
      exact f64_finite_of_ops _ hne hdiscR
    · have hdef : (Ieee.calculateTotals values).discountAmount
          = (Ieee.JSVal.number values.discountValue.parseFloat).orZero := by
        simp only [Ieee.calculateTotals, if_neg hp]
      rw [hdef]
      exact ieee_orZero_finite _ (ieee_finite_field _ hd).1
  have hst := f64_finite_of_ops _ (f64_add_ne_nan _ _ hs ht) haddR
  exact ⟨hs, ht, hx, f64_finite_of_ops _ (f64_sub_ne_nan _ _ hst hx) hamtR⟩

theorem totals_finite_unless_overflow_witness :
    Ieee.inRange Ieee.wholeAmounts = true ∧
    (Ieee.calculateTotals Ieee.wholeAmounts).amount.isFinite = true :=
  ⟨by decide,
    (totals_finite_unless_overflow.1 Ieee.wholeAmounts (by decide) (by decide) (by decide)
      (by decide)).2.2.2⟩

/-- C14 fails as stated: for the single item 2^1023 × 2 with tax 0 and a 0% discount, all of
them finite numbers, the product overflows and `calculateTotals` returns the subtotal
`Infinity` and `NaN` in the three other fields. -/
theorem totals_overflow_to_nan :
    (∀ it ∈ Ieee.overflowing.items,
      it.quantity.isFiniteNumber = true ∧ it.unitPrice.isFiniteNumber = true) ∧
    Ieee.overflowing.taxRate.isFiniteNumber = true ∧
    Ieee.overflowing.discountValue.isFiniteNumber = true ∧
    Ieee.calculateTotals Ieee.overflowing
      = ⟨Ieee.F64.inf false, Ieee.F64.nan, Ieee.F64.nan, Ieee.F64.nan⟩ := by
  refine ⟨by decide, by decide, by decide, by decide⟩

/-! ### Bounds under a percentage discount, in double arithmetic -/

theorem f64_add_nonneg (a b : Ieee.F64) (ha : a.nonneg = true) (hb : b.nonneg = true) :
    (a.add b).nonneg = true := by
  cases a with
  | fin m1 e1 =>
    cases b with
    | fin m2 e2 =>
      simp only [Ieee.F64.nonneg, decide_eq_true_eq] at ha hb
      have ht : ¬ (m1 * ((1 <<< (e1 - min e1 e2).toNat : Nat) : Int)
          + m2 * ((1 <<< (e2 - min e1 e2).toNat : Nat) : Int) < 0) := by
        have h1 : 0 ≤ m1 * ((1 <<< (e1 - min e1 e2).toNat : Nat) : Int) :=
          mul_nonneg ha (Int.ofNat_nonneg _)
        have h2 : 0 ≤ m2 * ((1 <<< (e2 - min e1 e2).toNat : Nat) : Int) :=
          mul_nonneg hb (Int.ofNat_nonneg _)
        omega
      simp only [Ieee.F64.add, decide_eq_false ht]
      exact f64_roundFrac_nonneg _ _ _
    | inf s => simpa [Ieee.F64.add, Ieee.F64.nonneg] using hb
    | nan => simp [Ieee.F64.nonneg] at hb
  | inf s =>
    cases b with
    | fin m2 e2 => simpa [Ieee.F64.add, Ieee.F64.nonneg] using ha
    | inf t =>
      simp only [Ieee.F64.nonneg, Bool.not_eq_true'] at ha hb
      subst ha
      subst hb
      rfl
    | nan => simp [Ieee.F64.nonneg] at hb
  | nan => simp [Ieee.F64.nonneg] at ha

theorem f64_mul_nonneg (a b : Ieee.F64) (ha : a.nonneg = true) (hb : b.nonneg = true)
    (hfa : a.isFinite = true) (hfb : b.isFinite = true) : (a.mul b).nonneg = true := by
  cases a with
  | fin m1 e1 =>
    cases b with
    | fin m2 e2 =>
      simp only [Ieee.F64.nonneg, decide_eq_true_eq] at ha hb
      have ht : ¬ (m1 * m2 < 0) := not_lt.2 (mul_nonneg ha hb)
      simp only [Ieee.F64.mul, decide_eq_false ht]
      exact f64_roundFrac_nonneg _ _ _
    | inf s => simp [Ieee.F64.isFinite] at hfb
    | nan => simp [Ieee.F64.isFinite] at hfb
  | inf s => simp [Ieee.F64.isFinite] at hfa
  | nan => simp [Ieee.F64.isFinite] at hfa

theorem f64_div_hundred_nonneg (a : Ieee.F64) (ha : a.nonneg = true) :
    (a.div (Ieee.F64.ofInt 100)).nonneg = true := by
  rw [f64_hundred]
  cases a with
  | fin m e =>
    simp only [Ieee.F64.nonneg, decide_eq_true_eq] at ha
    have h25 : ¬ ((25 : Int) = 0) := by decide
    have hm : ¬ (m < 0) := not_lt.2 ha
    have h25n : ¬ ((25 : Int) < 0) := by decide
    simp only [Ieee.F64.div, if_neg h25, decide_eq_false hm, decide_eq_false h25n,
      Bool.xor_false]
    exact f64_roundFrac_nonneg _ _ _
  | inf s =>
    have h25n : ¬ ((25 : Int) < 0) := by decide
    simpa [Ieee.F64.div, Ieee.F64.nonneg, decide_eq_false h25n] using ha
  | nan => simp [Ieee.F64.nonneg] at ha

theorem ieee_nonneg_field (v : Ieee.JSVal) (q : ℚ) (h : v.toRat = some q) (hq : 0 ≤ q) :
    v.parseFloat.isFinite = true ∧ v.parseFloat.nonneg = true ∧
    v.toNumber.isFinite = true ∧ v.toNumber.nonneg = true := by
  cases v with
  | number x =>
    cases x with
    | fin m e =>
      have hval : (m : ℚ) * (2 : ℚ) ^ e = q := by
        simpa [Ieee.JSVal.toRat, Ieee.F64.toRat] using h
      have hpos : (0 : ℚ) < (2 : ℚ) ^ e := zpow_pos (by norm_num) e
      have hm : (0 : ℚ) ≤ (m : ℚ) := by
        rw [← hval] at hq
        exact nonneg_of_mul_nonneg_left hq hpos
      have hm2 : 0 ≤ m := Int.cast_nonneg.1 hm
      simp [Ieee.JSVal.parseFloat, Ieee.JSVal.toNumber, Ieee.F64.isFinite, Ieee.F64.nonneg, hm2]
    | inf s => simp [Ieee.JSVal.toRat, Ieee.F64.toRat] at h
    | nan => simp [Ieee.JSVal.toRat, Ieee.F64.toRat] at h
  | emptyStr => simp [Ieee.JSVal.toRat] at h
  | undefined => simp [Ieee.JSVal.toRat] at h

theorem ieee_foldl_nonneg (items : List Ieee.Item) (total : Ieee.F64)
    (ht : total.nonneg = true)
    (h : ∀ it ∈ items, ∃ q p : ℚ, it.quantity.toRat = some q ∧ it.unitPrice.toRat = some p ∧
      0 ≤ q ∧ 0 ≤ p) :
    (items.foldl Ieee.addItem total).nonneg = true := by
  induction items generalizing total with
  | nil => exact ht
  | cons item rest ih =>
    obtain ⟨q, p, hq, hp, hq0, hp0⟩ := h item (List.mem_cons_self _ _)
    have h1 := ieee_nonneg_field _ q hq hq0
    have h2 := ieee_nonneg_field _ p hp hp0
    have hamt : (Ieee.calculateItemAmount item.quantity item.unitPrice).nonneg = true :=
      f64_mul_nonneg _ _ h1.2.1 h2.2.1 h1.1 h2.1
    rw [List.foldl_cons]
    exact ih _ (f64_add_nonneg _ _ ht hamt) (fun it hit => h it (List.mem_cons_of_mem _ hit))

theorem ieee_exactSubtotal_nonneg (items : List Ieee.Item)
    (h : ∀ it ∈ items, ∃ q p : ℚ, it.quantity.toRat = some q ∧ it.unitPrice.toRat = some p ∧
      0 ≤ q ∧ 0 ≤ p) :
    0 ≤ Ieee.exactSubtotal items := by
  unfold Ieee.exactSubtotal
  apply List.sum_nonneg
  intro x hx
  obtain ⟨it, hit, rfl⟩ := List.mem_map.1 hx
  obtain ⟨q, p, hq, hp, hq0, hp0⟩ := h it hit
  rw [f64_value_of_toRat _ _ (ieee_field_toRat _ _ hq).1,
    f64_value_of_toRat _ _ (ieee_field_toRat _ _ hp).1]
  exact mul_nonneg hq0 hp0

/-- C21, amended: for items with non-negative quantity and unitPrice, a tax rate `r ≥ 0` and a
percentage discount with `0 ≤ d ≤ 100`, the subtotal is `>= 0`; when the subtotal is finite,
taxAmount and discountAmount are `>= 0`; and when no operation of `calculateTotals` rounds or
overflows, 0 ≤ discountAmount ≤ subtotal and 0 ≤ taxAmount ≤ amount, so that the grand total is
not negative. -/
theorem percentage_bounds_unless_rounded (values : Ieee.Values) (r d : ℚ)
    (h : ∀ it ∈ values.items, ∃ q p : ℚ, it.quantity.toRat = some q ∧
      it.unitPrice.toRat = some p ∧ 0 ≤ q ∧ 0 ≤ p)
    (hr : values.taxRate.toRat = some r) (hr0 : 0 ≤ r)
    (hd : values.discountValue.toRat = some d) (hd0 : 0 ≤ d) (hd100 : d ≤ 100)
    (hp : values.discountType = "percentage") :
    (Ieee.calculateTotals values).subtotal.nonneg = true ∧
    ((Ieee.calculateTotals values).subtotal.isFinite = true →
      (Ieee.calculateTotals values).taxAmount.nonneg = true ∧
      (Ieee.calculateTotals values).discountAmount.nonneg = true) ∧
    (Ieee.ExactTotals values →
      ∃ s t x a : ℚ,
        (Ieee.calculateTotals values).subtotal.toRat = some s ∧
        (Ieee.calculateTotals values).taxAmount.toRat = some t ∧
        (Ieee.calculateTotals values).discountAmount.toRat = some x ∧
        (Ieee.calculateTotals values).amount.toRat = some a ∧
        0 ≤ x ∧ x ≤ s ∧ 0 ≤ t ∧ t ≤ a ∧ 0 ≤ a) := by
  have hsn : (Ieee.calculateTotals values).subtotal.nonneg = true :=
    ieee_foldl_nonneg values.items Ieee.F64.zero rfl h
  refine ⟨hsn, ?_, ?_⟩
  · intro hfin
    have hsn2 : (Ieee.subtotalOf values.items).nonneg = true := hsn
    have hfin2 : (Ieee.subtotalOf values.items).isFinite = true := hfin
    have hR := ieee_nonneg_field _ r hr hr0
    have hD := ieee_nonneg_field _ d hd hd0
    have hdef : (Ieee.calculateTotals values).discountAmount
        = Ieee.F64.div (Ieee.F64.mul (Ieee.subtotalOf values.items)
            values.discountValue.toNumber) (Ieee.F64.ofInt 100) := by
      simp only [Ieee.calculateTotals, if_pos hp]
    refine ⟨f64_div_hundred_nonneg _ (f64_mul_nonneg _ _ hsn2 hR.2.2.2 hfin2 hR.2.2.1), ?_⟩
    rw [hdef]
    exact f64_div_hundred_nonneg _ (f64_mul_nonneg _ _ hsn2 hD.2.2.2 hfin2 hD.2.2.1)
  · intro hx
    obtain ⟨hs, ht, hxd, ha⟩ := ieee_totals_exact values r d hr hd hp hx
    have hs0 : 0 ≤ Ieee.exactSubtotal values.items := ieee_exactSubtotal_nonneg values.items h
    have ht0 : 0 ≤ Ieee.exactSubtotal values.items * r / 100 :=
      div_nonneg (mul_nonneg hs0 hr0) (by norm_num)
    have hx0 : 0 ≤ Ieee.exactSubtotal values.items * d / 100 :=
      div_nonneg (mul_nonneg hs0 hd0) (by norm_num)
    have hx1 : Ieee.exactSubtotal values.items * d / 100 ≤ Ieee.exactSubtotal values.items := by
      have hmul : Ieee.exactSubtotal values.items * d ≤ Ieee.exactSubtotal values.items * 100 :=
        mul_le_mul_of_nonneg_left hd100 hs0
      linarith
    refine ⟨_, _, _, _, hs, ht, hxd, ha, hx0, hx1, ht0, ?_, ?_⟩
    · linarith
    · linarith

theorem wholeAmounts_exactTotals : Ieee.ExactTotals Ieee.wholeAmounts := by
  refine ⟨wholeAmounts_exactSubtotal, ?_, ?_, fun _ => ⟨?_, ?_⟩, ?_, ?_⟩
  · exact ieee_exact_of_eq _ _ _ _ 25 3 5 1 125 4 (by decide) (by decide) (by decide)
      (by norm_num)
  · exact ieee_exact_of_eq _ _ _ _ 125 4 25 2 5 2 (by decide) (by decide) (by decide)
      (by norm_num)
  · exact ieee_exact_of_eq _ _ _ _ 25 3 25 0 625 3 (by decide) (by decide) (by decide)
      (by norm_num)
  · exact ieee_exact_of_eq _ _ _ _ 625 3 25 2 25 1 (by decide) (by decide) (by decide)
      (by norm_num)
  · exact ieee_exact_of_eq _ _ _ _ 25 3 5 2 55 2 (by decide) (by decide) (by decide)
      (by norm_num)
  · exact ieee_exact_of_eq _ _ _ _ 55 2 25 1 85 1 (by decide) (by decide) (by decide)
      (by norm_num)

theorem wholeAmounts_nonneg :
    ∀ it ∈ Ieee.wholeAmounts.items, ∃ q p : ℚ, it.quantity.toRat = some q ∧
      it.unitPrice.toRat = some p ∧ 0 ≤ q ∧ 0 ≤ p := by
  have h2 : Ieee.F64.ofFrac 2 1 = Ieee.F64.fin 1 1 := by decide
  have h50 : Ieee.F64.ofFrac 50 1 = Ieee.F64.fin 25 1 := by decide
  have h4 : Ieee.F64.ofFrac 4 1 = Ieee.F64.fin 1 2 := by decide
  have h25 : Ieee.F64.ofFrac 25 1 = Ieee.F64.fin 25 0 := by decide
  intro it hit
  simp only [Ieee.wholeAmounts, List.mem_cons, List.mem_singleton, List.not_mem_nil,
    or_false] at hit
  rcases hit with rfl | rfl
  · refine ⟨2, 50, ?_, ?_, by norm_num, by norm_num⟩
    · simp only [Ieee.JSVal.ofFrac, Ieee.JSVal.toRat, h2]
      norm_num [Ieee.F64.toRat]
    · simp only [Ieee.JSVal.ofFrac, Ieee.JSVal.toRat, h50]
      norm_num [Ieee.F64.toRat]
  · refine ⟨4, 25, ?_, ?_, by norm_num, by norm_num⟩
    · simp only [Ieee.JSVal.ofFrac, Ieee.JSVal.toRat, h4]
      norm_num [Ieee.F64.toRat]
    · simp only [Ieee.JSVal.ofFrac, Ieee.JSVal.toRat, h25]
      norm_num [Ieee.F64.toRat]

theorem wholeAmounts_taxRate : Ieee.wholeAmounts.taxRate.toRat = some 10 := by
  have h10 : Ieee.F64.ofFrac 10 1 = Ieee.F64.fin 5 1 := by decide
  simp only [Ieee.wholeAmounts, Ieee.JSVal.ofFrac, Ieee.JSVal.toRat, h10]
  norm_num [Ieee.F64.toRat]

theorem wholeAmounts_discountValue : Ieee.wholeAmounts.discountValue.toRat = some 25 := by
  have h25 : Ieee.F64.ofFrac 25 1 = Ieee.F64.fin 25 0 := by decide
  simp only [Ieee.wholeAmounts, Ieee.JSVal.ofFrac, Ieee.JSVal.toRat, h25]
  norm_num [Ieee.F64.toRat]

theorem percentage_bounds_unless_rounded_witness :
    (∀ it ∈ Ieee.wholeAmounts.items, ∃ q p : ℚ, it.quantity.toRat = some q ∧
      it.unitPrice.toRat = some p ∧ 0 ≤ q ∧ 0 ≤ p) ∧
    Ieee.wholeAmounts.taxRate.toRat = some 10 ∧
    Ieee.wholeAmounts.discountValue.toRat = some 25 ∧
    Ieee.ExactTotals Ieee.wholeAmounts ∧
    ∃ s t x a : ℚ,
      (Ieee.calculateTotals Ieee.wholeAmounts).subtotal.toRat = some s ∧
      (Ieee.calculateTotals Ieee.wholeAmounts).taxAmount.toRat = some t ∧
      (Ieee.calculateTotals Ieee.wholeAmounts).discountAmount.toRat = some x ∧
      (Ieee.calculateTotals Ieee.wholeAmounts).amount.toRat = some a ∧
      0 ≤ x ∧ x ≤ s ∧ 0 ≤ t ∧ t ≤ a ∧ 0 ≤ a :=
  ⟨wholeAmounts_nonneg, wholeAmounts_taxRate, wholeAmounts_discountValue,
    wholeAmounts_exactTotals,
    (percentage_bounds_unless_rounded Ieee.wholeAmounts 10 25 wholeAmounts_nonneg
      wholeAmounts_taxRate (by norm_num) wholeAmounts_discountValue (by norm_num)
      (by norm_num) rfl).2.2 wholeAmounts_exactTotals⟩

/-- C21 fails as stated: for the single item 3 × 0.07 with tax 0 and a discount of 100 %, the
subtotal is 0.21000000000000002 and the discountAmount, (subtotal * 100) / 100 in double
arithmetic, is 0.21000000000000005, which is more than the subtotal; the grand total is
-2^-55, a negative number. -/
theorem discount_exceeds_subtotal_by_rounding :
    (∀ it ∈ Ieee.roundedDiscount.items, ∃ q p : ℚ, it.quantity.toRat = some q ∧
      it.unitPrice.toRat = some p ∧ 0 ≤ q ∧ 0 ≤ p) ∧
    Ieee.roundedDiscount.taxRate.toRat = some 0 ∧
    Ieee.roundedDiscount.discountValue.toRat = some 100 ∧
    Ieee.roundedDiscount.discountType = "percentage" ∧
    ∃ s x a : ℚ,
      (Ieee.calculateTotals Ieee.roundedDiscount).subtotal.toRat = some s ∧
      (Ieee.calculateTotals Ieee.roundedDiscount).discountAmount.toRat = some x ∧
      (Ieee.calculateTotals Ieee.roundedDiscount).amount.toRat = some a ∧
      s < x ∧ a < 0 := by
  have h3 : Ieee.F64.ofFrac 3 1 = Ieee.F64.fin 3 0 := by decide
  have h7 : Ieee.F64.ofFrac 7 100 = Ieee.F64.fin 1261007895663739 (-54) := by decide
  have h0 : Ieee.F64.ofFrac 0 1 = Ieee.F64.fin 0 0 := by decide
  have h100 : Ieee.F64.ofFrac 100 1 = Ieee.F64.fin 25 2 := by decide
  have hres : Ieee.calculateTotals Ieee.roundedDiscount
      = ⟨Ieee.F64.fin 3783023686991217 (-54), Ieee.F64.fin 0 0,
          Ieee.F64.fin 7566047373982435 (-55), Ieee.F64.fin (-1) (-55)⟩ := by decide
  refine ⟨?_, ?_, ?_, rfl, ?_⟩
  · intro it hit
    simp only [Ieee.roundedDiscount, List.mem_singleton] at hit
    subst hit
    refine ⟨3, (1261007895663739 : ℚ) * (2 : ℚ) ^ (-54 : ℤ), ?_, ?_, by norm_num,
      by norm_num⟩
    · simp only [Ieee.JSVal.ofFrac, Ieee.JSVal.toRat, h3]
      norm_num [Ieee.F64.toRat]
    · simp only [Ieee.JSVal.ofFrac, Ieee.JSVal.toRat, h7]
      norm_num [Ieee.F64.toRat]
  · simp only [Ieee.roundedDiscount, Ieee.JSVal.ofFrac, Ieee.JSVal.toRat, h0]
    norm_num [Ieee.F64.toRat]
  · simp only [Ieee.roundedDiscount, Ieee.JSVal.ofFrac, Ieee.JSVal.toRat, h100]
    norm_num [Ieee.F64.toRat]
  · rw [hres]
    refine ⟨(3783023686991217 : ℚ) * (2 : ℚ) ^ (-54 : ℤ),
      (7566047373982435 : ℚ) * (2 : ℚ) ^ (-55 : ℤ), (-1 : ℚ) * (2 : ℚ) ^ (-55 : ℤ),
      ?_, ?_, ?_, by norm_num, by norm_num⟩
    · norm_num [Ieee.F64.toRat]
    · norm_num [Ieee.F64.toRat]
    · norm_num [Ieee.F64.toRat]

/-! ### The revenue buckets in double arithmetic -/

theorem ieee_set_fresh (obj : Ieee.JSObject) (k : String) (v : Ieee.F64) (h : k ∉ obj.keys) :
    obj.set k v = obj ++ [(k, v)] := by
  unfold Ieee.JSObject.set
  rw [if_neg]
  intro hany
  rw [List.any_eq_true] at hany
  obtain ⟨p, hp, hk⟩ := hany
  exact h (List.mem_map.2 ⟨p, hp, by simpa using hk⟩)

theorem ieee_foldl_set_fresh (v : Ieee.F64) (ks : List String) (acc : Ieee.JSObject)
    (hnd : ks.Nodup) (hfresh : ∀ k ∈ ks, k ∉ acc.keys) :
    ks.foldl (fun obj k => Ieee.JSObject.set obj k v) acc = acc ++ ks.map (fun k => (k, v)) := by
  induction ks generalizing acc with
  | nil => simp
  | cons k rest ih =>
    rw [List.foldl_cons, ieee_set_fresh acc k v (hfresh k (List.mem_cons_self _ _))]
    rw [ih _ (List.nodup_cons.1 hnd).2]
    · simp
    · intro x hx hmem
      simp only [Ieee.JSObject.keys, List.map_append, List.map_cons, List.map_nil,
        List.mem_append, List.mem_singleton] at hmem
      rcases hmem with hmem | hmem
      · exact hfresh x (List.mem_cons_of_mem _ hx) hmem
      · exact (List.nodup_cons.1 hnd).1 (hmem ▸ hx)

theorem ieee_initMonths_eq (today : LocalDate) :
    Ieee.initMonths today
      = ((List.range 6).map (fun i => monthKey (windowMonth today i))).map
          (fun k => (k, Ieee.F64.zero)) := by
  have h := ieee_foldl_set_fresh Ieee.F64.zero _ [] (windowKeys_nodup today)
    (by simp [Ieee.JSObject.keys])
  rw [List.foldl_map, List.nil_append] at h
  exact h

theorem ieee_lookup_map_key (ks : List String) (g : String → Ieee.F64) (k : String) :
    (ks.map (fun x => (x, g x))).lookup k = if k ∈ ks then some (g k) else none := by
  induction ks with
  | nil => simp
  | cons x rest ih =>
    rw [List.map_cons, List.lookup_cons]
    by_cases hx : k = x
    · subst hx
      simp
    · have hbeq : (k == x) = false := by simpa using hx
      rw [hbeq, ih]
      simp [hx]

theorem ieee_set_map_key (ks : List String) (g : String → Ieee.F64) (k : String)
    (v : Ieee.F64) (hk : k ∈ ks) :
    Ieee.JSObject.set (ks.map (fun x => (x, g x))) k v
      = ks.map (fun x => (x, if x = k then v else g x)) := by
  unfold Ieee.JSObject.set
  rw [if_pos]
  · rw [List.map_map]
    apply List.map_congr_left
    intro x _
    by_cases hx : x = k
    · simp [hx]
    · simp [hx]
  · rw [List.any_eq_true]
    exact ⟨(k, g k), List.mem_map.2 ⟨k, hk, rfl⟩, by simp⟩

theorem ieee_addToMonth_map (ks : List String) (g : String → Ieee.F64) (d : LocalDate)
    (v : Ieee.F64) :
    Ieee.addToMonth (ks.map (fun k => (k, g k))) d v
      = ks.map (fun k => (k, if monthKey d = k then (g k).add v else g k)) := by
  unfold Ieee.addToMonth Ieee.JSObject.get
  rw [ieee_lookup_map_key ks g]
  by_cases hk : monthKey d ∈ ks
  · rw [if_pos hk]
    simp only
    rw [ieee_set_map_key ks g _ _ hk]
    apply List.map_congr_left
    intro x _
    by_cases hx : x = monthKey d
    · subst hx
      simp
    · have hx2 : ¬ monthKey d = x := fun h => hx h.symm
      simp [hx, hx2]
  · rw [if_neg hk]
    simp only
    apply List.map_congr_left
    intro x hxmem
    have hx2 : ¬ monthKey d = x := fun h => hk (h ▸ hxmem)
    simp [hx2]

theorem ieee_addInvoice_map (start : LocalDate) (ks : List String) (g : String → Ieee.F64)
    (invoice : Ieee.Invoice) :
    Ieee.addInvoice start (ks.map (fun k => (k, g k))) invoice
      = ks.map (fun k => (k, if invoice.addsTo start k = true then
          (g k).add invoice.amount.toNumber else g k)) := by
  unfold Ieee.addInvoice Ieee.Invoice.addsTo
  cases hd : invoice.issueDate with
  | none => simp
  | some d =>
    simp only
    by_cases hc : (d.ge start && invoice.amount.truthy) = true
    · rw [if_pos hc, ieee_addToMonth_map]
      apply List.map_congr_left
      intro k _
      by_cases hk : monthKey d = k
      · simp [hc, hk]
      · simp [hk]
    · rw [if_neg hc]
      have hc2 : (d.ge start && invoice.amount.truthy) = false := by simpa using hc
      apply List.map_congr_left
      intro k _
      simp [hc2]

theorem ieee_foldl_buckets (start : LocalDate) (xs : List Ieee.Invoice) (ks : List String)
    (g : String → Ieee.F64) :
    xs.foldl (Ieee.addInvoice start) (ks.map (fun k => (k, g k)))
      = ks.map (fun k => (k,
          ((xs.filter (Ieee.Invoice.addsTo start k)).map
            (fun invoice => invoice.amount.toNumber)).foldl Ieee.F64.add (g k))) := by
  induction xs generalizing g with
  | nil => simp
  | cons x rest ih =>
    rw [List.foldl_cons, ieee_addInvoice_map, ih]
    apply List.map_congr_left
    intro k _
    by_cases hk : x.addsTo start k = true
    · simp [hk]
    · simp [hk]

theorem ieee_addsTo_window (today : LocalDate) (i : Nat) (hi : i ≤ 5) (invoice : Ieee.Invoice) :
    invoice.addsTo (sixMonthsAgo today) (monthKey (windowMonth today i))
      = (invoice.amount.truthy && invoice.inMonth (windowMonth today i).monthIndex) := by
  unfold Ieee.Invoice.addsTo Ieee.Invoice.inMonth
  cases invoice.issueDate with
  | none => simp
  | some d =>
    simp only
    have hiff := ge_and_key_iff today d i hi
    by_cases h : d.monthIndex = (windowMonth today i).monthIndex
    · have h1 := hiff.2 h
      rw [Bool.and_eq_true, decide_eq_true_eq] at h1
      simp [h1.1, h1.2, h]
    · have h2 : ¬ monthKey d = monthKey (windowMonth today i) := by
        intro hc
        apply h
        exact (monthKey_eq_iff _ _).1 hc
      simp [h, h2]

theorem ieee_revenueByMonth_eq (today : LocalDate) (invoices : List Ieee.Invoice) :
    Ieee.revenueByMonth today invoices
      = (List.range 6).map (fun i => (monthKey (windowMonth today i),
          Ieee.sumOf (Ieee.monthAmounts invoices (windowMonth today i).monthIndex))) := by
  unfold Ieee.revenueByMonth
  rw [ieee_initMonths_eq, ieee_foldl_buckets, List.map_map]
  apply List.map_congr_left
  intro i hi
  have hi5 : i ≤ 5 := by
    have := List.mem_range.1 hi
    omega
  simp only [Function.comp_apply, Ieee.sumOf, Ieee.monthAmounts]
  have hfun : Ieee.Invoice.addsTo (sixMonthsAgo today) (monthKey (windowMonth today i))
      = fun invoice => (invoice.amount.truthy
          && Ieee.Invoice.inMonth (windowMonth today i).monthIndex invoice) :=
    funext (ieee_addsTo_window today i hi5)
  rw [hfun, List.filter_filter]

theorem ieee_lookup_map_index (key : Nat → String) (w : Nat → Ieee.F64) (l : List Nat)
    (j : Nat) (hj : j ∈ l) (hinj : ∀ i ∈ l, key i = key j → i = j) :
    (l.map (fun i => (key i, w i))).lookup (key j) = some (w j) := by
  induction l with
  | nil => simp at hj
  | cons x rest ih =>
    rw [List.map_cons, List.lookup_cons]
    by_cases hx : key j = key x
    · have hxj : x = j := hinj x (List.mem_cons_self _ _) hx.symm
      subst hxj
      simp
    · have hbeq : (key j == key x) = false := by simpa using hx
      rw [hbeq]
      have hjr : j ∈ rest := by
        rcases List.mem_cons.1 hj with h | h
        · exact absurd (congrArg key h) hx
        · exact h
      exact ih hjr (fun i hi => hinj i (List.mem_cons_of_mem _ hi))

theorem ieee_series_of_object (key : Nat → String) (v : Nat → Ieee.F64)
    (hnd : ((List.range 6).map key).Nodup) :
    (Ieee.JSObject.keys ((List.range 6).map (fun i => (key i, v i)))).reverse
      = (List.range 6).map (fun k => key (5 - k)) ∧
    ((Ieee.JSObject.keys ((List.range 6).map (fun i => (key i, v i)))).reverse).map
        (fun m => Ieee.JSObject.get ((List.range 6).map (fun i => (key i, v i))) m)
      = (List.range 6).map (fun k => some (v (5 - k))) := by
  have hkeys : (Ieee.JSObject.keys ((List.range 6).map (fun i => (key i, v i)))).reverse
      = (List.range 6).map (fun k => key (5 - k)) := by
    unfold Ieee.JSObject.keys
    rw [List.map_map, ← List.map_reverse, range_six_reverse, List.map_map]
    rfl
  refine ⟨hkeys, ?_⟩
  rw [hkeys, List.map_map]
  apply List.map_congr_left
  intro k hk
  have hk6 : k < 6 := List.mem_range.1 hk
  have hinj := List.inj_on_of_nodup_map hnd
  exact ieee_lookup_map_index key v (List.range 6) (5 - k)
    (List.mem_range.2 (by omega))
    (fun i hi h => hinj hi (List.mem_range.2 (by omega)) h)

theorem ieee_monthLabels_eq (today : LocalDate) (invoices : List Ieee.Invoice) :
    Ieee.monthLabels today invoices
      = (List.range 6).map (fun k => monthKey (windowMonth today (5 - k))) := by
  unfold Ieee.monthLabels
  rw [ieee_revenueByMonth_eq]
  exact (ieee_series_of_object (fun i => monthKey (windowMonth today i)) _
    (windowKeys_nodup today)).1

theorem ieee_monthData_eq (today : LocalDate) (invoices : List Ieee.Invoice) :
    Ieee.monthData today invoices
      = (List.range 6).map (fun (k : Nat) =>
          some (Ieee.sumOf
            (Ieee.monthAmounts invoices (windowMonth today (5 - k)).monthIndex))) := by
  unfold Ieee.monthData Ieee.monthLabels
  rw [ieee_revenueByMonth_eq]
  exact (ieee_series_of_object (fun i => monthKey (windowMonth today i))
    (fun i => Ieee.sumOf (Ieee.monthAmounts invoices (windowMonth today i).monthIndex))
    (windowKeys_nodup today)).2

/-! ### Order of the invoices and the revenue series, in double arithmetic -/

theorem ieee_sum_exact (xs : List Ieee.F64) (acc : Ieee.F64) (t : ℚ)
    (ht : acc.toRat = some t) (h : Ieee.ExactSum acc xs) :
    (xs.foldl Ieee.F64.add acc).toRat = some (t + (xs.map Ieee.F64.value).sum) := by
  induction xs generalizing acc t with
  | nil => simpa using ht
  | cons x rest ih =>
    obtain ⟨hadd, hrest⟩ := h
    obtain ⟨a, b, ha, hb, hab⟩ := hadd
    rw [ht] at ha
    have hat : t = a := Option.some.inj ha
    subst hat
    rw [List.foldl_cons, ih _ _ hab hrest]
    simp [f64_value_of_toRat _ _ hb, add_assoc]

theorem ieee_sumOf_exact (xs : List Ieee.F64) (h : Ieee.ExactSum Ieee.F64.zero xs) :
    (Ieee.sumOf xs).toRat = some ((xs.map Ieee.F64.value).sum) := by
  have := ieee_sum_exact xs Ieee.F64.zero 0 f64_zero_toRat h
  rwa [zero_add] at this

theorem ieee_monthAmounts_perm (xs ys : List Ieee.Invoice) (h : xs.Perm ys) (idx : Int) :
    (Ieee.monthAmounts xs idx).Perm (Ieee.monthAmounts ys idx) := by
  unfold Ieee.monthAmounts
  exact ((h.filter _).filter _).map _


/-! ### Whole amounts -/

theorem ieee_truthy_value (invoice : Ieee.Invoice) :
    invoice.value = if invoice.amount.truthy = true then invoice.amount.toNumber.value else 0 := by
  unfold Ieee.Invoice.value
  cases hv : invoice.amount with
  | number x =>
    by_cases ht : (Ieee.JSVal.number x).truthy = true
    · simp [Ieee.JSVal.orZero, Ieee.JSVal.toNumber, ht]
    · simp [Ieee.JSVal.orZero, ht, Ieee.F64.value, Ieee.F64.zero, Ieee.F64.toRat]
  | emptyStr =>
    simp [Ieee.JSVal.orZero, Ieee.JSVal.truthy, Ieee.F64.value, Ieee.F64.zero, Ieee.F64.toRat]
  | undefined =>
    simp [Ieee.JSVal.orZero, Ieee.JSVal.truthy, Ieee.F64.value, Ieee.F64.zero, Ieee.F64.toRat]

theorem ieee_truthy_sum (l : List Ieee.Invoice) :
    (((l.filter (fun invoice => invoice.amount.truthy)).map
        (fun invoice => invoice.amount.toNumber)).map Ieee.F64.value).sum
      = (l.map Ieee.Invoice.value).sum := by
  induction l with
  | nil => simp
  | cons x rest ih =>
    rw [List.map_cons, List.sum_cons, ← ih, ieee_truthy_value x]
    by_cases ht : x.amount.truthy = true
    · simp [ht]
    · simp [ht]

theorem ieee_whole_exactSum (xs : List Ieee.F64) (acc : Ieee.F64) (ha : acc.isWhole = true)
    (h : ∀ x ∈ xs, x.isWhole = true)
    (hs : acc.value + (xs.map Ieee.F64.value).sum < 2 ^ 53) :
    Ieee.ExactSum acc xs := by
  induction xs generalizing acc with
  | nil => trivial
  | cons x rest ih =>
    have hx := h x (List.mem_cons_self _ _)
    have hrest : ∀ y ∈ rest, y.isWhole = true := fun y hy => h y (List.mem_cons_of_mem _ hy)
    have hr0 := ieee_whole_sum_nonneg rest hrest
    rw [List.map_cons, List.sum_cons] at hs
    have hadd := f64_add_whole acc x ha hx (by linarith)
    have hnew : (acc.add x).value = acc.value + x.value := f64_value_of_toRat _ _ hadd.2
    have hnext : (acc.add x).value + (rest.map Ieee.F64.value).sum < 2 ^ 53 := by
      rw [hnew]
      linarith
    exact ⟨⟨_, _, f64_whole_toRat_value _ ha, f64_whole_toRat_value _ hx, hadd.2⟩,
      ih (acc.add x) hadd.1 hrest hnext⟩

theorem ieee_toNumber_of_truthy (v : Ieee.JSVal) (h : v.truthy = true) :
    v.toNumber = v.orZero := by
  cases v with
  | number x => simp [Ieee.JSVal.orZero, Ieee.JSVal.toNumber, h]
  | emptyStr => simp [Ieee.JSVal.truthy] at h
  | undefined => simp [Ieee.JSVal.truthy] at h

theorem ieee_monthAmounts_whole (invoices : List Ieee.Invoice) (idx : Int)
    (h : ∀ inv ∈ invoices, inv.amount.orZero.isWhole = true) :
    ∀ x ∈ Ieee.monthAmounts invoices idx, x.isWhole = true := by
  intro x hx
  unfold Ieee.monthAmounts at hx
  obtain ⟨inv, hinv, rfl⟩ := List.mem_map.1 hx
  rw [List.mem_filter] at hinv
  obtain ⟨hmem, htruthy⟩ := hinv
  rw [ieee_toNumber_of_truthy _ htruthy]
  exact h inv (List.mem_filter.1 hmem).1

theorem ieee_filter_sum_le (l : List Ieee.Invoice) (p : Ieee.Invoice → Bool)
    (h : ∀ inv ∈ l, 0 ≤ inv.value) :
    ((l.filter p).map Ieee.Invoice.value).sum ≤ (l.map Ieee.Invoice.value).sum := by
  induction l with
  | nil => simp
  | cons x rest ih =>
    have hrest := ih (fun inv hinv => h inv (List.mem_cons_of_mem _ hinv))
    have hx := h x (List.mem_cons_self _ _)
    by_cases hp : p x = true
    · rw [List.filter_cons_of_pos hp, List.map_cons, List.sum_cons, List.map_cons,
        List.sum_cons]
      linarith
    · rw [List.filter_cons_of_neg hp, List.map_cons, List.sum_cons]
      linarith

theorem ieee_whole_invoice_nonneg (invoices : List Ieee.Invoice)
    (h : ∀ inv ∈ invoices, inv.amount.orZero.isWhole = true) :
    ∀ inv ∈ invoices, 0 ≤ inv.value :=
  fun inv hinv => f64_whole_value_nonneg _ (h inv hinv)

/-- Whole amounts with an exact total of less than `2 ^ 53` are added up without rounding, in
`totalRevenue` and in every bucket. -/
theorem ieee_whole_invoices_exact (invoices : List Ieee.Invoice)
    (h : ∀ inv ∈ invoices, inv.amount.orZero.isWhole = true)
    (hs : (invoices.map Ieee.Invoice.value).sum < 2 ^ 53) :
    Ieee.ExactSum Ieee.F64.zero (invoices.map (fun invoice => invoice.amount.orZero)) ∧
    ∀ idx : Int, Ieee.ExactSum Ieee.F64.zero (Ieee.monthAmounts invoices idx) := by
  have hz : Ieee.F64.zero.isWhole = true := by decide
  have hzv : Ieee.F64.zero.value = 0 := f64_value_of_toRat _ _ f64_zero_toRat
  constructor
  · apply ieee_whole_exactSum _ _ hz
    · intro x hx
      obtain ⟨inv, hinv, rfl⟩ := List.mem_map.1 hx
      exact h inv hinv
    · rw [hzv, zero_add, List.map_map]
      exact hs
  · intro idx
    apply ieee_whole_exactSum _ _ hz (ieee_monthAmounts_whole invoices idx h)
    rw [hzv, zero_add]
    have h1 : ((Ieee.monthAmounts invoices idx).map Ieee.F64.value).sum
        = ((invoices.filter (Ieee.Invoice.inMonth idx)).map Ieee.Invoice.value).sum := by
      unfold Ieee.monthAmounts
      exact ieee_truthy_sum _
    rw [h1]
    exact lt_of_le_of_lt
      (ieee_filter_sum_le invoices _ (ieee_whole_invoice_nonneg invoices h)) hs

/-- C16, amended: for every current date, a list of invoices and any permutation of it give
the same labels, and each bucket is the sum, taken in double arithmetic in the order of the
list, of the truthy amounts of the invoices dated in its month, so several invoices of one
month add up. The bucket values are the same when the permutation keeps the order of the
invoices within each of the six months, and they are equal as numbers when the additions of
both orders are exact, which is the case when all amounts are whole numbers with an exact
total of less than 2^53. -/
theorem revenue_series_order_within_months (today : LocalDate) (xs ys : List Ieee.Invoice)
    (h : xs.Perm ys) :
    Ieee.monthLabels today xs = Ieee.monthLabels today ys ∧
    Ieee.monthData today xs = (List.range 6).map (fun (k : Nat) =>
      some (Ieee.sumOf (Ieee.monthAmounts xs (windowMonth today (5 - k)).monthIndex))) ∧
    ((∀ k : Nat, k < 6 →
        xs.filter (Ieee.Invoice.inMonth (windowMonth today (5 - k)).monthIndex)
          = ys.filter (Ieee.Invoice.inMonth (windowMonth today (5 - k)).monthIndex)) →
      Ieee.monthData today xs = Ieee.monthData today ys) ∧
    ((∀ k : Nat, k < 6 →
        Ieee.ExactSum Ieee.F64.zero
          (Ieee.monthAmounts xs (windowMonth today (5 - k)).monthIndex) ∧
        Ieee.ExactSum Ieee.F64.zero
          (Ieee.monthAmounts ys (windowMonth today (5 - k)).monthIndex)) →
      (Ieee.monthData today xs).map Ieee.bucketValue
        = (Ieee.monthData today ys).map Ieee.bucketValue) ∧
    ((∀ inv ∈ xs, inv.amount.orZero.isWhole = true) →
      (xs.map Ieee.Invoice.value).sum < 2 ^ 53 →
      (Ieee.monthData today xs).map Ieee.bucketValue
        = (Ieee.monthData today ys).map Ieee.bucketValue) := by
  have hexact : (∀ k : Nat, k < 6 →
        Ieee.ExactSum Ieee.F64.zero
          (Ieee.monthAmounts xs (windowMonth today (5 - k)).monthIndex) ∧
        Ieee.ExactSum Ieee.F64.zero
          (Ieee.monthAmounts ys (windowMonth today (5 - k)).monthIndex)) →
      (Ieee.monthData today xs).map Ieee.bucketValue
        = (Ieee.monthData today ys).map Ieee.bucketValue := by
    intro hex
    rw [ieee_monthData_eq, ieee_monthData_eq, List.map_map, List.map_map]
    apply List.map_congr_left
    intro k hk
    obtain ⟨h1, h2⟩ := hex k (List.mem_range.1 hk)
    simp only [Function.comp_apply, Ieee.bucketValue]
    rw [f64_value_of_toRat _ _ (ieee_sumOf_exact _ h1),
      f64_value_of_toRat _ _ (ieee_sumOf_exact _ h2)]
    exact ((ieee_monthAmounts_perm xs ys h _).map _).sum_eq
  refine ⟨?_, ieee_monthData_eq today xs, ?_, hexact, ?_⟩
  · rw [ieee_monthLabels_eq, ieee_monthLabels_eq]
  · intro hord
    rw [ieee_monthData_eq, ieee_monthData_eq]
    apply List.map_congr_left
    intro k hk
    unfold Ieee.monthAmounts
    rw [hord k (List.mem_range.1 hk)]
  · intro hw hs
    have hwy : ∀ inv ∈ ys, inv.amount.orZero.isWhole = true :=
      fun inv hinv => hw inv (h.mem_iff.2 hinv)
    have hsy : (ys.map Ieee.Invoice.value).sum < 2 ^ 53 := by
      rw [← (h.map Ieee.Invoice.value).sum_eq]
      exact hs
    exact hexact (fun k _ => ⟨(ieee_whole_invoices_exact xs hw hs).2 _,
      (ieee_whole_invoices_exact ys hwy hsy).2 _⟩)

theorem wholeInvoices_perm : Ieee.wholeInvoicesMoved.Perm Ieee.wholeInvoices :=
  List.Perm.swap _ _ _

theorem wholeInvoices_order (k : Nat) (hk : k < 6) :
    Ieee.wholeInvoicesMoved.filter
        (Ieee.Invoice.inMonth (windowMonth januaryToday (5 - k)).monthIndex)
      = Ieee.wholeInvoices.filter
        (Ieee.Invoice.inMonth (windowMonth januaryToday (5 - k)).monthIndex) := by
  interval_cases k <;> decide

theorem revenue_series_order_within_months_witness :
    Ieee.wholeInvoicesMoved.Perm Ieee.wholeInvoices ∧
    Ieee.monthLabels januaryToday Ieee.wholeInvoicesMoved
      = Ieee.monthLabels januaryToday Ieee.wholeInvoices ∧
    Ieee.monthData januaryToday Ieee.wholeInvoicesMoved
      = Ieee.monthData januaryToday Ieee.wholeInvoices :=
  ⟨wholeInvoices_perm,
    (revenue_series_order_within_months januaryToday _ _ wholeInvoices_perm).1,
    (revenue_series_order_within_months januaryToday _ _ wholeInvoices_perm).2.2.1
      wholeInvoices_order⟩

/-- C16 fails as stated: three invoices of one month with the amounts 0.1, 0.2 and 0.3 give
the bucket 0.6000000000000001 in this order and 0.6 in the reverse order. -/
theorem revenue_series_depends_on_order :
    Ieee.sameMonthInvoices.reverse.Perm Ieee.sameMonthInvoices ∧
    Ieee.monthData januaryToday Ieee.sameMonthInvoices
      = [some Ieee.F64.zero, some Ieee.F64.zero, some Ieee.F64.zero, some Ieee.F64.zero,
          some Ieee.F64.zero, some (Ieee.F64.fin 1351079888211149 (-51))] ∧
    Ieee.monthData januaryToday Ieee.sameMonthInvoices.reverse
      = [some Ieee.F64.zero, some Ieee.F64.zero, some Ieee.F64.zero, some Ieee.F64.zero,
          some Ieee.F64.zero, some (Ieee.F64.fin 5404319552844595 (-53))] ∧
    Ieee.monthData januaryToday Ieee.sameMonthInvoices.reverse
      ≠ Ieee.monthData januaryToday Ieee.sameMonthInvoices := by
  have h1 : Ieee.monthData januaryToday Ieee.sameMonthInvoices
      = [some Ieee.F64.zero, some Ieee.F64.zero, some Ieee.F64.zero, some Ieee.F64.zero,
          some Ieee.F64.zero, some (Ieee.F64.fin 1351079888211149 (-51))] := by decide
  have h2 : Ieee.monthData januaryToday Ieee.sameMonthInvoices.reverse
      = [some Ieee.F64.zero, some Ieee.F64.zero, some Ieee.F64.zero, some Ieee.F64.zero,
          some Ieee.F64.zero, some (Ieee.F64.fin 5404319552844595 (-53))] := by decide
  refine ⟨List.reverse_perm _, h1, h2, ?_⟩
  rw [h1, h2]
  decide

/-! ### The buckets and the total revenue, in double arithmetic -/

theorem ieee_totalRevenue_exact (invoices : List Ieee.Invoice)
    (hx : Ieee.ExactSum Ieee.F64.zero (invoices.map (fun invoice => invoice.amount.orZero))) :
    (Ieee.totalRevenue invoices).toRat = some ((invoices.map Ieee.Invoice.value).sum) := by
  have h := ieee_sumOf_exact _ hx
  rw [List.map_map] at h
  exact h

theorem ieee_monthRevenue_exact (invoices : List Ieee.Invoice) (idx : Int) :
    ((Ieee.monthAmounts invoices idx).map Ieee.F64.value).sum
      = monthRevenue (invoices.map Ieee.Invoice.exact) idx := by
  unfold Ieee.monthAmounts monthRevenue
  rw [ieee_truthy_sum, List.filter_map, List.map_map]
  have hp : (Invoice.inMonth idx ∘ Ieee.Invoice.exact) = Ieee.Invoice.inMonth idx := by
    funext invoice
    rfl
  have hv : (Invoice.value ∘ Ieee.Invoice.exact) = Ieee.Invoice.value := by
    funext invoice
    rfl
  rw [hp, hv]

/-- C24, amended: when every invoice amount is non-negative (a missing amount counting as 0)
and no addition of `totalRevenue` and of the six buckets rounds or overflows, `totalRevenue` is
the exact sum of all invoice amounts and the six buckets of the revenue chart sum to at most
`totalRevenue`; this holds for every current date, and in particular when all amounts are
whole numbers with an exact total of less than 2^53. -/
theorem buckets_le_total_unless_rounded (today : LocalDate) (invoices : List Ieee.Invoice)
    (h : ∀ inv ∈ invoices, 0 ≤ inv.value) :
    (Ieee.ExactSum Ieee.F64.zero (invoices.map (fun invoice => invoice.amount.orZero)) →
      (∀ k : Nat, k < 6 → Ieee.ExactSum Ieee.F64.zero
        (Ieee.monthAmounts invoices (windowMonth today (5 - k)).monthIndex)) →
      (Ieee.totalRevenue invoices).toRat = some ((invoices.map Ieee.Invoice.value).sum) ∧
      Ieee.bucketSum (Ieee.monthData today invoices)
        ≤ (invoices.map Ieee.Invoice.value).sum) ∧
    ((∀ inv ∈ invoices, inv.amount.orZero.isWhole = true) →
      (invoices.map Ieee.Invoice.value).sum < 2 ^ 53 →
      (Ieee.totalRevenue invoices).toRat = some ((invoices.map Ieee.Invoice.value).sum) ∧
      Ieee.bucketSum (Ieee.monthData today invoices)
        ≤ (invoices.map Ieee.Invoice.value).sum) := by
  have hmain : Ieee.ExactSum Ieee.F64.zero
        (invoices.map (fun invoice => invoice.amount.orZero)) →
      (∀ k : Nat, k < 6 → Ieee.ExactSum Ieee.F64.zero
        (Ieee.monthAmounts invoices (windowMonth today (5 - k)).monthIndex)) →
      (Ieee.totalRevenue invoices).toRat = some ((invoices.map Ieee.Invoice.value).sum) ∧
      Ieee.bucketSum (Ieee.monthData today invoices)
        ≤ (invoices.map Ieee.Invoice.value).sum := by
    intro hx hb
    refine ⟨ieee_totalRevenue_exact invoices hx, ?_⟩
    have hbuckets : Ieee.bucketSum (Ieee.monthData today invoices)
        = ((List.range 6).map (fun (k : Nat) =>
            monthRevenue (invoices.map Ieee.Invoice.exact)
              (windowMonth today (5 - k)).monthIndex)).sum := by
      unfold Ieee.bucketSum
      rw [ieee_monthData_eq, List.map_map]
      congr 1
      apply List.map_congr_left
      intro k hk
      simp only [Function.comp_apply, Ieee.bucketValue]
      rw [f64_value_of_toRat _ _ (ieee_sumOf_exact _ (hb k (List.mem_range.1 hk))),
        ieee_monthRevenue_exact]
    have htotal : (invoices.map Ieee.Invoice.value).sum
        = ((invoices.map Ieee.Invoice.exact).map Invoice.value).sum := by
      rw [List.map_map]
      rfl
    rw [hbuckets, htotal]
    apply sum_monthRevenue_le (List.range 6)
      (fun (k : Nat) => (windowMonth today (5 - k)).monthIndex) (windowIndex_nodup today)
    intro inv hinv
    obtain ⟨x, hxmem, rfl⟩ := List.mem_map.1 hinv
    exact h x hxmem
  refine ⟨hmain, ?_⟩
  intro hw hs
  have hex := ieee_whole_invoices_exact invoices hw hs
  exact hmain hex.1 (fun k _ => hex.2 _)

theorem wholeInvoices_amounts :
    Ieee.wholeInvoices.map (fun invoice => invoice.amount.orZero)
      = [Ieee.F64.fin 25 2, Ieee.F64.fin 25 0, Ieee.F64.fin 25 1, Ieee.F64.fin 0 0,
          Ieee.F64.fin 1 3] := by
  decide

theorem wholeInvoices_nonneg : ∀ inv ∈ Ieee.wholeInvoices, 0 ≤ inv.value := by
  have hall : ∀ x ∈ Ieee.wholeInvoices.map (fun invoice => invoice.amount.orZero),
      0 ≤ x.value := by
    rw [wholeInvoices_amounts]
    intro x hx
    simp only [List.mem_cons, List.mem_singleton, List.not_mem_nil, or_false] at hx
    rcases hx with rfl | rfl | rfl | rfl | rfl <;>
      norm_num [Ieee.F64.value, Ieee.F64.toRat]
  intro inv hinv
  exact hall _ (List.mem_map.2 ⟨inv, hinv, rfl⟩)

theorem wholeInvoices_exactTotal :
    Ieee.ExactSum Ieee.F64.zero
      (Ieee.wholeInvoices.map (fun invoice => invoice.amount.orZero)) := by
  rw [wholeInvoices_amounts]
  refine ⟨?_, ?_, ?_, ?_, ?_, trivial⟩
  · exact ieee_exact_of_eq _ _ _ _ 0 0 25 2 25 2 (by decide) (by decide) (by decide)
      (by norm_num)
  · exact ieee_exact_of_eq _ _ _ _ 25 2 25 0 125 0 (by decide) (by decide) (by decide)
      (by norm_num)
  · exact ieee_exact_of_eq _ _ _ _ 125 0 25 1 175 0 (by decide) (by decide) (by decide)
      (by norm_num)
  · exact ieee_exact_of_eq _ _ _ _ 175 0 0 0 175 0 (by decide) (by decide) (by decide)
      (by norm_num)
  · exact ieee_exact_of_eq _ _ _ _ 175 0 1 3 183 0 (by decide) (by decide) (by decide)
      (by norm_num)

theorem wholeInvoices_exactBuckets (k : Nat) (hk : k < 6) :
    Ieee.ExactSum Ieee.F64.zero
      (Ieee.monthAmounts Ieee.wholeInvoices (windowMonth januaryToday (5 - k)).monthIndex) := by
  have hjan : Ieee.monthAmounts Ieee.wholeInvoices (windowMonth januaryToday (5 - 5)).monthIndex
      = [Ieee.F64.fin 25 2, Ieee.F64.fin 25 1] := by decide
  have hdec : Ieee.monthAmounts Ieee.wholeInvoices (windowMonth januaryToday (5 - 4)).monthIndex
      = [Ieee.F64.fin 25 0] := by decide
  have h3 : Ieee.monthAmounts Ieee.wholeInvoices (windowMonth januaryToday (5 - 3)).monthIndex
      = [] := by decide
  have h2 : Ieee.monthAmounts Ieee.wholeInvoices (windowMonth januaryToday (5 - 2)).monthIndex
      = [] := by decide
  have h1 : Ieee.monthAmounts Ieee.wholeInvoices (windowMonth januaryToday (5 - 1)).monthIndex
      = [] := by decide
  have h0 : Ieee.monthAmounts Ieee.wholeInvoices (windowMonth januaryToday (5 - 0)).monthIndex
      = [] := by decide
  interval_cases k
  · rw [h0]
    trivial
  · rw [h1]
    trivial
  · rw [h2]
    trivial
  · rw [h3]
    trivial
  · rw [hdec]
    refine ⟨?_, trivial⟩
    exact ieee_exact_of_eq _ _ _ _ 0 0 25 0 25 0 (by decide) (by decide) (by decide)
      (by norm_num)
  · rw [hjan]
    refine ⟨?_, ?_, trivial⟩
    · exact ieee_exact_of_eq _ _ _ _ 0 0 25 2 25 2 (by decide) (by decide) (by decide)
        (by norm_num)
    · exact ieee_exact_of_eq _ _ _ _ 25 2 25 1 75 1 (by decide) (by decide) (by decide)
        (by norm_num)

theorem buckets_le_total_unless_rounded_witness :
    (∀ inv ∈ Ieee.wholeInvoices, 0 ≤ inv.value) ∧
    Ieee.ExactSum Ieee.F64.zero
      (Ieee.wholeInvoices.map (fun invoice => invoice.amount.orZero)) ∧
    (Ieee.totalRevenue Ieee.wholeInvoices).toRat
      = some ((Ieee.wholeInvoices.map Ieee.Invoice.value).sum) ∧
    Ieee.bucketSum (Ieee.monthData januaryToday Ieee.wholeInvoices)
      ≤ (Ieee.wholeInvoices.map Ieee.Invoice.value).sum :=
  ⟨wholeInvoices_nonneg, wholeInvoices_exactTotal,
    (buckets_le_total_unless_rounded januaryToday Ieee.wholeInvoices wholeInvoices_nonneg).1
      wholeInvoices_exactTotal wholeInvoices_exactBuckets⟩

/-- C24 fails as stated: for the invoices 0.3 (March), 0.2 (February) and 0.1 (January),
`totalRevenue` is (0.3 + 0.2) + 0.1 = 0.6 in double arithmetic, while the three buckets hold
0.1, 0.2 and 0.3, whose sum is more than that double, whether it is taken exactly or in double
arithmetic (0.6000000000000001). -/
theorem buckets_exceed_total_by_rounding :
    (∀ inv ∈ Ieee.threeMonthInvoices, 0 ≤ inv.value) ∧
    Ieee.totalRevenue Ieee.threeMonthInvoices = Ieee.F64.fin 5404319552844595 (-53) ∧
    Ieee.monthData Ieee.marchToday Ieee.threeMonthInvoices
      = [some Ieee.F64.zero, some Ieee.F64.zero, some Ieee.F64.zero,
          some (Ieee.F64.fin 3602879701896397 (-55)), some (Ieee.F64.fin 3602879701896397 (-54)),
          some (Ieee.F64.fin 5404319552844595 (-54))] ∧
    (Ieee.totalRevenue Ieee.threeMonthInvoices).value
      < Ieee.bucketSum (Ieee.monthData Ieee.marchToday Ieee.threeMonthInvoices) ∧
    (Ieee.totalRevenue Ieee.threeMonthInvoices).value
      < (Ieee.sumOf ((Ieee.monthData Ieee.marchToday Ieee.threeMonthInvoices).map
          (fun x => x.getD Ieee.F64.zero))).value := by
  have htotal : Ieee.totalRevenue Ieee.threeMonthInvoices
      = Ieee.F64.fin 5404319552844595 (-53) := by decide
  have hdata : Ieee.monthData Ieee.marchToday Ieee.threeMonthInvoices
      = [some Ieee.F64.zero, some Ieee.F64.zero, some Ieee.F64.zero,
          some (Ieee.F64.fin 3602879701896397 (-55)), some (Ieee.F64.fin 3602879701896397 (-54)),
          some (Ieee.F64.fin 5404319552844595 (-54))] := by decide
  have hamounts : Ieee.threeMonthInvoices.map (fun invoice => invoice.amount.orZero)
      = [Ieee.F64.fin 5404319552844595 (-54), Ieee.F64.fin 3602879701896397 (-54),
          Ieee.F64.fin 3602879701896397 (-55)] := by decide
  have hsum : Ieee.sumOf [Ieee.F64.zero, Ieee.F64.zero, Ieee.F64.zero,
      Ieee.F64.fin 3602879701896397 (-55), Ieee.F64.fin 3602879701896397 (-54),
      Ieee.F64.fin 5404319552844595 (-54)] = Ieee.F64.fin 1351079888211149 (-51) := by decide
  refine ⟨?_, htotal, hdata, ?_, ?_⟩
  · have hall : ∀ x ∈ Ieee.threeMonthInvoices.map (fun invoice => invoice.amount.orZero),
        0 ≤ x.value := by
      rw [hamounts]
      intro x hx
      simp only [List.mem_cons, List.mem_singleton, List.not_mem_nil, or_false] at hx
      rcases hx with rfl | rfl | rfl <;> norm_num [Ieee.F64.value, Ieee.F64.toRat]
    intro inv hinv
    exact hall _ (List.mem_map.2 ⟨inv, hinv, rfl⟩)
  · rw [htotal, hdata]
    norm_num [Ieee.bucketSum, Ieee.bucketValue, Ieee.F64.value, Ieee.F64.toRat, Ieee.F64.zero]
  · rw [htotal, hdata]
    simp only [List.map_cons, List.map_nil, Option.getD_some]
    rw [hsum]
    norm_num [Ieee.F64.value, Ieee.F64.toRat]

end Eventra
